import Mathlib

/-!
# java-profiler: event sampling and recording pipeline

A shallow embedding of parts of `ddprof-lib/src/main/cpp` (`buffers.h`, `engine.h`,
`perfEvents_linux.cpp`, `arguments.cpp`) and of `src/objectSampler.cpp`, together with
theorems about the embedded code.

Conventions of the embedding.
* Machine integers are `Nat`/`Int`; where a C type truncates, the reduction is written out
  (`% 256` for a `char` store, `% 2 ^ 32` for `u32`, `% 2 ^ 64` for `u64`).
* A failed `assert` makes an operation return `none`.
* Loops whose trip count is bounded by the width of their operand take that width as fuel.
-/

namespace JavaProfiler

/-! ## `buffers.h` -/

/-- `const int BUFFER_SIZE = 1024;` -/
def BUFFER_SIZE : Int := 1024
/-- `const int BUFFER_LIMIT = BUFFER_SIZE - 128;` -/
def BUFFER_LIMIT : Int := BUFFER_SIZE - 128
/-- `const int RECORDING_BUFFER_SIZE = 65536;` -/
def RECORDING_BUFFER_SIZE : Int := 65536
/-- `const int RECORDING_BUFFER_LIMIT = RECORDING_BUFFER_SIZE - 4096;` -/
def RECORDING_BUFFER_LIMIT : Int := RECORDING_BUFFER_SIZE - 4096
/-- `const int MAX_STRING_LENGTH = 8191;` -/
def MAX_STRING_LENGTH : Nat := 8191

/-- State of a `Buffer` object: the cursor `_offset`, the bytes reachable from `_data`
(each entry a byte, `0 ≤ x < 256`) and the value of the virtual method `limit()`, which is
fixed by the dynamic type of the object (`Buffer::_limit` or `RecordingBuffer::_limit`). -/
structure Buffer where
  _offset : Int
  _data : List Nat
  limit : Int
deriving DecidableEq, Repr

/-- `static const int _limit = BUFFER_SIZE - sizeof(int);` of `Buffer`, with a 4-byte `int`. -/
def Buffer._limit : Int := BUFFER_SIZE - 4

/-- `static const int _limit = RECORDING_BUFFER_SIZE - sizeof(Buffer);` of `RecordingBuffer`;
the size of a `Buffer` object depends on the ABI and is a parameter. -/
def RecordingBuffer._limit (sizeofBuffer : Int) : Int := RECORDING_BUFFER_SIZE - sizeofBuffer

/-- `Buffer() : _offset(0) {}` with the given initial content of `_data`. -/
def Buffer.new (data : List Nat) : Buffer :=
  { _offset := 0, _data := data, limit := Buffer._limit }

/-- `_data[i] = v` on the `char` array: the byte stored is `v` reduced to 8 bits. A store
outside the bytes reachable from `_data` is not represented. -/
def Buffer.poke (b : Buffer) (i : Int) (v : Nat) : Buffer :=
  if 0 ≤ i then { b with _data := b._data.set i.toNat (v % 256) } else b

/-- `_data[_offset++] = v`. -/
def Buffer.push (b : Buffer) (v : Nat) : Buffer :=
  { b.poke b._offset v with _offset := b._offset + 1 }

/-- `void reset() { _offset = 0; }` -/
def Buffer.reset (b : Buffer) : Buffer := { b with _offset := 0 }

/-- What one call of `flushIfNeeded` produced: the returned flag, the buffer afterwards and
the calls made to the sink, each with its two arguments (the bytes at `data` and `len`). -/
structure FlushResult where
  ret : Bool
  buf : Buffer
  calls : List (List Nat × Int)
deriving DecidableEq, Repr

/-- `bool flushIfNeeded(FlushCallback callback, int limit = BUFFER_LIMIT)`. The callback
`ssize_t (*)(char* data, int len)` is a function of the bytes at `data` and of `len`; a
caller that omits `limit` passes `BUFFER_LIMIT`. -/
def Buffer.flushIfNeeded (b : Buffer) (callback : List Nat → Int → Int)
    (limit : Int) : FlushResult :=
  if b._offset > limit then
    if callback b._data b._offset = b._offset then
      { ret := true, buf := b.reset, calls := [(b._data, b._offset)] }
    else
      { ret := false, buf := b, calls := [(b._data, b._offset)] }
  else
    { ret := false, buf := b, calls := [] }

/-- `int skip(int delta)`: returns the old cursor together with the moved buffer. -/
def Buffer.skip (b : Buffer) (delta : Int) : Option (Int × Buffer) :=
  if b._offset + delta < b.limit then
    some (b._offset, { b with _offset := b._offset + delta })
  else none

/-- `void put8(char v)`. -/
def Buffer.put8 (b : Buffer) (v : Nat) : Option Buffer :=
  if b._offset < b.limit then some (b.push v) else none

/-- The loop `while (v > 0x7f) { _data[_offset++] = (char)v | 0x80; v >>= 7; }` followed by
`_data[_offset++] = (char)v;`, shared by `putVar32` and `putVar64`. Every round shifts seven
bits out of `v`, so the width of `v` bounds the number of rounds. -/
def Buffer.putVarLoop : Nat → Buffer → Nat → Buffer
  | 0, b, _ => b
  | fuel + 1, b, v =>
    if v > 0x7f then Buffer.putVarLoop fuel (b.push ((v % 256) ||| 0x80)) (v >>> 7)
    else b.push v

/-- `void putVar32(u32 v)`. -/
def Buffer.putVar32 (b : Buffer) (v : Nat) : Option Buffer :=
  if b._offset + 5 < b.limit then some (Buffer.putVarLoop 32 b (v % 2 ^ 32)) else none

/-- The first loop of `putVar64`,
`while (v > 0x1fffff) { three continuation bytes; if (++iter == 3) return; }`.
The result is the buffer, what is left of `v`, and whether the function returned from
inside the loop. -/
def Buffer.putVar64Head : Nat → Buffer → Nat → Nat → Buffer × Nat × Bool
  | 0, b, v, _ => (b, v, false)
  | fuel + 1, b, v, iter =>
    if v > 0x1fffff then
      let b1 := b.push ((v % 256) ||| 0x80)
      let v1 := v >>> 7
      let b2 := b1.push ((v1 % 256) ||| 0x80)
      let v2 := v1 >>> 7
      let b3 := b2.push ((v2 % 256) ||| 0x80)
      let v3 := v2 >>> 7
      if iter + 1 = 3 then (b3, v3, true) else Buffer.putVar64Head fuel b3 v3 (iter + 1)
    else (b, v, false)

/-- `void putVar64(u64 v)`. The first loop leaves after its third round, so three rounds of
fuel are exact. -/
def Buffer.putVar64 (b : Buffer) (v : Nat) : Option Buffer :=
  if b._offset + 9 < b.limit then
    match Buffer.putVar64Head 3 b (v % 2 ^ 64) 0 with
    | (b1, _, true) => some b1
    | (b1, v1, false) => some (Buffer.putVarLoop 64 b1 v1)
  else none

/-- `void putVar32(int offset, u32 v)`: the five-byte form written at a fixed position; the
cursor does not move and there is no assertion. -/
def Buffer.putVar32At (b : Buffer) (offset : Int) (v : Nat) : Buffer :=
  let v := v % 2 ^ 32
  let b := b.poke offset (v ||| 0x80)
  let b := b.poke (offset + 1) ((v >>> 7) ||| 0x80)
  let b := b.poke (offset + 2) ((v >>> 14) ||| 0x80)
  let b := b.poke (offset + 3) ((v >>> 21) ||| 0x80)
  b.poke (offset + 4) (v >>> 28)

/-- The bytes of `b1` between the cursor of `b0` and the cursor of `b1`: what an operation
taking `b0` to `b1` appended. -/
def Buffer.appended (b0 b1 : Buffer) : List Nat :=
  (b1._data.drop b0._offset.toNat).take (b1._offset - b0._offset).toNat

/-- The five bytes at positions `offset .. offset + 4`. -/
def Buffer.five (b : Buffer) (offset : Int) : List Nat :=
  (b._data.drop offset.toNat).take 5

/-- Unsigned LEB128 reader as the specification words it: seven payload bits per byte,
least-significant group first, the high bit set on every byte except the last. Returns the
value and the bytes left unread, `none` when the input ends inside a number. -/
def decodeLEB128 : List Nat → Option (Nat × List Nat)
  | [] => none
  | x :: rest =>
    if x < 128 then some (x, rest)
    else
      match decodeLEB128 rest with
      | some (hi, r) => some (x % 128 + 128 * hi, r)
      | none => none

/-- Value of a run of bytes read as seven payload bits from each byte, least-significant
group first (the reading of the five-byte patchable form). -/
def payload7 : List Nat → Nat
  | [] => 0
  | x :: rest => x % 128 + 128 * payload7 rest

/-- Successive stores at the cursor, `_data[_offset++] = x` for each `x` in turn. -/
def Buffer.pushes (b : Buffer) (bs : List Nat) : Buffer := bs.foldl Buffer.push b

/-- The bytes stored by `Buffer.putVarLoop`, in order. -/
def varBytes : Nat → Nat → List Nat
  | 0, _ => []
  | fuel + 1, v =>
    if v > 0x7f then ((v % 256) ||| 0x80) :: varBytes fuel (v >>> 7) else [v]

/-- The bytes stored by `Buffer.putVar64Head`, in order, with what is left of `v` and the
flag of a return from inside the loop. -/
def var64HeadBytes : Nat → Nat → Nat → List Nat × Nat × Bool
  | 0, v, _ => ([], v, false)
  | fuel + 1, v, iter =>
    if v > 0x1fffff then
      let v1 := v >>> 7
      let v2 := v1 >>> 7
      let v3 := v2 >>> 7
      let three := [(v % 256) ||| 0x80, (v1 % 256) ||| 0x80, (v2 % 256) ||| 0x80]
      if iter + 1 = 3 then (three, v3, true)
      else
        match var64HeadBytes fuel v3 (iter + 1) with
        | (l, v4, r) => (three ++ l, v4, r)
    else ([], v, false)

/-- The bytes stored by `Buffer.putVar64`, in order. -/
def putVar64Bytes (v : Nat) : List Nat :=
  match var64HeadBytes 3 (v % 2 ^ 64) 0 with
  | (l, _, true) => l
  | (l, v1, false) => l ++ varBytes 64 v1

/-- Three continuation bytes carrying the low 21 bits of `v`: one round of the first loop of
`putVar64`. -/
def threeCont (v : Nat) : List Nat :=
  [(v % 256) ||| 0x80, ((v >>> 7) % 256) ||| 0x80, ((v >>> 7 >>> 7) % 256) ||| 0x80]

/-- The five values stored by `Buffer.putVar32At`, before the reduction to a byte. -/
def var32AtBytes (v : Nat) : List Nat :=
  [v ||| 0x80, (v >>> 7) ||| 0x80, (v >>> 14) ||| 0x80, (v >>> 21) ||| 0x80, v >>> 28]

/-- A freshly constructed `Buffer` over zeroed memory. -/
def zeroBuffer : Buffer := Buffer.new (List.replicate 1020 0)

/-! ## `engine.h` -/

/-- `__sync_bool_compare_and_swap(&cell, expected, desired)`: the success flag and the cell
afterwards. -/
def compareAndSwap (cell expected desired : Nat) : Bool × Nat :=
  if cell = expected then (true, desired) else (false, cell)

/-- The `while (true)` retry loop of `Engine::updateCounter` run by a single caller: nothing
else writes the counter between the read of `prev` and the compare-and-swap. The result is
the returned flag and the counter afterwards; `none` when the rounds allowed are used up. -/
def Engine.updateCounterLoop : Nat → Nat → Nat → Nat → Option (Bool × Nat)
  | 0, _, _, _ => none
  | fuel + 1, counter, value, interval =>
    let prev := counter
    let next := (prev + value) % 2 ^ 64
    if next < interval then
      match compareAndSwap counter prev next with
      | (true, c) => some (false, c)
      | (false, c) => Engine.updateCounterLoop fuel c value interval
    else
      match compareAndSwap counter prev (next % interval) with
      | (true, c) => some (true, c)
      | (false, c) => Engine.updateCounterLoop fuel c value interval

/-- `static bool updateCounter(volatile unsigned long long& counter, unsigned long long value,
unsigned long long interval)` for a single caller, allowed one round of the retry loop. -/
def Engine.updateCounter (counter value interval : Nat) : Option (Bool × Nat) :=
  if interval ≤ 1 then some (true, counter)
  else Engine.updateCounterLoop 1 counter value interval

/-- Applies `Engine.updateCounter` to the weights in order, starting from `counter`: the
number of calls that returned true and the counter at the end. -/
def Engine.feed (interval : Nat) : Nat → List Nat → Option (Nat × Nat)
  | counter, [] => some (0, counter)
  | counter, w :: ws =>
    match Engine.updateCounter counter w interval with
    | none => none
    | some (r, c) =>
      match Engine.feed interval c ws with
      | none => none
      | some (k, c1) => some (if r then k + 1 else k, c1)

/-! ## C strings and the C library, as `perfEvents_linux.cpp` uses them

A C string is the list of its characters up to, not including, the terminating NUL.
Strings are ASCII, and a comparison of a `char` with a character constant compares codes.
`long` and `long long` are 64 bits wide and `int` is 32 bits wide (LP64). -/

/-- The character `s[i]`: NUL at the terminator and in the zero padding behind it. -/
def charAt (s : List Char) (i : Nat) : Char := s.getD i (Char.ofNat 0)

/-- `strchr(s, ch)`: index of the first occurrence of `ch`, `none` for `NULL`. -/
def strchr : List Char → Char → Option Nat
  | [], _ => none
  | c :: t, ch => if c = ch then some 0 else (strchr t ch).map (· + 1)

/-- `strrchr(s, ch)`: index of the last occurrence of `ch`, `none` for `NULL`. -/
def strrchr : List Char → Char → Option Nat
  | [], _ => none
  | c :: t, ch =>
    match strrchr t ch with
    | some i => some (i + 1)
    | none => if c = ch then some 0 else none

/-- `strncmp(a, b, n) == 0`. -/
def strncmpEq (a b : List Char) (n : Nat) : Bool := decide (a.take n = b.take n)

/-- `strncpy(buf, name, sizeof(buf) - 1); buf[sizeof(buf) - 1] = 0;` for `char buf[256]`. -/
def copy255 (name : List Char) : List Char := name.take 255

/-- `isspace` in the C locale. -/
def isspace (c : Char) : Bool :=
  c.toNat = 32 || (9 ≤ c.toNat && c.toNat ≤ 13)

/-- Value of a character as a digit, letters standing for 10 to 35. -/
def digitVal (c : Char) : Option Nat :=
  if 48 ≤ c.toNat ∧ c.toNat ≤ 57 then some (c.toNat - 48)
  else if 97 ≤ c.toNat ∧ c.toNat ≤ 122 then some (c.toNat - 97 + 10)
  else if 65 ≤ c.toNat ∧ c.toNat ≤ 90 then some (c.toNat - 65 + 10)
  else none

/-- Whether `c` is a digit of the given base. -/
def isDigitOf (base : Nat) (c : Char) : Bool :=
  match digitVal c with
  | some d => decide (d < base)
  | none => false

/-- Reads the longest run of digits of `base` at the head of the string: the accumulated
value and the characters left. -/
def scanDigits (base : Nat) : Nat → List Char → Nat × List Char
  | acc, [] => (acc, [])
  | acc, c :: t =>
    match digitVal c with
    | some d => if d < base then scanDigits base (acc * base + d) t else (acc, c :: t)
    | none => (acc, c :: t)

/-- The part common to `strtol`, `strtoll` and `strtoull`: white space, an optional sign,
the base prefix (`0x` for base 16 or 0, a leading `0` selecting octal for base 0), then the
digits. Returns the sign, the magnitude read without any range limit, and the unread rest
(`*endptr`); when no digit is found the result is 0 and the rest is the whole input. -/
def strtoCore (s : List Char) (base : Nat) : Bool × Nat × List Char :=
  let s1 := s.dropWhile isspace
  let neg := decide (charAt s1 0 = '-')
  let s2 := if charAt s1 0 = '-' ∨ charAt s1 0 = '+' then s1.drop 1 else s1
  let hexPrefix := decide (charAt s2 0 = '0') && (decide (charAt s2 1 = 'x')
    || decide (charAt s2 1 = 'X')) && isDigitOf 16 (charAt s2 2)
  let b := if (base = 0 ∨ base = 16) ∧ hexPrefix = true then 16
    else if base = 0 then (if charAt s2 0 = '0' then 8 else 10)
    else base
  let s3 := if (base = 0 ∨ base = 16) ∧ hexPrefix = true then s2.drop 2 else s2
  if isDigitOf b (charAt s3 0) then
    let r := scanDigits b 0 s3
    (neg, r.1, r.2)
  else (false, 0, s)

/-- `strtoll(s, NULL, base)`, also `strtol` with a 64-bit `long`: the value is clamped to
`[-2 ^ 63, 2 ^ 63 - 1]`. -/
def strtoll (s : List Char) (base : Nat) : Int :=
  match strtoCore s base with
  | (true, v, _) => max (-(v : Int)) (-(2 : Int) ^ 63)
  | (false, v, _) => min (v : Int) ((2 : Int) ^ 63 - 1)

/-- `strtoull(s, &end, base)`: the value, clamped to `2 ^ 64 - 1` and negated modulo
`2 ^ 64` after a minus sign, and the unread rest. -/
def strtoull (s : List Char) (base : Nat) : Nat × List Char :=
  match strtoCore s base with
  | (neg, v, rest) =>
    if v ≥ 2 ^ 64 then (2 ^ 64 - 1, rest)
    else if neg then ((2 ^ 64 - v) % 2 ^ 64, rest)
    else (v, rest)

/-- Conversion of a `long` to `int`: reduction to 32 bits, two's complement. -/
def toInt32 (x : Int) : Int := (x + 2 ^ 31) % 2 ^ 32 - 2 ^ 31

/-- `atoi(s)`, which is `(int)strtol(s, NULL, 10)`. -/
def atoi (s : List Char) : Int := toInt32 (strtoll s 10)

/-- The characters of a buffer up to its first NUL. -/
def cstr (s : List Char) : List Char := s.takeWhile (· ≠ Char.ofNat 0)

/-- What the resolver obtains from outside the program.
* `dlsym`, `resolveSymbol`: address of a symbol, 0 when unknown
  (`dlsym(RTLD_DEFAULT, _)`, `Libraries::instance()->resolveSymbol(_)`).
* `readFile`: the bytes `open` and `read` deliver for a path, `none` when `open` fails.
* `BREAKPOINT_OFFSET`, `DEFAULT_CPU_INTERVAL`: constants of `arch_dd.h` and `arguments.h`.
* `probeFuncAddr`: the address of the static array `probe_func`.
* `strayByte`: the byte in memory just before the local array `buf` of `getBreakpoint`. -/
structure Env where
  dlsym : List Char → Nat
  resolveSymbol : List Char → Nat
  readFile : List Char → Option (List Char)
  BREAKPOINT_OFFSET : Int
  DEFAULT_CPU_INTERVAL : Int
  probeFuncAddr : Nat
  strayByte : Char

/-- `static int fetchInt(const char *file_name)`: `num` starts as `"0"` followed by zeros and
receives at most 15 bytes. -/
def fetchInt (env : Env) (file_name : List Char) : Int :=
  match env.readFile file_name with
  | none => 0
  | some content => if content.take 15 = [] then atoi "0".toList else atoi (cstr (content.take 15))

/-- `static int findTracepointId(const char *name)`; `none` when `strchr(buf, ':')` is `NULL`
and the store through it faults. -/
def findTracepointId (env : Env) (name : List Char) : Option Int :=
  let buf := "/sys/kernel/debug/tracing/events/".toList ++ name ++ "/id".toList
  if buf.length ≥ 256 then some 0
  else
    match strchr buf ':' with
    | none => none
    | some i => some (fetchInt env (buf.set i '/'))

/-- `static int findDeviceType(const char *name)`. -/
def findDeviceType (env : Env) (name : List Char) : Int :=
  let buf := "/sys/bus/event_source/devices/".toList ++ name ++ "/type".toList
  if buf.length ≥ 256 then 0 else fetchInt env buf

/-- `static void resolvePmuEventName(const char *device, char *event, size_t size)`: the
string at `event` afterwards. The array behind `event` is zero padded by `strncpy`, so a read
of `r` bytes that is not terminated leaves the old characters from position `r` on. -/
def resolvePmuEventName (env : Env) (device event : List Char) (size : Nat) : List Char :=
  let buf := "/sys/bus/event_source/devices/".toList ++ device ++ "/events/".toList ++ event
  if buf.length ≥ 256 then event
  else
    match env.readFile buf with
    | none => event
    | some content =>
      let got := content.take size
      let r := got.length
      if r > 0 ∧ (r = size ∨ charAt got (r - 1) = '\n') then cstr (got.take (r - 1))
      else cstr (got ++ event.drop r)

/-- `static bool setPmuConfig(const char *device, const char *param, __u64 *config,
__u64 val)` on the three words `config[0..2]`. The file is read over the path in `buf`;
bytes of `buf` written by neither are taken as NUL. A shift count outside `0..63` is taken
modulo 64. -/
def setPmuConfig (env : Env) (device param : List Char) (config : Nat × Nat × Nat)
    (val : Nat) : Bool × (Nat × Nat × Nat) :=
  let path := "/sys/bus/event_source/devices/".toList ++ device ++ "/format/".toList ++ param
  if path.length ≥ 256 then (false, config)
  else
    match env.readFile path with
    | none => (false, config)
    | some content =>
      let got := content.take 256
      let r := got.length
      let buf := got ++ (path ++ [Char.ofNat 0]).drop r
      let shl := fun (n : Int) => (val <<< (n % 64).toNat) % 2 ^ 64
      if r > 0 ∧ r < 256 then
        if strncmpEq buf "config:".toList 7 then
          (true, (config.1 ||| shl (atoi (cstr (buf.drop 7))), config.2.1, config.2.2))
        else if strncmpEq buf "config1:".toList 8 then
          (true, (config.1, config.2.1 ||| shl (atoi (cstr (buf.drop 8))), config.2.2))
        else if strncmpEq buf "config2:".toList 8 then
          (true, (config.1, config.2.1, config.2.2 ||| shl (atoi (cstr (buf.drop 8)))))
        else (false, config)
      else (false, config)

/-! ## `perfEvents_linux.cpp`: the event specification resolver -/

/-- `enum { HW_BREAKPOINT_R = 1, HW_BREAKPOINT_W = 2, HW_BREAKPOINT_RW = 3,
HW_BREAKPOINT_X = 4 };` -/
def HW_BREAKPOINT_R : Nat := 1
/-- See `HW_BREAKPOINT_R`. -/
def HW_BREAKPOINT_W : Nat := 2
/-- See `HW_BREAKPOINT_R`. -/
def HW_BREAKPOINT_RW : Nat := 3
/-- See `HW_BREAKPOINT_R`. -/
def HW_BREAKPOINT_X : Nat := 4

/-- `enum perf_type_id` of `<linux/perf_event.h>`. -/
def PERF_TYPE_HARDWARE : Nat := 0
/-- See `PERF_TYPE_HARDWARE`. -/
def PERF_TYPE_SOFTWARE : Nat := 1
/-- See `PERF_TYPE_HARDWARE`. -/
def PERF_TYPE_TRACEPOINT : Nat := 2
/-- See `PERF_TYPE_HARDWARE`. -/
def PERF_TYPE_HW_CACHE : Nat := 3
/-- See `PERF_TYPE_HARDWARE`. -/
def PERF_TYPE_RAW : Nat := 4
/-- See `PERF_TYPE_HARDWARE`. -/
def PERF_TYPE_BREAKPOINT : Nat := 5

/-- `#define LOAD_MISS(perf_hw_cache_id) ((perf_hw_cache_id) | PERF_COUNT_HW_CACHE_OP_READ << 8
| PERF_COUNT_HW_CACHE_RESULT_MISS << 16)` with `PERF_COUNT_HW_CACHE_OP_READ = 0` and
`PERF_COUNT_HW_CACHE_RESULT_MISS = 1`. -/
def LOAD_MISS (perf_hw_cache_id : Nat) : Nat := perf_hw_cache_id ||| (0 <<< 8) ||| (1 <<< 16)

/-- `sizeof(long)`. -/
def sizeofLong : Nat := 8

/-- `struct FunctionWithCounter`. -/
structure FunctionWithCounter where
  name : List Char
  counter_arg : Int
deriving DecidableEq, Repr

/-- `struct PerfEventType`, the event descriptor. -/
structure PerfEventType where
  name : List Char
  default_interval : Int
  type : Nat
  config : Nat
  config1 : Nat
  config2 : Nat
  counter_arg : Int
deriving DecidableEq, Repr

/-- `IDX_PREDEFINED = 12` and the indices that follow it in the `enum`. -/
def IDX_PREDEFINED : Nat := 12
/-- See `IDX_PREDEFINED`. -/
def IDX_RAW : Nat := 13
/-- See `IDX_PREDEFINED`. -/
def IDX_PMU : Nat := 14
/-- See `IDX_PREDEFINED`. -/
def IDX_BREAKPOINT : Nat := 15
/-- See `IDX_PREDEFINED`. -/
def IDX_TRACEPOINT : Nat := 16
/-- See `IDX_PREDEFINED`. -/
def IDX_KPROBE : Nat := 17
/-- See `IDX_PREDEFINED`. -/
def IDX_UPROBE : Nat := 18

/-- An aggregate initialiser `{name, default_interval, type, config}`; the members left out
are zero. -/
def PerfEventType.init (name : String) (default_interval : Int) (type config : Nat) :
    PerfEventType :=
  { name := name.toList, default_interval := default_interval, type := type, config := config,
    config1 := 0, config2 := 0, counter_arg := 0 }

/-- `PerfEventType PerfEventType::AVAILABLE_EVENTS[]` as initialised, with the
`PERF_COUNT_*` values of `<linux/perf_event.h>` written out. -/
def AVAILABLE_EVENTS (env : Env) : List PerfEventType :=
  [ PerfEventType.init "cpu" env.DEFAULT_CPU_INTERVAL PERF_TYPE_SOFTWARE 1,
    PerfEventType.init "page-faults" 1 PERF_TYPE_SOFTWARE 2,
    PerfEventType.init "context-switches" 1 PERF_TYPE_SOFTWARE 3,
    PerfEventType.init "cycles" 1000000 PERF_TYPE_HARDWARE 0,
    PerfEventType.init "instructions" 1000000 PERF_TYPE_HARDWARE 1,
    PerfEventType.init "cache-references" 1000000 PERF_TYPE_HARDWARE 2,
    PerfEventType.init "cache-misses" 1000 PERF_TYPE_HARDWARE 3,
    PerfEventType.init "branch-instructions" 1000000 PERF_TYPE_HARDWARE 4,
    PerfEventType.init "branch-misses" 1000 PERF_TYPE_HARDWARE 5,
    PerfEventType.init "bus-cycles" 1000000 PERF_TYPE_HARDWARE 6,
    PerfEventType.init "L1-dcache-load-misses" 1000000 PERF_TYPE_HW_CACHE (LOAD_MISS 0),
    PerfEventType.init "LLC-load-misses" 1000 PERF_TYPE_HW_CACHE (LOAD_MISS 2),
    PerfEventType.init "dTLB-load-misses" 1000 PERF_TYPE_HW_CACHE (LOAD_MISS 3),
    PerfEventType.init "rNNN" 1000 PERF_TYPE_RAW 0,
    PerfEventType.init "pmu/event-descriptor/" 1000 PERF_TYPE_RAW 0,
    PerfEventType.init "mem:breakpoint" 1 PERF_TYPE_BREAKPOINT 0,
    PerfEventType.init "trace:tracepoint" 1 PERF_TYPE_TRACEPOINT 0,
    PerfEventType.init "kprobe:func" 1 0 0,
    PerfEventType.init "uprobe:path" 1 0 0 ]

/-- `FunctionWithCounter PerfEventType::KNOWN_FUNCTIONS[]`, without the `{NULL}` sentinel. -/
def KNOWN_FUNCTIONS : List FunctionWithCounter :=
  [ ⟨"malloc".toList, 1⟩, ⟨"mmap".toList, 2⟩, ⟨"munmap".toList, 2⟩, ⟨"read".toList, 3⟩,
    ⟨"write".toList, 3⟩, ⟨"send".toList, 3⟩, ⟨"recv".toList, 3⟩, ⟨"sendto".toList, 3⟩,
    ⟨"recvfrom".toList, 3⟩ ]

/-- `static int findCounterArg(const char *name)`. -/
def findCounterArg (name : List Char) : Int :=
  match KNOWN_FUNCTIONS.find? (fun func => decide (name = func.name)) with
  | some func => func.counter_arg
  | none => 0

/-- The static storage the resolver works on: the table `AVAILABLE_EVENTS` and the array
`probe_func`. -/
structure Resolver where
  table : List PerfEventType
  probe_func : List Char
deriving DecidableEq, Repr

/-- The storage at program start. -/
def Resolver.initial (env : Env) : Resolver :=
  { table := AVAILABLE_EVENTS env, probe_func := [] }

/-- An all-zero descriptor, read where an index lies outside the table. -/
def PerfEventType.zero : PerfEventType :=
  { name := [], default_interval := 0, type := 0, config := 0, config1 := 0, config2 := 0,
    counter_arg := 0 }

/-- `AVAILABLE_EVENTS[i]`. -/
def Resolver.entry (st : Resolver) (i : Nat) : PerfEventType :=
  st.table.getD i PerfEventType.zero

/-- `AVAILABLE_EVENTS[i] = e`. -/
def Resolver.setEntry (st : Resolver) (i : Nat) (e : PerfEventType) : Resolver :=
  { st with table := st.table.set i e }

/-- What a resolver function returns: a pointer to a table entry, `NULL`, or no return at
all because a store through a null pointer faulted. -/
inductive Outcome where
  | found (idx : Nat)
  | null
  | fault
deriving DecidableEq, Repr

/-- Conversion of a `long long` to `__u64`. -/
def toU64 (x : Int) : Nat := (x % 2 ^ 64).toNat

/-- Conversion of a `long` to `__u32`. -/
def toU32 (x : Int) : Nat := (x % 2 ^ 32).toNat

/-- `getBreakpoint`, `// Parse counter arg [{arg}]`: the string left in `buf` and
`counter_arg`. -/
def bpCounterArg (buf : List Char) : List Char × Int :=
  match strrchr buf '\x7b' with
  | some i =>
    if 49 ≤ (charAt buf (i + 1)).toNat ∧ (charAt buf (i + 1)).toNat ≤ 57 then
      (buf.take i, atoi (buf.drop (i + 1)))
    else (buf, 0)
  | none => (buf, 0)

/-- `getBreakpoint`, `// Parse access type [:rwx]`: the string left in `buf`, `bp_type` and
`bp_len`. The test `c != name` compares a pointer into the local `buf` with the argument and
is always true; `c[-1]` at the first character of `buf` reads the byte before the array. -/
def bpAccess (env : Env) (buf : List Char) (bp_type bp_len : Nat) : List Char × Nat × Nat :=
  match strrchr buf ':' with
  | some i =>
    if (if i = 0 then env.strayByte else charAt buf (i - 1)) ≠ ':' then
      if buf.drop (i + 1) = "r".toList then (buf.take i, HW_BREAKPOINT_R, bp_len)
      else if buf.drop (i + 1) = "w".toList then (buf.take i, HW_BREAKPOINT_W, bp_len)
      else if buf.drop (i + 1) = "x".toList then (buf.take i, HW_BREAKPOINT_X, sizeofLong)
      else (buf.take i, HW_BREAKPOINT_RW, bp_len)
    else (buf, bp_type, bp_len)
  | none => (buf, bp_type, bp_len)

/-- `getBreakpoint`, `// Parse length [/8]`: the string left in `buf` and `bp_len`. -/
def bpLength (buf : List Char) (bp_len : Nat) : List Char × Nat :=
  match strrchr buf '/' with
  | some i => (buf.take i, toU32 (strtoll (buf.drop (i + 1)) 0))
  | none => (buf, bp_len)

/-- `getBreakpoint`, `// Parse offset [+0x1234]`: the string left in `buf` and the offset
read, `none` when there is no `+` (`c == NULL`, `offset` still 0). -/
def bpOffset (buf : List Char) : List Char × Option Int :=
  match strrchr buf '+' with
  | some i => (buf.take i, some (strtoll (buf.drop (i + 1)) 0))
  | none => (buf, none)

/-- `getBreakpoint`, `// Parse symbol or absolute address`: `addr` and `offset`. -/
def bpAddress (env : Env) (buf : List Char) (offset : Option Int) : Nat × Int :=
  if strncmpEq buf "0x".toList 2 then (toU64 (strtoll buf 0), offset.getD 0)
  else
    (if env.dlsym buf = 0 then env.resolveSymbol buf else env.dlsym buf,
      match offset with
      | none => env.BREAKPOINT_OFFSET
      | some o => o)

/-- The parsing part of `getBreakpoint`, up to `if (addr == 0) return NULL;`: the values
later stored in `config`, `config1`, `config2` and `counter_arg`, or `none` for the `NULL`
return. -/
def parseBreakpoint (env : Env) (name : List Char) (bp_type bp_len : Nat) :
    Option (Nat × Nat × Nat × Int) :=
  let s1 := bpCounterArg (copy255 name)
  let s2 := bpAccess env s1.1 bp_type bp_len
  let s3 := bpLength s2.1 s2.2.2
  let s4 := bpOffset s3.1
  let s5 := bpAddress env s4.1 s4.2
  if s5.1 = 0 then none
  else
    some (s2.2.1, toU64 ((s5.1 : Int) + s5.2), s3.2,
      if s2.2.1 = HW_BREAKPOINT_X ∧ s1.2 = 0 then findCounterArg s4.1 else s1.2)

/-- `static PerfEventType *getBreakpoint(const char *name, __u32 bp_type, __u32 bp_len)`. -/
def getBreakpoint (env : Env) (st : Resolver) (name : List Char) (bp_type bp_len : Nat) :
    Outcome × Resolver :=
  match parseBreakpoint env name bp_type bp_len with
  | none => (Outcome.null, st)
  | some (cfg, cfg1, cfg2, carg) =>
    (Outcome.found IDX_BREAKPOINT,
      st.setEntry IDX_BREAKPOINT
        { st.entry IDX_BREAKPOINT with
          config := cfg, config1 := cfg1, config2 := cfg2, counter_arg := carg })

/-- `static PerfEventType *getTracepoint(int tracepoint_id)`. -/
def getTracepoint (st : Resolver) (tracepoint_id : Int) : Outcome × Resolver :=
  (Outcome.found IDX_TRACEPOINT,
    st.setEntry IDX_TRACEPOINT { st.entry IDX_TRACEPOINT with config := toU64 tracepoint_id })

/-- The body of `getProbe` acting on the entry that `probe` points to: whether a descriptor
is returned (false for `NULL`), the entry afterwards and `probe_func` afterwards. -/
def getProbeOn (env : Env) (type name : List Char) (ret : Nat) (probe : PerfEventType) :
    Bool × PerfEventType × List Char :=
  let probe_func := copy255 name
  let probe :=
    { probe with
      type := if probe.type = 0 then toU32 (findDeviceType env type) else probe.type }
  if probe.type = 0 then (false, probe, probe_func)
  else
    let s : List Char × Int :=
      match strrchr probe_func '+' with
      | some i => (probe_func.take i, strtoll (probe_func.drop (i + 1)) 0)
      | none => (probe_func, 0)
    (true, { probe with config := ret, config1 := env.probeFuncAddr, config2 := toU64 s.2 }, s.1)

/-- `static PerfEventType *getProbe(PerfEventType *probe, const char *type, const char *name,
__u64 ret)`, with `probe` given as its index in the table. -/
def getProbe (env : Env) (st : Resolver) (probe : Nat) (type name : List Char) (ret : Nat) :
    Outcome × Resolver :=
  (if (getProbeOn env type name ret (st.entry probe)).1 then Outcome.found probe
    else Outcome.null,
    { st.setEntry probe (getProbeOn env type name ret (st.entry probe)).2.1 with
      probe_func := (getProbeOn env type name ret (st.entry probe)).2.2 })

/-- `static PerfEventType *getRawEvent(__u64 config)`. -/
def getRawEvent (st : Resolver) (config : Nat) : Outcome × Resolver :=
  (Outcome.found IDX_RAW, st.setEntry IDX_RAW { st.entry IDX_RAW with config := config })

/-- The loop `while (descriptor != NULL && descriptor[0]) { ... }` of `getPmuEvent` acting on
the entry `raw`; the flag is false when the loop left through `return NULL`. Each round
shortens the descriptor, whose length bounds the number of rounds. -/
def pmuParams (env : Env) (device : List Char) :
    Nat → Option (List Char) → PerfEventType → Bool × PerfEventType
  | 0, _, raw => (true, raw)
  | fuel + 1, descriptor, raw =>
    match descriptor with
    | none => (true, raw)
    | some d =>
      if d = [] then (true, raw)
      else
        let s : List Char × Option (List Char) :=
          match strchr d ',' with
          | some i => (d.take i, some (d.drop (i + 1)))
          | none =>
            match strchr d ':' with
            | some i => (d.take i, some (d.drop (i + 1)))
            | none => (d, none)
        let e : List Char × Nat :=
          match strchr s.1 '=' with
          | some i => (s.1.take i, (strtoull (s.1.drop (i + 1)) 0).1)
          | none => (s.1, 1)
        let p := e.1
        let val := e.2
        if p = "config".toList then
          pmuParams env device fuel s.2 { raw with config := val }
        else if p = "config1".toList then
          pmuParams env device fuel s.2 { raw with config1 := val }
        else if p = "config2".toList then
          pmuParams env device fuel s.2 { raw with config2 := val }
        else
          match setPmuConfig env device p (raw.config, raw.config1, raw.config2) val with
          | (true, c) =>
            pmuParams env device fuel s.2
              { raw with config := c.1, config1 := c.2.1, config2 := c.2.2 }
          | (false, _) => (false, raw)

/-- The body of `getPmuEvent` from `PerfEventType *raw = &AVAILABLE_EVENTS[IDX_PMU];` on,
acting on the entry `raw`, for a copy `buf` of the name whose first `/` is at index `i`. -/
def getPmuEventOn (env : Env) (buf : List Char) (i : Nat) (raw : PerfEventType) :
    Outcome × PerfEventType :=
  let device := buf.take i
  let descriptor := (buf.drop (i + 1)).dropLast
  let raw := { raw with type := toU32 (findDeviceType env device) }
  if raw.type = 0 then (Outcome.null, raw)
  else
    -- pmu/rNNN/
    let hex := strtoull (descriptor.drop 1) 16
    let isReg := decide (charAt descriptor 0 = 'r') && decide (48 ≤ (charAt descriptor 1).toNat)
    let raw := if isReg then { raw with config := hex.1 } else raw
    if isReg ∧ hex.2 = [] then (Outcome.found IDX_PMU, raw)
    else
      -- Resolve event name to the list of parameters
      let descriptor := resolvePmuEventName env device descriptor (256 - (i + 1))
      let raw := { raw with config := 0, config1 := 0, config2 := 0 }
      -- Parse parameters
      match pmuParams env device (descriptor.length + 1) (some descriptor) raw with
      | (true, raw) => (Outcome.found IDX_PMU, raw)
      | (false, raw) => (Outcome.null, raw)

/-- `static PerfEventType *getPmuEvent(const char *name)`. With no `/` in the copied name
`descriptor` is `NULL` and the store `*descriptor++ = 0` faults. -/
def getPmuEvent (env : Env) (st : Resolver) (name : List Char) : Outcome × Resolver :=
  let buf := copy255 name
  match strchr buf '/' with
  | none => (Outcome.fault, st)
  | some i =>
    ((getPmuEventOn env buf i (st.entry IDX_PMU)).1,
      st.setEntry IDX_PMU (getPmuEventOn env buf i (st.entry IDX_PMU)).2)

/-- The test `s > name && s[1] != 0 && s[strlen(s) - 1] == '/'` of `forName` for
`s = strchr(name, '/')`; `s[strlen(s) - 1]` is the last character of `name`. -/
def pmuShape (name : List Char) : Bool :=
  match strchr name '/' with
  | some i => decide (i > 0) && decide (charAt name (i + 1) ≠ Char.ofNat 0)
      && decide (charAt name (name.length - 1) = '/')
  | none => false

/-- The test `s != NULL && s[1] != ':'` of `forName` for `s = strchr(name, ':')`. -/
def tracepointShape (name : List Char) : Bool :=
  match strchr name ':' with
  | some i => decide (charAt name (i + 1) ≠ ':')
  | none => false

/-- The part of `forName` that follows the loop over the predefined events. -/
def forNameDynamic (env : Env) (st : Resolver) (name : List Char) : Outcome × Resolver :=
  -- Hardware breakpoint
  if strncmpEq name "mem:".toList 4 then
    getBreakpoint env st (name.drop 4) HW_BREAKPOINT_RW 1
  -- Raw tracepoint ID
  else if strncmpEq name "trace:".toList 6 then
    if atoi (name.drop 6) > 0 then getTracepoint st (atoi (name.drop 6)) else (Outcome.null, st)
  -- kprobe or uprobe
  else if strncmpEq name "kprobe:".toList 7 then
    getProbe env st IDX_KPROBE "kprobe".toList (name.drop 7) 0
  else if strncmpEq name "uprobe:".toList 7 then
    getProbe env st IDX_UPROBE "uprobe".toList (name.drop 7) 0
  else if strncmpEq name "kretprobe:".toList 10 then
    getProbe env st IDX_KPROBE "kprobe".toList (name.drop 10) 1
  else if strncmpEq name "uretprobe:".toList 10 then
    getProbe env st IDX_UPROBE "uprobe".toList (name.drop 10) 1
  -- Raw PMU register: rNNN
  else if charAt name 0 = 'r' ∧ 48 ≤ (charAt name 1).toNat
      ∧ (strtoull (name.drop 1) 16).2 = [] then
    getRawEvent st (strtoull (name.drop 1) 16).1
  -- Raw perf event descriptor: pmu/event-descriptor/
  else if pmuShape name then
    getPmuEvent env st name
  -- Kernel tracepoints defined in debugfs
  else if tracepointShape name then
    match findTracepointId env name with
    | none => (Outcome.fault, st)
    | some tracepoint_id =>
      if tracepoint_id > 0 then getTracepoint st tracepoint_id
      else getBreakpoint env st name HW_BREAKPOINT_X sizeofLong
  -- Finally, treat event as a function name and return an execution breakpoint
  else getBreakpoint env st name HW_BREAKPOINT_X sizeofLong

/-- The loop `for (int i = 0; i <= IDX_PREDEFINED; i++)` of `forName`: the first index whose
entry carries the name. -/
def findPredefined (st : Resolver) (name : List Char) : Option Nat :=
  (List.range (IDX_PREDEFINED + 1)).find? (fun i => decide (name = (st.entry i).name))

/-- `static PerfEventType *forName(const char *name)`. -/
def forName (env : Env) (st : Resolver) (name : List Char) : Outcome × Resolver :=
  -- Look through the table of predefined perf events
  match findPredefined st name with
  | some i => (Outcome.found i, st)
  | none => forNameDynamic env st name

/-- An environment for examples: the C library symbols of `KNOWN_FUNCTIONS` resolve through
`dlsym`, debugfs and sysfs are not readable. -/
def exampleEnv : Env :=
  { dlsym := fun s => if (KNOWN_FUNCTIONS.find? (fun func => decide (s = func.name))).isSome
      then 0x7f0000001000 else 0,
    resolveSymbol := fun _ => 0,
    readFile := fun _ => none,
    BREAKPOINT_OFFSET := 0,
    DEFAULT_CPU_INTERVAL := 10000000,
    probeFuncAddr := 0x600000,
    strayByte := Char.ofNat 0 }

/-- The entry on which the parameter loop of `getPmuEvent` starts. -/
def pmuStart (ty : Nat) (raw : PerfEventType) : PerfEventType :=
  { raw with type := ty, config := 0, config1 := 0, config2 := 0 }

/-- The routes `forNameDynamic` can take; which one is taken depends on the name and the
environment only, not on the table. -/
inductive Route where
  | breakpoint (n : List Char) (t l : Nat)
  | tracepoint (id : Int)
  | null
  | fault
  | probe (idx : Nat) (type n : List Char) (ret : Nat)
  | raw (config : Nat)
  | pmu

/-- The probe route is only taken with the kprobe or the uprobe entry. -/
def Route.Valid : Route → Prop
  | Route.probe idx _ _ _ => idx = IDX_KPROBE ∨ idx = IDX_UPROBE
  | _ => True

/-- The resolver function a route stands for. -/
def Route.run (env : Env) (name : List Char) : Route → Resolver → Outcome × Resolver
  | Route.breakpoint n t l, st => getBreakpoint env st n t l
  | Route.tracepoint id, st => getTracepoint st id
  | Route.null, st => (Outcome.null, st)
  | Route.fault, st => (Outcome.fault, st)
  | Route.probe idx type n ret, st => getProbe env st idx type n ret
  | Route.raw config, st => getRawEvent st config
  | Route.pmu, st => getPmuEvent env st name

/-- An environment in which the byte before `buf` is what the model parameter says and a
symbol with the name `:w` resolves. -/
def exampleEnvStray (stray : Char) : Env :=
  { exampleEnv with
    dlsym := fun s => if s = ":w".toList then 0x7f0000002000 else 0,
    strayByte := stray }

/-! ## Writing numbers into specifiers -/

/-- The character for the digit `d`: `0`..`9`, then `a`..`z`. -/
def digitChar (d : Nat) : Char := Char.ofNat (if d < 10 then 48 + d else 87 + d)

/-- The digits of `n` in `base`, most significant first, at most `fuel` of them. -/
def digitsOf (base : Nat) : Nat → Nat → List Char
  | 0, _ => []
  | fuel + 1, n =>
    if n < base then [digitChar n]
    else digitsOf base fuel (n / base) ++ [digitChar (n % base)]

/-- Decimal notation of `n`, for `n < 10 ^ 64`. -/
def decimal (n : Nat) : List Char := digitsOf 10 64 n

/-- Hexadecimal notation of `n` without prefix, for `n < 16 ^ 64`. -/
def hexadecimal (n : Nat) : List Char := digitsOf 16 64 n

/-- Decimal notation of an integer, with a minus sign when negative. -/
def intText (n : Int) : List Char :=
  if n < 0 then '-' :: decimal (-n).toNat else decimal n.toNat

/-- A number as it is written in a specifier: in decimal, or in hexadecimal after `0x`. -/
inductive Numeral where
  | dec (n : Nat)
  | hex (n : Nat)
deriving DecidableEq, Repr

/-- The number a numeral stands for. -/
def Numeral.value : Numeral → Nat
  | Numeral.dec n => n
  | Numeral.hex n => n

/-- The characters of a numeral. -/
def Numeral.text : Numeral → List Char
  | Numeral.dec n => decimal n
  | Numeral.hex n => "0x".toList ++ hexadecimal n

/-- The specifier `mem:0x<address>+<offset>/<length>:<access>`. -/
def memSpecifier (address : Nat) (offset length : Numeral) (access : Char) : List Char :=
  "mem:0x".toList ++ hexadecimal address ++ "+".toList ++ offset.text ++ "/".toList
    ++ length.text ++ ":".toList ++ [access]

/-- The specifier `trace:<n>`. -/
def traceSpecifier (n : Int) : List Char := "trace:".toList ++ intText n

/-- A table state as calls of `forName` leave it: the entries are those of the initial table
up to the members the resolver stores into (`config`, `config1`, `config2`, `counter_arg`
anywhere, `type` in the PMU and probe entries). -/
def Resolver.Stable (env : Env) (st : Resolver) : Prop :=
  st.table.length = 19 ∧
    ∀ j, (st.entry j).name = ((Resolver.initial env).entry j).name
      ∧ (st.entry j).default_interval = ((Resolver.initial env).entry j).default_interval
      ∧ (j ≠ IDX_PMU → j ≠ IDX_KPROBE → j ≠ IDX_UPROBE →
          (st.entry j).type = ((Resolver.initial env).entry j).type)

/-- The target of a `mem:` specifier: an absolute address, written in hexadecimal after `0x`,
or a symbol. -/
inductive Target where
  | absolute (address : Nat)
  | symbol (name : List Char)
deriving DecidableEq, Repr

/-- The characters of a target. -/
def Target.text : Target → List Char
  | Target.absolute address => "0x".toList ++ hexadecimal address
  | Target.symbol name => name

/-- A part of a specifier that may be left out: nothing, or the separator and the text. -/
def optionalPart (sep : Char) : Option (List Char) → List Char
  | none => []
  | some text => sep :: text

/-- The specifier `mem:<target>[+<offset>][/<length>][:<access>]`. -/
def memSpecifierOf (target : Target) (offset length : Option Numeral)
    (access : Option Char) : List Char :=
  "mem:".toList ++ (target.text ++ optionalPart '+' (offset.map Numeral.text)
    ++ optionalPart '/' (length.map Numeral.text)
    ++ optionalPart ':' (access.map (fun a => [a])))

/-- The address a target stands for: the address written, or the address of the symbol as
`dlsym` gives it, or else `Libraries::resolveSymbol`. -/
def Target.address (env : Env) : Target → Nat
  | Target.absolute address => address
  | Target.symbol name => if env.dlsym name = 0 then env.resolveSymbol name else env.dlsym name

/-- The targets considered: a non-zero absolute address below `2 ^ 63`, or a non-empty symbol
name of at most 100 characters that holds no separator of the specifier, does not start with
`0x` and has a non-zero address. -/
def Target.Valid (env : Env) : Target → Prop
  | Target.absolute address => 0 < address ∧ address < 2 ^ 63
  | Target.symbol name =>
    name ≠ [] ∧ (∀ c ∈ name, c ≠ '\x7b' ∧ c ≠ ':' ∧ c ≠ '/' ∧ c ≠ '+')
      ∧ strncmpEq name "0x".toList 2 = false ∧ name.length ≤ 100
      ∧ (Target.symbol name).address env ≠ 0

/-- An environment for examples in which the platform breakpoint offset is 4. -/
def exampleEnvOffset : Env := { exampleEnv with BREAKPOINT_OFFSET := 4 }

/-! ## `perfEvents_linux.cpp`: the counter lifecycle -/

/-- The members of `struct perf_event_attr` that `registerThread` sets; `bp_addr` and `bp_len`
share storage with `config1` and `config2`. -/
structure PerfEventAttr where
  type : Nat
  bp_type : Nat
  config : Nat
  config1 : Nat
  config2 : Nat
  precise_ip : Nat
  sample_period : Int
  sample_type : Nat
  disabled : Nat
  wakeup_events : Nat
  exclude_callchain_user : Nat
  exclude_kernel : Nat
  exclude_user : Nat
  branch_sample_type : Nat
  sample_regs_user : Nat
deriving DecidableEq, Repr

/-- `struct perf_event_attr attr = {0};` -/
def PerfEventAttr.zero : PerfEventAttr :=
  { type := 0, bp_type := 0, config := 0, config1 := 0, config2 := 0, precise_ip := 0,
    sample_period := 0, sample_type := 0, disabled := 0, wakeup_events := 0,
    exclude_callchain_user := 0, exclude_kernel := 0, exclude_user := 0,
    branch_sample_type := 0, sample_regs_user := 0 }

/-- A call that leaves the program: system calls on a counter, and the two calls of `start`
into the rest of the profiler. -/
inductive OsCall where
  | perf_event_open (attr : PerfEventAttr) (tid : Int) (result : Int)
  | close (fd : Int)
  | ioctl_DISABLE (fd : Int)
  | ioctl_RESET (fd : Int)
  | ioctl_REFRESH (fd : Int)
  | fcntl_SETFL_ASYNC (fd : Int)
  | fcntl_SETSIG_SIGPROF (fd : Int)
  | fcntl_SETOWN_EX (fd : Int) (tid : Int)
  | mmap (fd : Int) (page : Option Nat)
  | munmap (page : Nat)
  | installSignalHandler
  | switchThreadEvents_DISABLE
deriving DecidableEq, Repr

/-- What the counter lifecycle obtains from outside `perfEvents_linux.cpp`.
* `perf_event_open`, `mmap`: the answer of the system call, which may depend on the number of
  outside calls made before; `perf_event_open` answers a descriptor, or -1 with `errno`;
  `mmap` answers `none` for `MAP_FAILED`.
* `lookupThreadEntry`: the location found for the import of `pthread_setspecific`.
* `haveKernelSymbols`, `getMaxThreadId`, `listThreads`: `Symbols::haveKernelSymbols()`,
  `OS::getMaxThreadId()` and the ids delivered by `OS::listThreads()`.
* `qsort`: what `qsort` of the C library leaves in an array of `int`, given the comparison
  function and the array; the library is not bound to an algorithm, and its contract says
  nothing for a comparison function that is not a three-way comparison.
* `EVENT_CPU`, `RING_*`, `CSTACK_*`: constants of `arguments.h`; `PERF_REG_PC` of `arch_dd.h`;
  `lbr`: whether `PERF_ATTR_SIZE_VER5` is defined. -/
structure Os where
  perf_event_open : Nat → PerfEventAttr → Int → Int × Int
  mmap : Nat → Int → Option Nat
  lookupThreadEntry : Option Nat
  haveKernelSymbols : Bool
  getMaxThreadId : Int
  listThreads : List Int
  qsort : (Int → Int → Int) → List Int → List Int
  EVENT_CPU : List Char
  RING_KERNEL : Nat
  RING_USER : Nat
  CSTACK_DEFAULT : Nat
  CSTACK_NO : Nat
  CSTACK_FP : Nat
  CSTACK_LBR : Nat
  PERF_REG_PC : Nat
  lbr : Bool

/-- `PERF_SAMPLE_CALLCHAIN` of `<linux/perf_event.h>`. -/
def PERF_SAMPLE_CALLCHAIN : Nat := 1 <<< 5
/-- `PERF_SAMPLE_BRANCH_STACK` of `<linux/perf_event.h>`. -/
def PERF_SAMPLE_BRANCH_STACK : Nat := 1 <<< 11
/-- `PERF_SAMPLE_REGS_USER` of `<linux/perf_event.h>`. -/
def PERF_SAMPLE_REGS_USER : Nat := 1 <<< 12
/-- `PERF_SAMPLE_BRANCH_USER` of `<linux/perf_event.h>`. -/
def PERF_SAMPLE_BRANCH_USER : Nat := 1 <<< 0
/-- `PERF_SAMPLE_BRANCH_CALL_STACK` of `<linux/perf_event.h>`. -/
def PERF_SAMPLE_BRANCH_CALL_STACK : Nat := 1 <<< 11
/-- `ESRCH` of `<errno.h>`. -/
def ESRCH : Int := 3
/-- `EACCES` of `<errno.h>`. -/
def EACCES : Int := 13
/-- `EPERM` of `<errno.h>`. -/
def EPERM : Int := 1

/-- `class PerfEvent : public SpinLock`: the counter handle `_fd`, the ring page `_page`
(`none` for `NULL`) and whether the spin lock is held. -/
structure PerfEvent where
  _fd : Int
  _page : Option Nat
  locked : Bool
deriving DecidableEq, Repr

/-- A slot as `calloc` delivers it. -/
def PerfEvent.zero : PerfEvent := { _fd := 0, _page := none, locked := false }

/-- The fields of `Arguments` that `PerfEvents::start` reads. `_event` is `none` for `NULL`;
`eventIsCpu` tells whether the pointer `_event` is the constant `EVENT_CPU`;
`cpuSamplerInterval` is what the method of that name returns. -/
structure Arguments where
  _event : Option (List Char)
  eventIsCpu : Bool
  _interval : Int
  cpuSamplerInterval : Int
  _ring : Nat
  _cstack : Nat
deriving DecidableEq, Repr

/-- The static state of `PerfEvents`, with what it shares with the resolver and the outside:
`_event_type` points into the table of `resolver` (`none` for `NULL`), `_pthread_entry` is
the location found by `lookupThreadEntry`, `hooked` tells whether that location holds
`pthread_setspecific_hook`, `logged` is the static flag of `start`, and `calls` lists the
outside calls made so far, oldest first. -/
structure PerfEvents where
  _enabled : Bool
  _max_events : Int
  _events : List PerfEvent
  _event_type : Option Nat
  _interval : Int
  _ring : Nat
  _cstack : Nat
  _use_mmap_page : Bool
  _pthread_entry : Option Nat
  hooked : Bool
  logged : Bool
  resolver : Resolver
  calls : List OsCall
deriving DecidableEq, Repr

/-- The static state at program start: `_enabled = false`, `_max_events = -1`,
`_events = NULL`, `_event_type = NULL`, `_pthread_entry = NULL`. -/
def PerfEvents.initial (env : Env) : PerfEvents :=
  { _enabled := false, _max_events := -1, _events := [], _event_type := none, _interval := 0,
    _ring := 0, _cstack := 0, _use_mmap_page := false, _pthread_entry := none, hooked := false,
    logged := false, resolver := Resolver.initial env, calls := [] }

/-- `_events[tid]`; outside the array a zeroed slot is read. -/
def PerfEvents.slot (s : PerfEvents) (tid : Int) : PerfEvent :=
  if 0 ≤ tid then s._events.getD tid.toNat PerfEvent.zero else PerfEvent.zero

/-- `_events[tid] = e`; a store outside the array is not represented. -/
def PerfEvents.setSlot (s : PerfEvents) (tid : Int) (e : PerfEvent) : PerfEvents :=
  if 0 ≤ tid then { s with _events := s._events.set tid.toNat e } else s

/-- Appends an outside call to the record. -/
def PerfEvents.call (s : PerfEvents) (c : OsCall) : PerfEvents :=
  { s with calls := s.calls ++ [c] }

/-- The attribute record that `registerThread` fills in for the descriptor `event_type`. -/
def PerfEvents.attrFor (os : Os) (s : PerfEvents) (event_type : PerfEventType) :
    PerfEventAttr :=
  let attr := { PerfEventAttr.zero with type := event_type.type }
  let attr :=
    if attr.type = PERF_TYPE_BREAKPOINT then { attr with bp_type := event_type.config }
    else { attr with config := event_type.config }
  let attr := { attr with config1 := event_type.config1, config2 := event_type.config2 }
  -- Hardware events may not always support zero skid
  let attr := if attr.type = PERF_TYPE_SOFTWARE then { attr with precise_ip := 2 } else attr
  let attr :=
    { attr with
      sample_period := s._interval, sample_type := PERF_SAMPLE_CALLCHAIN, disabled := 1,
      wakeup_events := 1, exclude_callchain_user := 1 }
  let attr := if s._ring &&& os.RING_KERNEL = 0 then { attr with exclude_kernel := 1 } else attr
  let attr := if s._ring &&& os.RING_USER = 0 then { attr with exclude_user := 1 } else attr
  let attr := if s._cstack ≥ os.CSTACK_FP then { attr with exclude_callchain_user := 1 } else attr
  if os.lbr ∧ s._cstack = os.CSTACK_LBR then
    { attr with
      sample_type := attr.sample_type ||| PERF_SAMPLE_BRANCH_STACK ||| PERF_SAMPLE_REGS_USER,
      branch_sample_type := PERF_SAMPLE_BRANCH_USER ||| PERF_SAMPLE_BRANCH_CALL_STACK,
      sample_regs_user := 1 <<< os.PERF_REG_PC }
  else attr

/-- `int PerfEvents::registerThread(int tid)` run without interference by other threads: the
returned value and the state afterwards. -/
def PerfEvents.registerThread (os : Os) (s : PerfEvents) (tid : Int) : Int × PerfEvents :=
  if s._max_events = -1 then
    -- It hasn't been started
    (0, s)
  else if tid ≥ s._max_events then (-1, s)
  else if (s.slot tid)._fd > 0 then (0, s)
  else
    match s._event_type with
    | none => (-1, s)
    | some event_type =>
      -- Mark _events[tid] early to prevent duplicates. Real fd will be put later.
      if (s.slot tid)._fd ≠ 0 then (0, s)
      else
        let s := s.setSlot tid { s.slot tid with _fd := -1 }
        let attr := s.attrFor os (s.resolver.entry event_type)
        let r := os.perf_event_open s.calls.length attr tid
        let fd := r.1
        let s := s.call (OsCall.perf_event_open attr tid fd)
        if fd = -1 then (r.2, s.setSlot tid { s.slot tid with _fd := 0 })
        else if (s.slot tid)._fd ≠ -1 then
          -- Lost race
          (0, s.call (OsCall.close fd))
        else
          let s := s.setSlot tid { s.slot tid with _fd := fd }
          let page : Option Nat × PerfEvents :=
            if s._ring &&& os.RING_KERNEL ≠ 0 then
              if s._use_mmap_page then
                (os.mmap s.calls.length fd, s.call (OsCall.mmap fd (os.mmap s.calls.length fd)))
              else (none, s)
            else (none, s)
          let s := page.2
          let s := s.setSlot tid { _fd := fd, _page := page.1, locked := false }
          let s := s.call (OsCall.fcntl_SETFL_ASYNC fd)
          let s := s.call (OsCall.fcntl_SETSIG_SIGPROF fd)
          let s := s.call (OsCall.fcntl_SETOWN_EX fd tid)
          let s := s.call (OsCall.ioctl_RESET fd)
          let s := s.call (OsCall.ioctl_REFRESH fd)
          (0, s)

/-- `void PerfEvents::unregisterThread(int tid)` run without interference by other threads. -/
def PerfEvents.unregisterThread (s : PerfEvents) (tid : Int) : PerfEvents :=
  if tid ≥ s._max_events then s
  else
    let fd := (s.slot tid)._fd
    let s :=
      if fd > 0 then
        ((s.setSlot tid { s.slot tid with _fd := 0 }).call (OsCall.ioctl_DISABLE fd)).call
          (OsCall.close fd)
      else s
    match (s.slot tid)._page with
    | some page =>
      let s := s.setSlot tid { s.slot tid with locked := true }
      let s := s.call (OsCall.munmap page)
      let s := s.setSlot tid { s.slot tid with _page := none }
      s.setSlot tid { s.slot tid with locked := false }
    | none => s

/-- `static int __intsort(const void *a, const void *b)` on the two `int` values. -/
def __intsort (a b : Int) : Int := if a > b then 1 else 0

/-- Insertion of `x` into a list, before the first element that `cmp` does not put ahead
of it. -/
def qsortInsert (cmp : Int → Int → Int) (x : Int) : List Int → List Int
  | [] => [x]
  | y :: ys => if cmp y x ≤ 0 then y :: qsortInsert cmp x ys else x :: y :: ys

/-- One way a C library can implement `qsort` on an array of `int`, for examples: a stable
sort by insertion that consults the comparison function only through the test
`cmp(a, b) <= 0`, as a merge sort does. -/
def qsort (cmp : Int → Int → Int) : List Int → List Int
  | [] => []
  | x :: xs => qsortInsert cmp x (qsort cmp xs)

/-- The loop `for (int tid = 0; tid < _max_events; tid++)` of `start`, entered at `tid` with
as many rounds left as the first argument says: `err`, `threads_idx` and the state at the
end. -/
def PerfEvents.startLoop (os : Os) (threads : List Int) :
    Nat → Int → Nat → PerfEvents → Int × Nat × PerfEvents
  | 0, _, threads_idx, s => (0, threads_idx, s)
  | rounds + 1, tid, threads_idx, s =>
    if threads_idx < threads.length ∧ tid = threads.getD threads_idx 0 then
      -- create the timer
      let r := s.registerThread os tid
      if r.1 ≠ 0 ∧ r.1 ≠ ESRCH then
        -- if we fail, stop creating more perf_events
        (r.1, threads_idx, r.2)
      else
        -- ESRCH is ignored because the thread doesn't exist anymore
        PerfEvents.startLoop os threads rounds (tid + 1) (threads_idx + 1) r.2
    else
      -- destroy the timer
      PerfEvents.startLoop os threads rounds (tid + 1) threads_idx (s.unregisterThread tid)

/-- How a call of `start` ends: with `Error::OK`, with an `Error` carrying a message, or in a
fault inside the resolver. -/
inductive StartOutcome where
  | ok
  | error (message : String)
  | fault
deriving DecidableEq, Repr

/-- The part of `start` from `int max_events = OS::getMaxThreadId();` on: the slot array, the
signal handler, the thread hook and the registration of the existing threads. -/
def PerfEvents.startRegistration (os : Os) (s : PerfEvents) : StartOutcome × PerfEvents :=
  let max_events := os.getMaxThreadId
  let s :=
    if max_events ≠ s._max_events then
      { s with
        _events := List.replicate max_events.toNat PerfEvent.zero,
        _max_events := max_events }
    else s
  let s := s.call OsCall.installSignalHandler
  -- Enable pthread hook before traversing currently running threads
  let s := { s with hooked := true }
  -- Create perf_events for all existing threads
  let threads := os.qsort __intsort (os.listThreads.takeWhile (· ≠ -1))
  let l := PerfEvents.startLoop os threads s._max_events.toNat 0 0 s
  if l.1 ≠ 0 then
    if l.1 = EACCES ∨ l.1 = EPERM then
      (StartOutcome.error ("No access to perf events. Try --all-user option or " ++
        "\x27sysctl kernel.perf_event_paranoid=1\x27"),
        ({ l.2.2 with hooked := false } : PerfEvents).call OsCall.switchThreadEvents_DISABLE)
    else
      (StartOutcome.error "Perf events unavailable",
        ({ l.2.2 with hooked := false } : PerfEvents).call OsCall.switchThreadEvents_DISABLE)
  else (StartOutcome.ok, l.2.2)

/-- `Error PerfEvents::start(Arguments &args)`: how the call ends and the state afterwards. -/
def PerfEvents.start (env : Env) (os : Os) (s : PerfEvents) (args : Arguments) :
    StartOutcome × PerfEvents :=
  let r := forName env s.resolver (args._event.getD os.EVENT_CPU)
  match r.1 with
  | Outcome.fault => (StartOutcome.fault, s)
  | Outcome.null =>
    (StartOutcome.error "Unsupported event type",
      { s with _event_type := none, resolver := r.2 })
  | Outcome.found idx =>
    let s := { s with _event_type := some idx, resolver := r.2 }
    if (s.resolver.entry idx).counter_arg > 4 then
      (StartOutcome.error "Only arguments 1-4 can be counted", s)
    else
      -- if an arbitrary perf event type is specified pick the interval from
      -- args._interval directly otherwise ask for the effective CPU sampler interval
      let interval : Int :=
        toInt32 (if args._event ≠ none ∧ args.eventIsCpu = false then args._interval
          else args.cpuSamplerInterval)
      if interval < 0 then (StartOutcome.error "interval must be positive", s)
      else
        let entry := if s._pthread_entry = none then os.lookupThreadEntry else s._pthread_entry
        let s := { s with _pthread_entry := entry }
        if entry = none then (StartOutcome.error "Could not set pthread hook", s)
        else
          let s :=
            { s with
              _interval := if interval ≠ 0 then interval
                else (s.resolver.entry idx).default_interval }
          let noSymbols := decide (args._ring &&& os.RING_KERNEL ≠ 0) && !os.haveKernelSymbols
          let s :=
            { s with
              _ring := if noSymbols then os.RING_USER else args._ring,
              logged := s.logged || noSymbols,
              _cstack := args._cstack }
          let s :=
            { s with
              _use_mmap_page := decide (s._cstack ≠ os.CSTACK_NO) &&
                (decide (s._ring ≠ os.RING_USER) || decide (s._cstack = os.CSTACK_DEFAULT)
                  || decide (s._cstack = os.CSTACK_LBR)) }
          s.startRegistration os

/-- Arguments for examples: no event given, which selects `EVENT_CPU`. -/
def cpuArgs : Arguments :=
  { _event := none, eventIsCpu := false, _interval := 0, cpuSamplerInterval := 10000000,
    _ring := 3, _cstack := 0 }

/-- Arguments for examples: the event is a function name with the given text. -/
def eventArgs (event : String) : Arguments :=
  { _event := some event.toList, eventIsCpu := false, _interval := 0,
    cpuSamplerInterval := 10000000, _ring := 3, _cstack := 0 }

/-- Outside answers for examples: four thread ids, no live thread, every counter opens with
the descriptor `100 + tid`, and the library sorts by insertion. -/
def exampleOs : Os :=
  { perf_event_open := fun _ _ tid => (100 + tid, 0),
    mmap := fun _ _ => some 0x7000,
    lookupThreadEntry := some 0x5000,
    haveKernelSymbols := true,
    getMaxThreadId := 4,
    listThreads := [],
    qsort := qsort,
    EVENT_CPU := "cpu".toList,
    RING_KERNEL := 1,
    RING_USER := 2,
    CSTACK_DEFAULT := 0,
    CSTACK_NO := 1,
    CSTACK_FP := 2,
    CSTACK_LBR := 4,
    PERF_REG_PC := 8,
    lbr := true }

/-- Whether an outside call leaves the counter of thread `tid` with handle `fd` alone: it
neither opens a counter for `tid` nor closes or disables `fd`. -/
def OsCall.spares (tid fd : Int) : OsCall → Prop
  | OsCall.perf_event_open _ t _ => t ≠ tid
  | OsCall.close f => f ≠ fd
  | OsCall.ioctl_DISABLE f => f ≠ fd
  | _ => True

/-- The outside calls that `registerThread(tid)` can make when `lo` outside calls have been
made before: `perf_event_open` for `tid`, and calls on the descriptor that `perf_event_open`
answered. -/
def OsCall.ofRegister (os : Os) (tid : Int) (lo : Nat) : OsCall → Prop
  | OsCall.perf_event_open _ t _ => t = tid
  | OsCall.close f => ∃ n a, lo ≤ n ∧ f = (os.perf_event_open n a tid).1
  | OsCall.ioctl_DISABLE _ => False
  | OsCall.munmap _ => False
  | OsCall.installSignalHandler => False
  | OsCall.switchThreadEvents_DISABLE => False
  | _ => True

/-- The snapshot of thread ids that `start` walks: the ids that `thread_list->next()` delivers
before -1, after `qsort`. -/
def PerfEvents.startThreads (os : Os) : List Int :=
  os.qsort __intsort (os.listThreads.takeWhile (· ≠ -1))

/-- The state in which `start` enters its registration loop: the slot array is sized for the
maximum thread id, the signal handler is installed and the thread hook is enabled. -/
def PerfEvents.startPrepared (os : Os) (s : PerfEvents) : PerfEvents :=
  let max_events := os.getMaxThreadId
  let s :=
    if max_events ≠ s._max_events then
      { s with
        _events := List.replicate max_events.toNat PerfEvent.zero,
        _max_events := max_events }
    else s
  let s := s.call OsCall.installSignalHandler
  { s with hooked := true }

/-- What the registration loop of `start` keeps for the live slot of a listed thread `tid0`,
between the state `s0` and a later state `s`: the slot itself, the fact that no other slot
holds its handle, and that no outside call made since concerns its counter. -/
def PerfEvents.Keeps (s0 : PerfEvents) (tid0 : Int) (s : PerfEvents) : Prop :=
  s.slot tid0 = s0.slot tid0
    ∧ (∀ t, t ≠ tid0 → (s.slot t)._fd ≠ (s0.slot tid0)._fd)
    ∧ ∃ cs, s.calls = s0.calls ++ cs ∧ ∀ c ∈ cs, c.spares tid0 (s0.slot tid0)._fd

/-- Outside answers for examples: thread ids below 4, the threads 2 and 1 alive, and every
counter opens with a descriptor that tells the number of outside calls made before. -/
def exampleOsThreads : Os :=
  { exampleOs with
    perf_event_open := fun n _ _ => (1000 + n, 0),
    listThreads := [2, 1] }

/-- The state after a first successful `start` for the cpu event with the threads 1 and 2
alive. -/
def startedExample : PerfEvents :=
  (PerfEvents.start exampleEnv exampleOsThreads (PerfEvents.initial exampleEnv) cpuArgs).2

/-- Outside answers for examples: as `exampleOsThreads`, but thread 1 is gone when its counter
is opened (`ESRCH`). -/
def exampleOsGone : Os :=
  { exampleOsThreads with
    perf_event_open := fun n _ t => if t = 1 then (-1, ESRCH) else (1000 + n, 0) }

/-- Outside answers for examples: as `exampleOsThreads`, but opening the counter of thread 1
is refused (`EACCES`). -/
def exampleOsRefused : Os :=
  { exampleOsThreads with
    perf_event_open := fun n _ t => if t = 1 then (-1, EACCES) else (1000 + n, 0) }

/-- One completed call of the slot protocol. -/
inductive ThreadCall where
  | register (tid : Int)
  | unregister (tid : Int)
deriving DecidableEq, Repr

/-- The state after one completed call, run without interference. -/
def PerfEvents.perform (os : Os) (s : PerfEvents) : ThreadCall → PerfEvents
  | ThreadCall.register tid => (s.registerThread os tid).2
  | ThreadCall.unregister tid => s.unregisterThread tid

/-- The state after a sequence of completed calls, one after the other. -/
def PerfEvents.performAll (os : Os) (s : PerfEvents) (cs : List ThreadCall) : PerfEvents :=
  cs.foldl (PerfEvents.perform os) s

/-- The answer of `perf_event_open` to the call that `registerThread(tid)` makes in the state
`s` for the descriptor `event_type`: the descriptor or -1, and `errno`. -/
def PerfEvents.openAnswer (os : Os) (s : PerfEvents) (tid : Int) (event_type : Nat) :
    Int × Int :=
  os.perf_event_open s.calls.length (s.attrFor os (s.resolver.entry event_type)) tid

/-- A started state for examples: four unset slots, the first descriptor of the table
selected, kernel and user ring. -/
def unsetExample : PerfEvents :=
  { PerfEvents.initial exampleEnv with
    _max_events := 4, _events := List.replicate 4 PerfEvent.zero, _event_type := some 0,
    _ring := 3 }

/-- Outside answers for examples: as `exampleOsThreads`, but every counter opens with the
descriptor 0. -/
def exampleOsZero : Os :=
  { exampleOsThreads with perf_event_open := fun _ _ _ => (0, 0) }

/-! ## `registerThread` and `unregisterThread` as atomic steps on one slot

Two callers work on the slot of one thread id. Each access to the shared slot and each
system call is one step; profiling has been started, the thread id is below the maximum and
an event type is selected, so that the checks at the head of `registerThread` pass.
Modelled from the spec: the spin lock of `spinLock.h` is a flag that `lock()` sets once it is
clear and that `unlock()` and `reset()` clear. -/

/-- What the callers share: the slot `_events[tid]` (handle, ring page, spin lock) and the
record of the descriptors that `perf_event_open` answered and that were passed to `close`,
oldest first. -/
structure Shared where
  _fd : Int
  _page : Option Nat
  locked : Bool
  opened : List Int
  closed : List Int
deriving DecidableEq, Repr

/-- The outside of the two callers: the answer of `perf_event_open` (a descriptor, or -1 with
`errno`) by the number of descriptors opened before, whether a ring page is asked for
(`(_ring & RING_KERNEL) && _use_mmap_page`), and the answer of `mmap` (`none` for
`MAP_FAILED`). -/
structure Kernel where
  perf_event_open : Nat → Int × Int
  wantPage : Bool
  mmap : Int → Option Nat

/-- Where a caller of `registerThread(tid)` stands: before the step named. -/
inductive RegisterPc where
  | loadFd
  | reserve
  | perfEventOpen
  | failed (err : Int)
  | publish (fd : Int)
  | closeLost (fd : Int)
  | map (fd : Int)
  | resetLock (fd : Int) (page : Option Nat)
  | storeFd (fd : Int) (page : Option Nat)
  | storePage (fd : Int) (page : Option Nat)
  | configure (fd : Int)
  | done (ret : Int)
deriving DecidableEq, Repr

/-- One step of `registerThread(tid)`.
* `loadFd`: `if (__atomic_load_n(&_events[tid]._fd, __ATOMIC_ACQUIRE) > 0) return 0;`
* `reserve`: `if (!__sync_bool_compare_and_swap(&_events[tid]._fd, 0, -1)) return 0;`
* `perfEventOpen`: `int fd = syscall(__NR_perf_event_open, &attr, tid, -1, -1, 0);`
* `failed`: `_events[tid]._fd = 0; return err;`
* `publish`: `if (!__sync_bool_compare_and_swap(&_events[tid]._fd, -1, fd))`
* `closeLost`: `close(fd); return 0;`
* `map`: the `mmap` of the ring page, or `page = NULL`
* `resetLock`: `_events[tid].reset();`
* `storeFd`: `_events[tid]._fd = fd;`
* `storePage`: `_events[tid]._page = page;`
* `configure`: the three `fcntl` and two `ioctl` calls on `fd`, then `return 0;` -/
def RegisterPc.step (k : Kernel) (sh : Shared) : RegisterPc → RegisterPc × Shared
  | RegisterPc.loadFd => if sh._fd > 0 then (RegisterPc.done 0, sh) else (RegisterPc.reserve, sh)
  | RegisterPc.reserve =>
    if sh._fd = 0 then (RegisterPc.perfEventOpen, { sh with _fd := -1 })
    else (RegisterPc.done 0, sh)
  | RegisterPc.perfEventOpen =>
    if (k.perf_event_open sh.opened.length).1 = -1 then
      (RegisterPc.failed (k.perf_event_open sh.opened.length).2, sh)
    else
      (RegisterPc.publish (k.perf_event_open sh.opened.length).1,
        { sh with opened := sh.opened ++ [(k.perf_event_open sh.opened.length).1] })
  | RegisterPc.failed err => (RegisterPc.done err, { sh with _fd := 0 })
  | RegisterPc.publish fd =>
    if sh._fd = -1 then (RegisterPc.map fd, { sh with _fd := fd })
    else (RegisterPc.closeLost fd, sh)
  | RegisterPc.closeLost fd => (RegisterPc.done 0, { sh with closed := sh.closed ++ [fd] })
  | RegisterPc.map fd => (RegisterPc.resetLock fd (if k.wantPage then k.mmap fd else none), sh)
  | RegisterPc.resetLock fd page => (RegisterPc.storeFd fd page, { sh with locked := false })
  | RegisterPc.storeFd fd page => (RegisterPc.storePage fd page, { sh with _fd := fd })
  | RegisterPc.storePage fd page => (RegisterPc.configure fd, { sh with _page := page })
  | RegisterPc.configure _ => (RegisterPc.done 0, sh)
  | RegisterPc.done ret => (RegisterPc.done ret, sh)

/-- Where a caller of `unregisterThread(tid)` stands: before the step named. -/
inductive UnregisterPc where
  | loadFd
  | swap (fd : Int)
  | disable (fd : Int)
  | close (fd : Int)
  | loadPage
  | lock
  | unmap
  | clearPage
  | unlock
  | done
deriving DecidableEq, Repr

/-- One step of `unregisterThread(tid)`.
* `loadFd`: `int fd = event->_fd;`
* `swap`: `if (fd > 0 && __sync_bool_compare_and_swap(&event->_fd, fd, 0))`
* `disable`: `ioctl(fd, PERF_EVENT_IOC_DISABLE, 0);`
* `close`: `close(fd);`
* `loadPage`: `if (event->_page != NULL)`
* `lock`: `event->lock();`, which spins while the lock is held
* `unmap`: `munmap(event->_page, 2 * OS::page_size);`
* `clearPage`: `event->_page = NULL;`
* `unlock`: `event->unlock();` -/
def UnregisterPc.step (sh : Shared) : UnregisterPc → UnregisterPc × Shared
  | UnregisterPc.loadFd => (UnregisterPc.swap sh._fd, sh)
  | UnregisterPc.swap fd =>
    if fd > 0 ∧ sh._fd = fd then (UnregisterPc.disable fd, { sh with _fd := 0 })
    else (UnregisterPc.loadPage, sh)
  | UnregisterPc.disable fd => (UnregisterPc.close fd, sh)
  | UnregisterPc.close fd => (UnregisterPc.loadPage, { sh with closed := sh.closed ++ [fd] })
  | UnregisterPc.loadPage =>
    if sh._page ≠ none then (UnregisterPc.lock, sh) else (UnregisterPc.done, sh)
  | UnregisterPc.lock =>
    if sh.locked then (UnregisterPc.lock, sh) else (UnregisterPc.unmap, { sh with locked := true })
  | UnregisterPc.unmap => (UnregisterPc.clearPage, sh)
  | UnregisterPc.clearPage => (UnregisterPc.unlock, { sh with _page := none })
  | UnregisterPc.unlock => (UnregisterPc.done, { sh with locked := false })
  | UnregisterPc.done => (UnregisterPc.done, sh)

/-- A caller: inside `registerThread(tid)` or inside `unregisterThread(tid)`. -/
inductive Caller where
  | register (pc : RegisterPc)
  | unregister (pc : UnregisterPc)
deriving DecidableEq, Repr

/-- One step of a caller. -/
def Caller.step (k : Kernel) (sh : Shared) : Caller → Caller × Shared
  | Caller.register pc => (Caller.register (pc.step k sh).1, (pc.step k sh).2)
  | Caller.unregister pc => (Caller.unregister (pc.step sh).1, (pc.step sh).2)

/-- Whether a caller has returned. -/
def Caller.returned : Caller → Bool
  | Caller.register (RegisterPc.done _) => true
  | Caller.unregister UnregisterPc.done => true
  | _ => false

/-- Two callers and what they share. -/
structure Race where
  shared : Shared
  first : Caller
  second : Caller
deriving DecidableEq, Repr

/-- One step of the caller chosen: the first for `false`, the second for `true`. -/
def Race.step (k : Kernel) (r : Race) (who : Bool) : Race :=
  if who then
    { r with second := (r.second.step k r.shared).1, shared := (r.second.step k r.shared).2 }
  else
    { r with first := (r.first.step k r.shared).1, shared := (r.first.step k r.shared).2 }

/-- An interleaving: the steps taken in the order of the schedule. -/
def Race.run (k : Kernel) (r : Race) (schedule : List Bool) : Race :=
  schedule.foldl (Race.step k) r

/-- The descriptors that are open: answered by `perf_event_open` and not passed to `close`. -/
def Shared.live (sh : Shared) : List Int := sh.opened.filter (fun fd => decide (fd ∉ sh.closed))

/-- A kernel for examples: descriptors 3, 4, 5, ... and no ring page. -/
def exampleKernel : Kernel :=
  { perf_event_open := fun n => (3 + n, 0), wantPage := false, mmap := fun _ => none }

/-- One caller in `registerThread(tid)` and one in `unregisterThread(tid)`, both at the start,
on an unset slot with no descriptor opened yet. -/
def registerUnregister : Race :=
  { shared := { _fd := 0, _page := none, locked := false, opened := [], closed := [] },
    first := Caller.register RegisterPc.loadFd,
    second := Caller.unregister UnregisterPc.loadFd }

/-- Two callers in `registerThread(tid)`, both at the start, on an unset slot with no
descriptor opened yet. -/
def twoRegisters : Race :=
  { shared := { _fd := 0, _page := none, locked := false, opened := [], closed := [] },
    first := Caller.register RegisterPc.loadFd,
    second := Caller.register RegisterPc.loadFd }

/-- The states found from the states of `frontier` in at most `fuel` rounds, each round taking
one step of either caller from every new state, added to the states `seen`. -/
def Race.explore (k : Kernel) : Nat → List Race → List Race → List Race
  | 0, _, seen => seen
  | fuel + 1, frontier, seen =>
    let fresh := (frontier.filter (fun r => decide (r ∉ seen))).eraseDups
    if fresh = [] then seen
    else
      Race.explore k fuel (fresh.flatMap (fun r => [r.step k false, r.step k true]))
        (seen ++ fresh)

/-- What the specification asks of a state of the two callers: at most one descriptor is open,
a live handle in the slot is an open descriptor, and once both callers have returned every
descriptor opened is the handle in the slot or has been closed. -/
def Race.Safe (r : Race) : Prop :=
  r.shared.live.length ≤ 1
    ∧ (r.shared._fd > 0 → r.shared._fd ∈ r.shared.live)
    ∧ (r.first.returned = true → r.second.returned = true →
        ∀ fd ∈ r.shared.opened, fd = r.shared._fd ∨ fd ∈ r.shared.closed)

instance (r : Race) : Decidable r.Safe := by
  unfold Race.Safe
  infer_instance

/-- A kernel for examples that refuses every counter (`EACCES`). -/
def exampleKernelRefusing : Kernel :=
  { perf_event_open := fun _ => (-1, EACCES), wantPage := false, mmap := fun _ => none }

/-! ## `buffers.h`: fixed-width writes and strings -/

/-- The `n` low bytes of `v`, least significant first. -/
def leBytes : Nat → Nat → List Nat
  | 0, _ => []
  | n + 1, v => v % 256 :: leBytes n (v / 256)

/-- The number whose bytes, least significant first, are the given ones. -/
def ofLeBytes : List Nat → Nat
  | [] => 0
  | x :: rest => x + 256 * ofLeBytes rest

/-- The bytes that an `n`-byte integer occupies in memory, lowest address first: least
significant byte first on a little-endian host, most significant byte first on a big-endian
one. -/
def memoryBytes (littleEndian : Bool) (n v : Nat) : List Nat :=
  if littleEndian then leBytes n v else (leBytes n v).reverse

/-- `htons` and `htonl` of `<arpa/inet.h>` on an `n`-byte operand (`n` = 2, 4): the identity
on a big-endian host, the reversal of the `n` bytes on a little-endian one. -/
def hton (littleEndian : Bool) (n v : Nat) : Nat :=
  if littleEndian then ofLeBytes (leBytes n v).reverse else v

/-- Modelled from the spec: `OS::hton64` of `os.h` converts a 64-bit value to network byte
order, as `htonl` does for 32 bits. -/
def hton64 (littleEndian : Bool) (v : Nat) : Nat := hton littleEndian 8 v

/-- A store of the bytes `bs` at `_data + _offset`, as `memcpy` or a store through a cast
pointer performs it; the cursor stays. -/
def Buffer.storeAt (b : Buffer) (bs : List Nat) : Buffer :=
  { b.pushes bs with _offset := b._offset }

/-- `void put(const char* v, u32 len)`, with `v` the bytes readable at the pointer. The sum
`_offset + len` is formed in `unsigned int`, to which `limit()` is converted for the
comparison. -/
def Buffer.put (b : Buffer) (v : List Nat) (len : Nat) : Option Buffer :=
  if (b._offset + (len % 2 ^ 32 : Nat)) % 2 ^ 32 < b.limit % 2 ^ 32 then
    some { b.storeAt (v.take (len % 2 ^ 32)) with
      _offset := b._offset + toInt32 (len % 2 ^ 32 : Nat) }
  else none

/-- `void put16(short v)` on a host of the given byte order. -/
def Buffer.put16 (littleEndian : Bool) (b : Buffer) (v : Int) : Option Buffer :=
  if b._offset + 2 < b.limit then
    some { b.storeAt (memoryBytes littleEndian 2 (hton littleEndian 2 (v % 2 ^ 16).toNat)) with
      _offset := b._offset + 2 }
  else none

/-- `void put32(int v)` on a host of the given byte order. -/
def Buffer.put32 (littleEndian : Bool) (b : Buffer) (v : Int) : Option Buffer :=
  if b._offset + 4 < b.limit then
    some { b.storeAt (memoryBytes littleEndian 4 (hton littleEndian 4 (v % 2 ^ 32).toNat)) with
      _offset := b._offset + 4 }
  else none

/-- `void put64(u64 v)` on a host of the given byte order. -/
def Buffer.put64 (littleEndian : Bool) (b : Buffer) (v : Nat) : Option Buffer :=
  if b._offset + 8 < b.limit then
    some { b.storeAt (memoryBytes littleEndian 8 (hton64 littleEndian (v % 2 ^ 64))) with
      _offset := b._offset + 8 }
  else none

/-- `void putFloat(float v)`, with the argument given as the `int` that shares its storage in
the `union`. -/
def Buffer.putFloat (littleEndian : Bool) (b : Buffer) (bits : Int) : Option Buffer :=
  b.put32 littleEndian bits

/-- `void putUtf8(const char* v, u32 len)`. -/
def Buffer.putUtf8Len (b : Buffer) (v : List Nat) (len : Nat) : Option Buffer :=
  match b.put8 3 with
  | none => none
  | some b1 =>
    match b1.putVar32 len with
    | none => none
    | some b2 => b2.put v len

/-- `void putUtf8(const char* v)`: `none` is `NULL`, and a string is the list of its bytes
up to, not including, the terminating NUL, so that `strlen` is the length of the list. -/
def Buffer.putUtf8 (b : Buffer) (v : Option (List Nat)) : Option Buffer :=
  match v with
  | none => b.put8 0
  | some s =>
    b.putUtf8Len s (if s.length < MAX_STRING_LENGTH then s.length else MAX_STRING_LENGTH)

/-- What the cursor invariant says of an operation that takes the buffer `b` to `b1`: the
limit and the storage size stay, the cursor does not move back and ends at most at the limit,
and every position outside `[old cursor, new cursor)` keeps its byte. -/
def Buffer.Within (b b1 : Buffer) : Prop :=
  b1.limit = b.limit ∧ b1._data.length = b._data.length
    ∧ b._offset ≤ b1._offset ∧ b1._offset ≤ b.limit
    ∧ ∀ i : Nat, ((i : Int) < b._offset ∨ b1._offset ≤ (i : Int)) → b1._data[i]? = b._data[i]?

/-- A `Buffer` over zeroed memory with the cursor at 10. -/
def zeroBufferAt10 : Buffer := { zeroBuffer with _offset := 10 }

/-- A string of `MAX_STRING_LENGTH` bytes, each the letter `A`. -/
def longestString : List Nat := List.replicate 8191 65

/-- A `RecordingBuffer` over zeroed memory on an ABI where `sizeof(Buffer)` is 1032, with the
cursor at the default low-water mark `RECORDING_BUFFER_LIMIT`. -/
def recordingBufferAtMark : Buffer :=
  { _offset := RECORDING_BUFFER_LIMIT, _data := List.replicate 64504 0,
    limit := RecordingBuffer._limit 1032 }

/-! ## `objectSampler.cpp`: the adaptive sampling interval -/

/-- What `ObjectSampler::updateConfiguration` obtains from outside `objectSampler.cpp`, for a
controller state of type `σ` and a type `F` of `float` values.
* `compute`: `PidController::compute` of `pidController.h` on the static `pid_controller`: the
  signal and the controller afterwards.
* `sampling_interval`: what `sampling_interval()` returns, the interval the runtime reports.
* `minus`: the initialiser of `int required_interval = current_interval - signal;`, that is
  the conversion of `current_interval` to `float`, the subtraction in `float` and the
  conversion of the difference to `int`. -/
structure SamplerEnv (σ F : Type) where
  compute : σ → Nat → F × σ
  sampling_interval : Int
  minus : Int → F → Int

/-- The members of `ObjectSampler` that `updateConfiguration` uses, with the static
`pid_controller` of the function. The counts are taken non-negative, where the comparison
`event_count < _last_event_count` does not depend on the signedness of the member. -/
structure ObjectSampler (σ : Type) where
  _interval : Int
  _record_allocations : Bool
  _last_event_count : Int
  pid_controller : σ

/-- What one call of `updateConfiguration` did: the object afterwards, the arguments of the
calls of `pid_controller.compute` and the arguments of the calls of
`SetHeapSamplingInterval`. -/
structure UpdateResult (σ : Type) where
  sampler : ObjectSampler σ
  fed : List Nat
  applied : List Int

/-- `Error ObjectSampler::updateConfiguration(TypeHistogram &event_histo)`, with
`event_count` the value read from `event_histo[T_ALLOC]`. -/
def ObjectSampler.updateConfiguration {σ F : Type} (env : SamplerEnv σ F) (o : ObjectSampler σ)
    (event_count : Int) : UpdateResult σ :=
  if o._record_allocations then
    let last := if event_count < o._last_event_count then 0 else o._last_event_count
    let count_diff := toU64 (event_count - last)
    let r := env.compute o.pid_controller count_diff
    let signal := r.1
    let current_interval := env.sampling_interval
    let required_interval := env.minus current_interval signal
    -- do not dip below the manually configured sampling interval
    { sampler := { o with _last_event_count := event_count, pid_controller := r.2 },
      fed := [count_diff],
      applied := if required_interval ≥ o._interval then [required_interval] else [] }
  else { sampler := o, fed := [], applied := [] }

/-- A sampler environment for examples: the controller has no state and answers a tenth of
the count, the `float` values are integers, and the runtime reports the interval 524288. -/
def exampleSamplerEnv : SamplerEnv Unit Int :=
  { compute := fun _ n => ((n : Int) / 10, ()),
    sampling_interval := 524288,
    minus := fun c s => c - s }

/-- A sampler for examples: floor 1024, allocation recording on or off, 100 events seen at
the previous check. -/
def exampleSampler (record_allocations : Bool) : ObjectSampler Unit :=
  { _interval := 1024, _record_allocations := record_allocations, _last_event_count := 100,
    pid_controller := () }

/-! ## `perfEvents_linux.cpp`: the kernel ring-buffer walker -/

/-- What `walkKernel` reads from outside `perfEvents_linux.cpp`.
* `page_mask`: `OS::page_mask` of `os.h`.
* `data_tail`, `data_head`: the members of the `perf_event_mmap_page` of the slot.
* `hdrType`, `hdrSize`: the members `type` and `size` of the `perf_event_header` found at a
  byte offset of the data area; `word`: the `u64` found at a byte offset of the data area.
* `contains`: `CodeHeap::contains`, whether an address lies in the code region of the
  managed runtime. -/
structure RingMemory where
  page_mask : Nat
  data_tail : Nat
  data_head : Nat
  hdrType : Nat → Nat
  hdrSize : Nat → Nat
  word : Nat → Nat
  contains : Nat → Bool

/-- `u64 next()` of `RingBuffer`: the word read and the new `_offset`. -/
def RingBuffer.next (m : RingMemory) (_offset : Nat) : Nat × Nat :=
  (m.word (((_offset + 8) % 2 ^ 64) &&& m.page_mask) % 2 ^ 64,
    ((_offset + 8) % 2 ^ 64) &&& m.page_mask)

/-- The local state of `walkKernel` and what it has written: `depth`, the stores
`callchain[i] = v` made so far as pairs `(i, v)` in order, `java_ctx->pc` if it was assigned,
and the `_offset` of the `RingBuffer`. -/
structure Walk where
  depth : Int
  stores : List (Int × Nat)
  pc : Option Nat
  _offset : Nat
deriving DecidableEq, Repr

/-- The step `if (CodeHeap::contains(iptr) || depth >= max_depth) { java_ctx->pc = iptr;
goto stack_complete; } callchain[depth++] = iptr;` with the flag of the `goto`. -/
def Walk.frame (m : RingMemory) (max_depth : Int) (w : Walk) (iptr : Nat) : Walk × Bool :=
  if m.contains iptr = true ∨ w.depth ≥ max_depth then
    -- Stop at the first Java frame
    ({ w with pc := some iptr }, true)
  else ({ w with stores := w.stores ++ [(w.depth, iptr)], depth := w.depth + 1 }, false)

/-- `struct Multiplier` of `arguments.h`, with the two members that `arguments.cpp`
initialises and reads. -/
structure Multiplier where
  symbol : Char
  multiplier : Int
deriving DecidableEq, Repr

/-- `static const Multiplier NANOS[]`, the terminating entry included. -/
def NANOS : List Multiplier :=
  [⟨'n', 1⟩, ⟨'u', 1000⟩, ⟨'m', 1000000⟩, ⟨'s', 1000000000⟩, ⟨Char.ofNat 0, 0⟩]

/-- `static const Multiplier BYTES[]`, the terminating entry included. -/
def BYTES : List Multiplier :=
  [⟨'b', 1⟩, ⟨'k', 1024⟩, ⟨'m', 1048576⟩, ⟨'g', 1073741824⟩, ⟨Char.ofNat 0, 0⟩]

/-- `static const Multiplier SECONDS[]`, the terminating entry included. -/
def SECONDS : List Multiplier :=
  [⟨'s', 1⟩, ⟨'m', 60⟩, ⟨'h', 3600⟩, ⟨'d', 86400⟩, ⟨Char.ofNat 0, 0⟩]

/-- `static const Multiplier UNIVERSAL[]`, the terminating entry included. -/
def UNIVERSAL : List Multiplier :=
  [⟨'n', 1⟩, ⟨'u', 1000⟩, ⟨'m', 1000000⟩, ⟨'s', 1000000000⟩, ⟨'b', 1⟩, ⟨'k', 1024⟩,
    ⟨'g', 1073741824⟩, ⟨Char.ofNat 0, 0⟩]

/-- Conversion to `long`: reduction to 64 bits, two's complement. -/
def toInt64 (x : Int) : Int := (x + 2 ^ 63) % 2 ^ 64 - 2 ^ 63

/-- The loop `for (const Multiplier *m = multipliers; m->symbol; m++)` of `parseUnits`: the
multiplier of the first entry before the terminating one whose symbol is `c`. -/
def Arguments.findMultiplier (c : Char) : List Multiplier → Option Int
  | [] => none
  | m :: ms =>
    if m.symbol = Char.ofNat 0 then none
    else if c = m.symbol then some m.multiplier
    else Arguments.findMultiplier c ms

/-- The step `if (c >= 'A' && c <= 'Z') c += 'a' - 'A';` of `parseUnits`. -/
def Arguments.lowerCase (c : Char) : Char :=
  if 65 ≤ c.toNat ∧ c.toNat ≤ 90 then Char.ofNat (c.toNat + 32) else c

/-- `long Arguments::parseUnits(const char *str, const Multiplier *multipliers)`. The product
`result * m->multiplier` is reduced to 64 bits. -/
def Arguments.parseUnits (str : List Char) (multipliers : List Multiplier) : Int :=
  let result := strtoll str 0
  let c := charAt (strtoCore str 0).2.2 0
  if c = Char.ofNat 0 then result
  else
    match Arguments.findMultiplier (Arguments.lowerCase c) multipliers with
    | some multiplier => toInt64 (result * multiplier)
    | none => -1

/-- The loop of `Arguments::hash` from the value `h` and the shift count `shift` on. The result
is the 64-bit pattern of the `long long`: bits shifted out at the top are lost, and a shift
count of 64 or more is taken modulo 64, as the hardware does. -/
def Arguments.hashFrom : Nat → Nat → List Char → Nat
  | h, _, [] => h
  | h, shift, c :: arg =>
    Arguments.hashFrom (h ||| ((c.toNat % 32) <<< (shift % 64)) % 2 ^ 64) (shift + 5) arg

/-- `long long Arguments::hash(const char *arg)`. -/
def Arguments.hash (arg : List Char) : Nat := Arguments.hashFrom 0 0 arg

/-- `HASH(s)`, the hash code computed from the first twelve characters of `s`. -/
def HASH (s : List Char) : Nat :=
  ((charAt s 0).toNat % 32) ||| (((charAt s 1).toNat % 32) <<< 5)
    ||| (((charAt s 2).toNat % 32) <<< 10) ||| (((charAt s 3).toNat % 32) <<< 15)
    ||| (((charAt s 4).toNat % 32) <<< 20) ||| (((charAt s 5).toNat % 32) <<< 25)
    ||| (((charAt s 6).toNat % 32) <<< 30) ||| (((charAt s 7).toNat % 32) <<< 35)
    ||| (((charAt s 8).toNat % 32) <<< 40) ||| (((charAt s 9).toNat % 32) <<< 45)
    ||| (((charAt s 10).toNat % 32) <<< 50) ||| (((charAt s 11).toNat % 32) <<< 55)

/-- The constant that `CASE(s)` compares `arg_hash` with: `HASH(s "            ")`. -/
def caseHash (s : String) : Nat := HASH (s.toList ++ "            ".toList)

/-- The constants of `arguments.h` that `parse` uses, and what it obtains from outside:
`ratio` is the `double` that `std::max(std::min(strtod(ratio, &endptr), 1.0), 0.01)` yields
for the text, `isOpenJ9` is `VM::isOpenJ9()`. -/
structure ArgumentsH where
  ACTION_START : Nat
  ACTION_RESUME : Nat
  ACTION_STOP : Nat
  ACTION_CHECK : Nat
  ACTION_STATUS : Nat
  ACTION_LIST : Nat
  ACTION_VERSION : Nat
  EVENT_ALLOC : List Char
  EVENT_CPU : List Char
  DEFAULT_ALLOC_INTERVAL : Int
  RING_KERNEL : Nat
  RING_USER : Nat
  CSTACK_FP : Nat
  CSTACK_DWARF : Nat
  CSTACK_LBR : Nat
  CSTACK_VM : Nat
  CSTACK_VMX : Nat
  CSTACK_NO : Nat
  JVMTI : Nat
  ASGCT : Nat
  ratio : List Char → Rat
  isOpenJ9 : Bool

/-- The members of `Arguments` that `parse` assigns, and its local `msg`. A `const char *` is
`none` for `NULL`. -/
structure ParsedArguments where
  _action : Nat
  _jfr_options : Int
  _cpu : Int
  _wall : Int
  _wall_collapsing : Bool
  _wall_threads_per_tick : Int
  _event : Option (List Char)
  _memory : Int
  _record_allocations : Bool
  _record_liveness : Bool
  _record_heap_usage : Bool
  _live_samples_ratio : Rat
  _gc_generations : Bool
  _interval : Int
  _jstackdepth : Int
  _safe_mode : Int
  _file : Option (List Char)
  _log : Option (List Char)
  _loglevel : Option (List Char)
  _filter : Option (List Char)
  _ring : Nat
  _cstack : Nat
  _context_attributes : List (List Char)
  _lightweight : Bool
  _wallclock_sampler : Nat
  _unknown_arg : Option (List Char)
  msg : Option String
deriving DecidableEq, Repr

/-- `INT_MAX` of `<limits.h>`. -/
def INT_MAX : Int := 2 ^ 31 - 1

/-- The pieces of a string between the occurrences of `delim`, empty pieces included. -/
def pieces (delim : Char) : List Char → List (List Char)
  | [] => [[]]
  | c :: cs =>
    if c = delim then [] :: pieces delim cs
    else
      match pieces delim cs with
      | [] => [[c]]
      | p :: ps => (c :: p) :: ps

/-- The tokens that `strtok(s, ",")` and the following calls `strtok(NULL, ",")` deliver: the
non-empty pieces between the commas. -/
def strtokAll (s : List Char) : List (List Char) :=
  (pieces ',' s).filter (fun t => !t.isEmpty)

/-- A string cut at the first occurrence of `ch`, as `p = strchr(s, ch); if (p) *p++ = 0;`
leaves it: the part before, and the part after if `ch` occurs. -/
def cutAt (s : List Char) (ch : Char) : List Char × Option (List Char) :=
  match strchr s ch with
  | some i => (s.take i, some (s.drop (i + 1)))
  | none => (s, none)

/-- The body of `CASE("wall")`. -/
def Arguments.caseWall (a : ParsedArguments) (value : Option (List Char)) : ParsedArguments :=
  let a :=
    match value with
    | none => { a with _wall := 0 }
    | some v =>
      if charAt v 0 = '~' then
        { a with _wall_collapsing := true, _wall := Arguments.parseUnits (v.drop 1) NANOS }
      else { a with _wall := Arguments.parseUnits v NANOS }
  if a._wall < 0 then { a with msg := some "wall must be >= 0" } else a

/-- The body of `CASE("event")`. -/
def Arguments.caseEvent (k : ArgumentsH) (a : ParsedArguments) (value : Option (List Char)) :
    ParsedArguments :=
  match value with
  | none => { a with msg := some "event must not be empty" }
  | some v =>
    if v = [] then { a with msg := some "event must not be empty" }
    else if v = k.EVENT_ALLOC then (if a._memory < 0 then { a with _memory := 0 } else a)
    else if a._event ≠ none then { a with msg := some "Duplicate event argument" }
    else { a with _event := some v }

/-- The body of `CASE("memory")`. -/
def Arguments.caseMemory (k : ArgumentsH) (a : ParsedArguments) (value : Option (List Char)) :
    ParsedArguments :=
  let value1 := value.map (fun v => (cutAt v ':').1)
  let config0 := value.bind (fun v => (cutAt v ':').2)
  let config := config0.map (fun c => (cutAt c ':').1)
  let ratio := config0.bind (fun c => (cutAt c ':').2)
  let a :=
    { a with
      _memory :=
        match value1 with
        | none => k.DEFAULT_ALLOC_INTERVAL
        | some v => Arguments.parseUnits v BYTES }
  if a._memory ≥ 0 then
    match config with
    | some c =>
      let a := if (strchr c 'a').isSome then { a with _record_allocations := true } else a
      let a :=
        if (strchr c 'l').isSome then { a with _record_liveness := true }
        else if (strchr c 'L').isSome then
          { a with _record_liveness := true, _record_heap_usage := true }
        else a
      -- live-sample ratio is only applicable when tracking liveness
      match ratio with
      | some r => if a._record_liveness then { a with _live_samples_ratio := k.ratio r } else a
      | none => a
    | none =>
      -- enable both allocations and liveness tracking
      { a with _record_allocations := true, _record_liveness := true }
  else a

/-- The body of `CASE("generations")`. -/
def Arguments.caseGenerations (a : ParsedArguments) (value : Option (List Char)) :
    ParsedArguments :=
  let a := { a with _gc_generations := decide (value = some "true".toList) }
  if a._gc_generations = true ∧ a._memory ≤ 0 then
    -- very conservative sampling interval to reduce overhead
    { a with _memory := 4 * 1024 * 1024 }
  else a

/-- The body of `CASE("cstack")`. -/
def Arguments.caseCstack (k : ArgumentsH) (a : ParsedArguments) (value : Option (List Char)) :
    ParsedArguments :=
  match value with
  | none => a
  | some v =>
    if v = "fp".toList then { a with _cstack := k.CSTACK_FP }
    else if v = "dwarf".toList then { a with _cstack := k.CSTACK_DWARF }
    else if v = "lbr".toList then { a with _cstack := k.CSTACK_LBR }
    else if v = "vm".toList then { a with _cstack := k.CSTACK_VM }
    else if v = "vmx".toList then { a with _cstack := k.CSTACK_VMX }
    else { a with _cstack := k.CSTACK_NO }

/-- The body of `CASE("jfr")`. -/
def Arguments.caseJfr (a : ParsedArguments) (value : Option (List Char)) : ParsedArguments :=
  match value with
  | some v => { a with _jfr_options := toInt32 (strtoll v 0) }
  | none => a

/-- The body of `CASE("cpu")`. -/
def Arguments.caseCpu (a : ParsedArguments) (value : Option (List Char)) : ParsedArguments :=
  let a :=
    { a with
      _cpu :=
        match value with
        | none => 0
        | some v => Arguments.parseUnits v NANOS }
  if a._cpu < 0 then { a with msg := some "cpu must be >= 0" } else a

/-- The body of `CASE("walltpt")`. -/
def Arguments.caseWalltpt (a : ParsedArguments) (value : Option (List Char)) :
    ParsedArguments :=
  match value with
  | none => { a with msg := some "walltpt must be > 0" }
  | some v =>
    if atoi v ≤ 0 then
      { a with _wall_threads_per_tick := atoi v, msg := some "walltpt must be > 0" }
    else { a with _wall_threads_per_tick := atoi v }

/-- The body of `CASE("interval")`. -/
def Arguments.caseInterval (a : ParsedArguments) (value : Option (List Char)) :
    ParsedArguments :=
  match value with
  | none => { a with msg := some "Invalid interval" }
  | some v =>
    if Arguments.parseUnits v UNIVERSAL ≤ 0 then
      { a with _interval := Arguments.parseUnits v UNIVERSAL, msg := some "Invalid interval" }
    else { a with _interval := Arguments.parseUnits v UNIVERSAL }

/-- The body of `CASE("jstackdepth")`. -/
def Arguments.caseJstackdepth (a : ParsedArguments) (value : Option (List Char)) :
    ParsedArguments :=
  match value with
  | none => { a with msg := some "jstackdepth must be > 0" }
  | some v =>
    if atoi v ≤ 0 then { a with _jstackdepth := atoi v, msg := some "jstackdepth must be > 0" }
    else { a with _jstackdepth := atoi v }

/-- The body of `CASE("safemode")`. -/
def Arguments.caseSafemode (a : ParsedArguments) (value : Option (List Char)) :
    ParsedArguments :=
  { a with
    _safe_mode :=
      match value with
      | none => INT_MAX
      | some v => toInt32 (strtoll v 0) }

/-- The body of `CASE("file")`. -/
def Arguments.caseFile (a : ParsedArguments) (value : Option (List Char)) : ParsedArguments :=
  let a :=
    if value = none ∨ value = some [] then { a with msg := some "file must not be empty" }
    else a
  { a with _file := value }

/-- The body of `CASE("log")`. -/
def Arguments.caseLog (a : ParsedArguments) (value : Option (List Char)) : ParsedArguments :=
  { a with _log := if value = none ∨ value = some [] then none else value }

/-- The body of `CASE("loglevel")`. -/
def Arguments.caseLoglevel (a : ParsedArguments) (value : Option (List Char)) :
    ParsedArguments :=
  let a :=
    if value = none ∨ value = some [] then { a with msg := some "loglevel must not be empty" }
    else a
  { a with _loglevel := value }

/-- The body of `CASE("filter")`. -/
def Arguments.caseFilter (a : ParsedArguments) (value : Option (List Char)) :
    ParsedArguments :=
  { a with _filter := some (value.getD []) }

/-- The pieces that the loop of `CASE("attributes")` appends to `_context_attributes`. -/
def Arguments.caseAttributes (a : ParsedArguments) (value : Option (List Char)) :
    ParsedArguments :=
  match value with
  | some v => { a with _context_attributes := a._context_attributes ++ pieces ';' v }
  | none => a

/-- The body of `CASE("lightweight")`. -/
def Arguments.caseLightweight (a : ParsedArguments) (value : Option (List Char)) :
    ParsedArguments :=
  match value with
  | none => a
  | some v => { a with _lightweight := decide (charAt v 0 = 'y' ∨ charAt v 0 = 't') }

/-- The body of `CASE("wallsampler")`. -/
def Arguments.caseWallsampler (k : ArgumentsH) (a : ParsedArguments)
    (value : Option (List Char)) : ParsedArguments :=
  match value with
  | none => a
  | some v => { a with _wallclock_sampler := if charAt v 0 = 'j' then k.JVMTI else k.ASGCT }

/-- The body of the loop of `Arguments::parse` for one token, after the cut at `=`: the chain
`SWITCH(arg) { CASE(...) ... DEFAULT() ... }`. -/
def Arguments.parseArg (k : ArgumentsH) (a : ParsedArguments) (arg : List Char)
    (value : Option (List Char)) : ParsedArguments :=
  let arg_hash := Arguments.hash arg
  -- Actions
  if arg_hash = caseHash "start" then { a with _action := k.ACTION_START }
  else if arg_hash = caseHash "resume" then { a with _action := k.ACTION_RESUME }
  else if arg_hash = caseHash "stop" then { a with _action := k.ACTION_STOP }
  else if arg_hash = caseHash "check" then { a with _action := k.ACTION_CHECK }
  else if arg_hash = caseHash "status" then { a with _action := k.ACTION_STATUS }
  else if arg_hash = caseHash "list" then { a with _action := k.ACTION_LIST }
  else if arg_hash = caseHash "version" then { a with _action := k.ACTION_VERSION }
  else if arg_hash = caseHash "jfr" then Arguments.caseJfr a value
  else if arg_hash = caseHash "cpu" then Arguments.caseCpu a value
  else if arg_hash = caseHash "wall" then Arguments.caseWall a value
  else if arg_hash = caseHash "walltpt" then Arguments.caseWalltpt a value
  else if arg_hash = caseHash "event" then Arguments.caseEvent k a value
  else if arg_hash = caseHash "memory" then Arguments.caseMemory k a value
  else if arg_hash = caseHash "generations" then Arguments.caseGenerations a value
  else if arg_hash = caseHash "interval" then Arguments.caseInterval a value
  else if arg_hash = caseHash "jstackdepth" then Arguments.caseJstackdepth a value
  else if arg_hash = caseHash "safemode" then Arguments.caseSafemode a value
  else if arg_hash = caseHash "file" then Arguments.caseFile a value
  else if arg_hash = caseHash "log" then Arguments.caseLog a value
  else if arg_hash = caseHash "loglevel" then Arguments.caseLoglevel a value
  -- Filters
  else if arg_hash = caseHash "filter" then Arguments.caseFilter a value
  else if arg_hash = caseHash "allkernel" then { a with _ring := k.RING_KERNEL }
  else if arg_hash = caseHash "alluser" then { a with _ring := k.RING_USER }
  else if arg_hash = caseHash "cstack" then Arguments.caseCstack k a value
  else if arg_hash = caseHash "attributes" then Arguments.caseAttributes a value
  else if arg_hash = caseHash "lightweight" then Arguments.caseLightweight a value
  else if arg_hash = caseHash "wallsampler" then Arguments.caseWallsampler k a value
  else if a._unknown_arg = none then { a with _unknown_arg := some arg }
  else a

/-- The loop `for (char *arg = strtok(args_copy, ","); arg != NULL; arg = strtok(NULL, ","))`
of `Arguments::parse` over the tokens. -/
def Arguments.parseLoop (k : ArgumentsH) (a : ParsedArguments) (tokens : List (List Char)) :
    ParsedArguments :=
  tokens.foldl (fun a arg => Arguments.parseArg k a (cutAt arg '=').1 (cutAt arg '=').2) a

/-- `Error Arguments::parse(const char *args)`, where the allocation of `_buf` succeeds: the
message of the returned `Error` (`none` for `Error::OK`) and the members afterwards. -/
def Arguments.parse (k : ArgumentsH) (a : ParsedArguments) (args : Option (List Char)) :
    Option String × ParsedArguments :=
  match args with
  | none => (none, a)
  | some s =>
    let a := Arguments.parseLoop k { a with msg := none } (strtokAll s)
    -- Return error only after parsing all arguments, when 'log' is already set
    if a.msg ≠ none then (a.msg, a)
    else
      let a :=
        if a._event = none ∧ a._cpu < 0 ∧ a._wall < 0 ∧ a._memory < 0 then
          { a with _event := some k.EVENT_CPU }
        else a
      let a :=
        if k.isOpenJ9 = true ∧ a._cstack = k.CSTACK_FP then { a with _cstack := k.CSTACK_DWARF }
        else a
      (none, a)

/-- The names that the cases of `Arguments::parse` are written for, in the order of the
chain. -/
def optionNames : List String :=
  ["start", "resume", "stop", "check", "status", "list", "version", "jfr", "cpu", "wall",
    "walltpt", "event", "memory", "generations", "interval", "jstackdepth", "safemode", "file",
    "log", "loglevel", "filter", "allkernel", "alluser", "cstack", "attributes", "lightweight",
    "wallsampler"]

/-- The value of a string of letters read as a number in base 32, first character lowest,
each character counting with its low five bits. -/
def hashSum : List Char → Nat
  | [] => 0
  | c :: arg => c.toNat % 32 + 32 * hashSum arg

/-- Constants for examples. -/
def exampleArgumentsH : ArgumentsH :=
  { ACTION_START := 1, ACTION_RESUME := 2, ACTION_STOP := 3, ACTION_CHECK := 4,
    ACTION_STATUS := 5, ACTION_LIST := 6, ACTION_VERSION := 7,
    EVENT_ALLOC := "alloc".toList, EVENT_CPU := "cpu".toList,
    DEFAULT_ALLOC_INTERVAL := 524287, RING_KERNEL := 1, RING_USER := 2,
    CSTACK_FP := 2, CSTACK_DWARF := 3, CSTACK_LBR := 4, CSTACK_VM := 5, CSTACK_VMX := 6,
    CSTACK_NO := 1, JVMTI := 1, ASGCT := 0, ratio := fun _ => 1, isOpenJ9 := false }

/-- Members for examples: no action, no event, the intervals of the engines negative. -/
def exampleArguments : ParsedArguments :=
  { _action := 0, _jfr_options := 0, _cpu := -1, _wall := -1, _wall_collapsing := false,
    _wall_threads_per_tick := 16, _event := none, _memory := -1,
    _record_allocations := false, _record_liveness := false, _record_heap_usage := false,
    _live_samples_ratio := 1, _gc_generations := false, _interval := 0, _jstackdepth := 2048,
    _safe_mode := 0, _file := none, _log := none, _loglevel := none, _filter := none,
    _ring := 3, _cstack := 0, _context_attributes := [], _lightweight := false,
    _wallclock_sampler := 0, _unknown_arg := none, msg := none }

/-! # Theorems -/

/-! ## Theorems: `buffers.h` -/

theorem zeroBuffer_offset : zeroBuffer._offset = 0 := rfl

theorem zeroBuffer_limit : zeroBuffer.limit = 1020 := rfl

theorem zeroBuffer_length : zeroBuffer._data.length = 1020 :=
  List.length_replicate 1020 0

theorem Buffer.pushes_nil (b : Buffer) : b.pushes [] = b := rfl

theorem Buffer.pushes_cons (b : Buffer) (x : Nat) (bs : List Nat) :
    b.pushes (x :: bs) = (b.push x).pushes bs := rfl

theorem Buffer.pushes_append (b : Buffer) (xs ys : List Nat) :
    b.pushes (xs ++ ys) = (b.pushes xs).pushes ys := by
  simp [Buffer.pushes, List.foldl_append]

theorem Buffer.pushes_offset (b : Buffer) (bs : List Nat) :
    (b.pushes bs)._offset = b._offset + bs.length := by
  induction bs generalizing b with
  | nil => simp [Buffer.pushes]
  | cons x bs ih =>
    rw [Buffer.pushes_cons, ih]
    simp only [Buffer.push, List.length_cons, Nat.cast_add, Nat.cast_one]
    omega

theorem Buffer.pushes_limit (b : Buffer) (bs : List Nat) :
    (b.pushes bs).limit = b.limit := by
  induction bs generalizing b with
  | nil => rfl
  | cons x bs ih =>
    rw [Buffer.pushes_cons, ih]
    simp only [Buffer.push, Buffer.poke]
    split <;> rfl

theorem Buffer.pushes_data (bs : List Nat) (b : Buffer) (n : Nat) (hn : b._offset = n)
    (hlen : n + bs.length ≤ b._data.length) :
    (b.pushes bs)._data
      = b._data.take n ++ bs.map (· % 256) ++ b._data.drop (n + bs.length) := by
  induction bs generalizing b n with
  | nil => simp [Buffer.pushes]
  | cons x bs ih =>
    simp only [List.length_cons] at hlen
    have hpo : (b.push x)._offset = ((n + 1 : Nat) : Int) := by
      simp [Buffer.push, hn]
    have hpd : (b.push x)._data = b._data.set n (x % 256) := by
      simp [Buffer.push, Buffer.poke, hn]
    rw [Buffer.pushes_cons, ih (b.push x) (n + 1) hpo (by rw [hpd, List.length_set]; omega), hpd]
    have hlt : n < b._data.length := by omega
    have hset : b._data.set n (x % 256)
        = b._data.take n ++ (x % 256) :: b._data.drop (n + 1) := by
      rw [List.set_eq_take_append_cons_drop, if_pos hlt]
    have htl : (b._data.take n).length = n := by
      rw [List.length_take]; omega
    have h1 : (b._data.set n (x % 256)).take (n + 1) = b._data.take n ++ [x % 256] := by
      rw [hset]
      have := @List.take_append _ (b._data.take n) ((x % 256) :: b._data.drop (n + 1)) 1
      rw [htl] at this
      rw [this]; rfl
    have h2 : (b._data.set n (x % 256)).drop (n + 1 + bs.length)
        = b._data.drop (n + (bs.length + 1)) := by
      rw [List.drop_set_of_lt _ _ (by omega)]
      congr 1; omega
    rw [h1, h2]
    simp

theorem Buffer.appended_pushes (bs : List Nat) (b : Buffer) (h0 : 0 ≤ b._offset)
    (hlen : b._offset + bs.length ≤ b._data.length) :
    b.appended (b.pushes bs) = bs.map (· % 256) := by
  obtain ⟨n, hn⟩ := Int.eq_ofNat_of_zero_le h0
  have hlen' : n + bs.length ≤ b._data.length := by omega
  unfold Buffer.appended
  rw [Buffer.pushes_data bs b n hn hlen', Buffer.pushes_offset, hn]
  have htl : (b._data.take n).length = n := by
    rw [List.length_take]; omega
  simp only [Int.toNat_ofNat, add_sub_cancel_left, List.append_assoc]
  rw [List.drop_left' htl]
  rw [List.take_left' (by simp)]

theorem Buffer.putVarLoop_eq (fuel : Nat) (b : Buffer) (v : Nat) :
    Buffer.putVarLoop fuel b v = b.pushes (varBytes fuel v) := by
  induction fuel generalizing b v with
  | zero => rfl
  | succ f ih =>
    simp only [Buffer.putVarLoop, varBytes]
    split
    · rw [ih, Buffer.pushes_cons]
    · rfl

theorem Buffer.putVar64Head_eq (fuel : Nat) (b : Buffer) (v iter : Nat) :
    Buffer.putVar64Head fuel b v iter
      = (b.pushes (var64HeadBytes fuel v iter).1, (var64HeadBytes fuel v iter).2.1,
          (var64HeadBytes fuel v iter).2.2) := by
  induction fuel generalizing b v iter with
  | zero => rfl
  | succ f ih =>
    simp only [Buffer.putVar64Head, var64HeadBytes]
    split
    · split
      · rfl
      · rw [ih]
        simp [Buffer.pushes_append, Buffer.pushes_cons, Buffer.pushes_nil]
    · rfl

theorem Buffer.putVar64_eq (b : Buffer) (v : Nat) :
    b.putVar64 v
      = if b._offset + 9 < b.limit then some (b.pushes (putVar64Bytes v)) else none := by
  unfold Buffer.putVar64 putVar64Bytes
  rw [Buffer.putVar64Head_eq]
  split
  · rcases h : var64HeadBytes 3 (v % 2 ^ 64) 0 with ⟨l, v1, r⟩
    cases r
    · simp [Buffer.putVarLoop_eq, Buffer.pushes_append]
    · simp
  · rfl

set_option maxRecDepth 100000 in
theorem cont_byte (x : Nat) :
    ((x % 256) ||| 0x80) % 128 = x % 128 ∧ 128 ≤ (x % 256) ||| 0x80
      ∧ (x % 256) ||| 0x80 < 256 := by
  have key : ∀ y < 256, (y ||| 0x80) % 128 = y % 128 ∧ 128 ≤ y ||| 0x80 ∧ y ||| 0x80 < 256 := by
    decide
  have h := key (x % 256) (Nat.mod_lt _ (by norm_num))
  refine ⟨?_, h.2.1, h.2.2⟩
  rw [h.1]; omega

theorem decode_cons_cont (v : Nat) (m : List Nat) (hi : Nat) (r : List Nat)
    (h : decodeLEB128 m = some (hi, r)) :
    decodeLEB128 (((v % 256) ||| 0x80) :: m) = some (v % 128 + 128 * hi, r) := by
  obtain ⟨h1, h2, _⟩ := cont_byte v
  rw [decodeLEB128, if_neg (by omega), h, h1]

theorem decode_cont (v : Nat) (m : List Nat) (rest : List Nat)
    (h : decodeLEB128 m = some (v >>> 7, rest)) :
    decodeLEB128 (((v % 256) ||| 0x80) :: m) = some (v, rest) := by
  rw [decode_cons_cont v m _ _ h, Nat.shiftRight_eq_div_pow]
  congr 2
  omega

theorem decode_varBytes (fuel : Nat) (v : Nat) (rest : List Nat) (h : v < 128 ^ fuel)
    (hf : 0 < fuel) :
    decodeLEB128 (varBytes fuel v ++ rest) = some (v, rest) := by
  induction fuel generalizing v with
  | zero => omega
  | succ f ih =>
    simp only [varBytes]
    split
    · rename_i hv
      have hs : v >>> 7 < 128 ^ f := by
        rw [Nat.shiftRight_eq_div_pow]
        rw [pow_succ] at h
        omega
      have hf0 : 0 < f := by
        rcases Nat.eq_zero_or_pos f with h0 | h0
        · subst h0
          rw [Nat.shiftRight_eq_div_pow] at hs
          omega
        · exact h0
      exact decode_cont v _ rest (ih _ hs hf0)
    · simp only [List.singleton_append, decodeLEB128]
      rw [if_pos (by omega)]
      rfl

theorem varBytes_lt (fuel : Nat) (v : Nat) : ∀ x ∈ varBytes fuel v, x < 256 := by
  induction fuel generalizing v with
  | zero => simp [varBytes]
  | succ f ih =>
    simp only [varBytes]
    split
    · intro x hx
      rcases List.mem_cons.1 hx with h | h
      · rw [h]; exact (cont_byte v).2.2
      · exact ih _ x h
    · intro x hx
      simp only [List.mem_singleton] at hx
      omega

theorem varBytes_length (fuel : Nat) (k : Nat) (v : Nat) (h : v < 128 ^ (k + 1)) :
    (varBytes fuel v).length ≤ k + 1 := by
  induction fuel generalizing v k with
  | zero => simp [varBytes]
  | succ f ih =>
    simp only [varBytes]
    split
    · cases k with
      | zero => omega
      | succ k =>
        have hs : v >>> 7 < 128 ^ (k + 1) := by
          rw [Nat.shiftRight_eq_div_pow]
          rw [pow_succ] at h
          omega
        have := ih k _ hs
        simp only [List.length_cons]
        omega
    · simp



theorem putVar64Bytes_cases (v w : Nat) (hw : w = v % 2 ^ 64) :
    putVar64Bytes v =
      if w > 0x1fffff then
        if w >>> 7 >>> 7 >>> 7 > 0x1fffff then
          if w >>> 7 >>> 7 >>> 7 >>> 7 >>> 7 >>> 7 > 0x1fffff then
            threeCont w ++ (threeCont (w >>> 7 >>> 7 >>> 7)
              ++ threeCont (w >>> 7 >>> 7 >>> 7 >>> 7 >>> 7 >>> 7))
          else
            threeCont w ++ (threeCont (w >>> 7 >>> 7 >>> 7)
              ++ varBytes 64 (w >>> 7 >>> 7 >>> 7 >>> 7 >>> 7 >>> 7))
        else threeCont w ++ varBytes 64 (w >>> 7 >>> 7 >>> 7)
      else varBytes 64 w := by
  unfold putVar64Bytes
  rw [← hw]
  simp only [var64HeadBytes, threeCont]
  split_ifs <;> simp_all

theorem decode_threeCont (v : Nat) (m rest : List Nat)
    (h : decodeLEB128 m = some (v >>> 7 >>> 7 >>> 7, rest)) :
    decodeLEB128 (threeCont v ++ m) = some (v, rest) := by
  unfold threeCont
  exact decode_cont _ _ _ (decode_cont _ _ _ (decode_cont _ _ _ h))

theorem threeCont_lt (v : Nat) : ∀ x ∈ threeCont v, x < 256 := by
  intro x hx
  simp only [threeCont, List.mem_cons, List.mem_singleton, List.not_mem_nil, or_false] at hx
  rcases hx with h | h | h <;> rw [h] <;> exact (cont_byte _).2.2

theorem threeCont_ge (v : Nat) : ∀ x ∈ threeCont v, 128 ≤ x := by
  intro x hx
  simp only [threeCont, List.mem_cons, List.mem_singleton, List.not_mem_nil, or_false] at hx
  rcases hx with h | h | h <;> rw [h] <;> exact (cont_byte _).2.1

theorem payload7_threeCont (v : Nat) (m : List Nat) :
    payload7 (threeCont v ++ m) = v % 2 ^ 21 + 2 ^ 21 * payload7 m := by
  have e : threeCont v ++ m
      = ((v % 256) ||| 0x80) :: (((v >>> 7) % 256) ||| 0x80)
          :: (((v >>> 7 >>> 7) % 256) ||| 0x80) :: m := rfl
  rw [e]
  simp only [payload7, (cont_byte _).1, Nat.shiftRight_eq_div_pow]
  generalize payload7 m = p
  omega

theorem threeCont_length (v : Nat) : (threeCont v).length = 3 := rfl

theorem putVar64Bytes_length (v : Nat) : (putVar64Bytes v).length ≤ 9 := by
  rw [putVar64Bytes_cases v _ rfl]
  generalize v % 2 ^ 64 = w
  have h3 : ∀ w, w ≤ 0x1fffff → (varBytes 64 w).length ≤ 3 := fun w hw =>
    varBytes_length 64 2 w (by omega)
  split_ifs with h1 h2 h3'
  · simp [threeCont_length]
  · have := h3 _ (not_lt.1 h3')
    simp only [List.length_append, threeCont_length]; omega
  · have := h3 _ (not_lt.1 h2)
    simp only [List.length_append, threeCont_length]; omega
  · have := h3 _ (not_lt.1 h1); omega

theorem putVar64Bytes_lt (v : Nat) : ∀ x ∈ putVar64Bytes v, x < 256 := by
  rw [putVar64Bytes_cases v _ rfl]
  generalize v % 2 ^ 64 = w
  intro x hx
  split_ifs at hx
  · simp only [List.mem_append] at hx
    rcases hx with h | h | h <;> exact threeCont_lt _ x h
  · simp only [List.mem_append] at hx
    rcases hx with h | h | h
    · exact threeCont_lt _ x h
    · exact threeCont_lt _ x h
    · exact varBytes_lt _ _ x h
  · simp only [List.mem_append] at hx
    rcases hx with h | h
    · exact threeCont_lt _ x h
    · exact varBytes_lt _ _ x h
  · exact varBytes_lt _ _ x hx

theorem putVar64Bytes_decode (v : Nat) (hv : v < 2 ^ 63) (rest : List Nat) :
    decodeLEB128 (putVar64Bytes v ++ rest) = some (v, rest) := by
  rw [putVar64Bytes_cases v v (Nat.mod_eq_of_lt (by omega)).symm]
  have hd : ∀ w, w ≤ 0x1fffff → decodeLEB128 (varBytes 64 w ++ rest) = some (w, rest) :=
    fun w hw => decode_varBytes 64 w rest (lt_of_le_of_lt hw (by norm_num)) (by norm_num)
  split_ifs with h1 h2 h3
  · exfalso
    simp only [Nat.shiftRight_eq_div_pow] at h3
    omega
  · rw [List.append_assoc, List.append_assoc]
    exact decode_threeCont _ _ _ (decode_threeCont _ _ _ (hd _ (not_lt.1 h3)))
  · rw [List.append_assoc]
    exact decode_threeCont _ _ _ (hd _ (not_lt.1 h2))
  · exact hd _ (not_lt.1 h1)

theorem putVar64Bytes_top (v : Nat) (hv : v < 2 ^ 64) (hl : 2 ^ 63 ≤ v) :
    (putVar64Bytes v).length = 9 ∧ (∀ x ∈ putVar64Bytes v, 128 ≤ x)
      ∧ payload7 (putVar64Bytes v) = v - 2 ^ 63 := by
  rw [putVar64Bytes_cases v v (Nat.mod_eq_of_lt hv).symm]
  have h1 : v > 0x1fffff := by omega
  have h2 : v >>> 7 >>> 7 >>> 7 > 0x1fffff := by
    simp only [Nat.shiftRight_eq_div_pow]; omega
  have h3 : v >>> 7 >>> 7 >>> 7 >>> 7 >>> 7 >>> 7 > 0x1fffff := by
    simp only [Nat.shiftRight_eq_div_pow]; omega
  rw [if_pos h1, if_pos h2, if_pos h3]
  refine ⟨by simp [threeCont_length], ?_, ?_⟩
  · intro x hx
    simp only [List.mem_append] at hx
    rcases hx with h | h | h <;> exact threeCont_ge _ x h
  · rw [payload7_threeCont, payload7_threeCont]
    have := payload7_threeCont (v >>> 7 >>> 7 >>> 7 >>> 7 >>> 7 >>> 7) []
    rw [List.append_nil] at this
    rw [this]
    simp only [payload7, Nat.shiftRight_eq_div_pow]
    omega

theorem map_mod_256 (l : List Nat) (h : ∀ x ∈ l, x < 256) : l.map (· % 256) = l := by
  induction l with
  | nil => rfl
  | cons a t ih =>
    simp only [List.map_cons]
    rw [ih (fun x hx => h x (List.mem_cons_of_mem _ hx)),
      Nat.mod_eq_of_lt (h a (List.mem_cons_self _ _))]

/-- C1 (amended). For a 64-bit value `v` and a buffer whose capacity assertion holds,
`putVar64` succeeds; when `v < 2 ^ 63` the bytes it appended at the cursor decode back to `v`
as unsigned LEB128 and the reader stops exactly at the end of the bytes written; when
`2 ^ 63 ≤ v` it stops after nine bytes, every one with the high bit set, whose seven-bit
payloads carry `v - 2 ^ 63`. -/
theorem putVar64_roundtrip (b : Buffer) (v : Nat) (hv : v < 2 ^ 64) (h0 : 0 ≤ b._offset)
    (hcap : b._offset + 9 < b.limit) (hlen : b.limit ≤ b._data.length) :
    ∃ b1, b.putVar64 v = some b1 ∧
      (v < 2 ^ 63 → ∀ rest, decodeLEB128 (b.appended b1 ++ rest) = some (v, rest)) ∧
      (2 ^ 63 ≤ v → (b.appended b1).length = 9 ∧ (∀ x ∈ b.appended b1, 128 ≤ x) ∧
        payload7 (b.appended b1) = v - 2 ^ 63) := by
  have hl := putVar64Bytes_length v
  have happ : b.appended (b.pushes (putVar64Bytes v)) = putVar64Bytes v := by
    rw [Buffer.appended_pushes _ _ h0 (by omega), map_mod_256 _ (putVar64Bytes_lt v)]
  refine ⟨b.pushes (putVar64Bytes v), ?_, ?_, ?_⟩
  · rw [Buffer.putVar64_eq, if_pos hcap]
  · intro h rest
    rw [happ]
    exact putVar64Bytes_decode v h rest
  · intro h
    rw [happ]
    exact putVar64Bytes_top v hv h

/-- Witness of C1: the value 300 written into a fresh buffer. -/
theorem putVar64_roundtrip_witness :
    ∃ b1, zeroBuffer.putVar64 300 = some b1 ∧
      ((300 : Nat) < 2 ^ 63 → ∀ rest,
        decodeLEB128 (zeroBuffer.appended b1 ++ rest) = some (300, rest)) ∧
      (2 ^ 63 ≤ (300 : Nat) → (zeroBuffer.appended b1).length = 9 ∧
        (∀ x ∈ zeroBuffer.appended b1, 128 ≤ x) ∧
        payload7 (zeroBuffer.appended b1) = 300 - 2 ^ 63) :=
  putVar64_roundtrip zeroBuffer 300 (by norm_num) (by rw [zeroBuffer_offset])
    (by rw [zeroBuffer_offset, zeroBuffer_limit]; decide)
    (by rw [zeroBuffer_limit, zeroBuffer_length]; decide)

set_option maxRecDepth 100000 in
/-- Counterexample to C1 as stated: for `v = 2 ^ 63` the nine bytes written all carry the
continuation bit, so an LEB128 reader runs off their end; followed by a zero byte it reads
ten bytes and returns 0. -/
theorem putVar64_top_bit_counterexample :
    ∃ b1, zeroBuffer.putVar64 (2 ^ 63) = some b1 ∧
      decodeLEB128 (zeroBuffer.appended b1) = none ∧
      decodeLEB128 (zeroBuffer.appended b1 ++ [0]) = some (0, []) :=
  ⟨_, rfl, by decide, by decide⟩

theorem Buffer.putVar32At_data (b : Buffer) (offset : Int) (v : Nat) (h0 : 0 ≤ offset) :
    (b.putVar32At offset v)._data
      = (({ b with _offset := offset } : Buffer).pushes (var32AtBytes (v % 2 ^ 32)))._data := by
  have h1 : 0 ≤ offset + 1 := by omega
  have h2 : 0 ≤ offset + 2 := by omega
  have h3 : 0 ≤ offset + 3 := by omega
  have h4 : 0 ≤ offset + 4 := by omega
  have e2 : offset + 1 + 1 = offset + 2 := by ring
  have e3 : offset + 2 + 1 = offset + 3 := by ring
  have e4 : offset + 3 + 1 = offset + 4 := by ring
  simp only [Buffer.putVar32At, Buffer.poke, var32AtBytes, Buffer.pushes, List.foldl, Buffer.push,
    if_pos h0, if_pos h1, if_pos h2, if_pos h3, if_pos h4, e2, e3, e4]

theorem or_mod_256 (x : Nat) : (x ||| 0x80) % 256 = (x % 256) ||| 0x80 := by
  apply Nat.eq_of_testBit_eq
  intro i
  have e : (256 : Nat) = 2 ^ 8 := rfl
  rw [e]
  simp only [Nat.testBit_mod_two_pow, Nat.testBit_or]
  by_cases h : i < 8
  · simp [h]
  · have : Nat.testBit 0x80 i = false :=
      Nat.testBit_lt_two_pow (lt_of_lt_of_le (by norm_num : 0x80 < 2 ^ 8)
        (Nat.pow_le_pow_right (by norm_num) (not_lt.1 h)))
    simp [h, this]

theorem or_cont_mod (x : Nat) : ((x ||| 0x80) % 256) % 128 = x % 128 := by
  rw [or_mod_256]
  exact (cont_byte x).1

theorem or_cont_ge (x : Nat) : 128 ≤ (x ||| 0x80) % 256 := by
  rw [or_mod_256]
  exact (cont_byte x).2.1

/-- C2 (amended). For every `v` in `[0, 2 ^ 32 - 1]`, the range of the `u32` parameter, the
five bytes that `putVar32(offset, v)` writes at `offset .. offset + 4` decode back to `v`
(seven payload bits from each byte, least-significant group first; the first four bytes carry
the continuation bit, so an LEB128 reader agrees), and the cursor does not move. -/
theorem putVar32At_roundtrip (b : Buffer) (offset : Int) (v : Nat) (hv : v < 2 ^ 32)
    (h0 : 0 ≤ offset) (hlen : offset + 4 < b._data.length) :
    payload7 ((b.putVar32At offset v).five offset) = v ∧
      (∀ rest, decodeLEB128 ((b.putVar32At offset v).five offset ++ rest) = some (v, rest)) ∧
      (b.putVar32At offset v)._offset = b._offset := by
  obtain ⟨n, hn⟩ := Int.eq_ofNat_of_zero_le h0
  have hfive : (b.putVar32At offset v).five offset = (var32AtBytes v).map (· % 256) := by
    unfold Buffer.five
    rw [Buffer.putVar32At_data b offset v h0, Nat.mod_eq_of_lt hv,
      Buffer.pushes_data _ _ n hn (by simp [var32AtBytes]; omega), hn]
    have htl : (List.take n b._data).length = n := by
      rw [List.length_take]; simp; omega
    simp only [Int.toNat_ofNat, List.append_assoc]
    rw [List.drop_left' htl, List.take_left' (by simp [var32AtBytes])]
  have hlast : (v >>> 28) % 256 = v >>> 28 := by
    rw [Nat.shiftRight_eq_div_pow]; omega
  have hlast' : v >>> 28 < 128 := by
    rw [Nat.shiftRight_eq_div_pow]; omega
  have hb : (var32AtBytes v).map (· % 256)
      = [(v % 256) ||| 0x80, ((v >>> 7) % 256) ||| 0x80, ((v >>> 14) % 256) ||| 0x80,
          ((v >>> 21) % 256) ||| 0x80, v >>> 28] := by
    simp only [var32AtBytes, List.map, or_mod_256, hlast]
  rw [hfive, hb]
  refine ⟨?_, ?_, ?_⟩
  · simp only [payload7, (cont_byte _).1]
    rw [Nat.mod_eq_of_lt hlast']
    simp only [Nat.shiftRight_eq_div_pow]
    omega
  · intro rest
    have hfinal : decodeLEB128 ((v >>> 28) :: rest) = some (v >>> 28, rest) := by
      rw [decodeLEB128, if_pos hlast']
    have := decode_cons_cont v _ _ _ (decode_cons_cont (v >>> 7) _ _ _
      (decode_cons_cont (v >>> 14) _ _ _ (decode_cons_cont (v >>> 21) _ _ _ hfinal)))
    simp only [List.cons_append, List.nil_append]
    rw [this]
    simp only [Nat.shiftRight_eq_div_pow]
    congr 2
    omega
  · simp only [Buffer.putVar32At, Buffer.poke]
    split_ifs <;> rfl

/-- Witness of C2: the value 300 patched at position 0 of a fresh buffer. -/
theorem putVar32At_roundtrip_witness :
    payload7 ((zeroBuffer.putVar32At 0 300).five 0) = 300 ∧
      (∀ rest, decodeLEB128 ((zeroBuffer.putVar32At 0 300).five 0 ++ rest) = some (300, rest)) ∧
      (zeroBuffer.putVar32At 0 300)._offset = zeroBuffer._offset :=
  putVar32At_roundtrip zeroBuffer 0 300 (by norm_num) (by decide)
    (by rw [zeroBuffer_length]; decide)

set_option maxRecDepth 100000 in
/-- Counterexample to C2 as stated: `2 ^ 32` lies in `[0, 2 ^ 35 - 1]` but is reduced to 0 by
the `u32` parameter, and the five bytes decode to 0. -/
theorem putVar32At_counterexample :
    payload7 ((zeroBuffer.putVar32At 0 (2 ^ 32)).five 0) = 0 ∧
      payload7 ((zeroBuffer.putVar32At 0 (2 ^ 32)).five 0) ≠ 2 ^ 32 := by
  decide

/-- C3. `flushIfNeeded` returns true exactly when the cursor is above the limit and the sink,
offered the buffer bytes and the cursor as length, reports that same count; it then resets
the cursor to 0 and leaves the bytes alone. Whenever it returns false the buffer (cursor and
bytes) is unchanged. With the cursor at or below the limit the sink is not called; above
the limit it is called once. -/
theorem flushIfNeeded_spec (b : Buffer) (limit : Int) (sink : List Nat → Int → Int) :
    ((b.flushIfNeeded sink limit).ret = true
        ↔ (b._offset > limit ∧ sink b._data b._offset = b._offset)) ∧
      ((b.flushIfNeeded sink limit).ret = true →
        (b.flushIfNeeded sink limit).buf._offset = 0 ∧
        (b.flushIfNeeded sink limit).buf._data = b._data ∧
        (b.flushIfNeeded sink limit).buf.limit = b.limit) ∧
      ((b.flushIfNeeded sink limit).ret = false → (b.flushIfNeeded sink limit).buf = b) ∧
      (b._offset ≤ limit → (b.flushIfNeeded sink limit).calls = []) ∧
      (b._offset > limit → (b.flushIfNeeded sink limit).calls = [(b._data, b._offset)]) := by
  unfold Buffer.flushIfNeeded
  split_ifs with h1 h2
  · simp [h1, h2, Buffer.reset]
  · simp [h1, h2]
  · simp [h1]

theorem leBytes_length (n v : Nat) : (leBytes n v).length = n := by
  induction n generalizing v with
  | zero => rfl
  | succ n ih => simp [leBytes, ih]

theorem leBytes_lt (n v : Nat) : ∀ x ∈ leBytes n v, x < 256 := by
  induction n generalizing v with
  | zero => simp [leBytes]
  | succ n ih =>
    intro x hx
    simp only [leBytes, List.mem_cons] at hx
    rcases hx with h | h
    · omega
    · exact ih _ x h

theorem leBytes_ofLeBytes (bs : List Nat) (h : ∀ x ∈ bs, x < 256) :
    leBytes bs.length (ofLeBytes bs) = bs := by
  induction bs with
  | nil => rfl
  | cons x r ih =>
    have hx : x < 256 := h x (List.mem_cons_self _ _)
    have hr := ih (fun y hy => h y (List.mem_cons_of_mem _ hy))
    simp only [List.length_cons, leBytes, ofLeBytes]
    have e1 : (x + 256 * ofLeBytes r) % 256 = x := by omega
    have e2 : (x + 256 * ofLeBytes r) / 256 = ofLeBytes r := by omega
    rw [e1, e2, hr]

/-- Whatever the byte order of the host, the bytes stored for `hton(v)` are the bytes of `v`
with the most significant first. -/
theorem memoryBytes_hton (littleEndian : Bool) (n v : Nat) :
    memoryBytes littleEndian n (hton littleEndian n v) = (leBytes n v).reverse := by
  cases littleEndian with
  | false => rfl
  | true =>
    have h := leBytes_ofLeBytes (leBytes n v).reverse
      (fun x hx => leBytes_lt n v x (List.mem_reverse.1 hx))
    rw [List.length_reverse, leBytes_length] at h
    simpa [memoryBytes, hton] using h


/-- A store of `bs` at the cursor that then moves the cursor past the bytes stored. -/
theorem Buffer.storeAt_advance (b : Buffer) (bs : List Nat) (h0 : 0 ≤ b._offset)
    (hlen : b._offset + bs.length ≤ b._data.length) (k : Int) (hk : k = bs.length) :
    b.appended { b.storeAt bs with _offset := b._offset + k } = bs.map (· % 256)
      ∧ ({ b.storeAt bs with _offset := b._offset + k } : Buffer)._data.take b._offset.toNat
          = b._data.take b._offset.toNat
      ∧ ({ b.storeAt bs with _offset := b._offset + k } : Buffer).limit = b.limit := by
  obtain ⟨n, hn⟩ := Int.eq_ofNat_of_zero_le h0
  have hlen1 : n + bs.length ≤ b._data.length := by omega
  have hd := Buffer.pushes_data bs b n hn hlen1
  have htl : (b._data.take n).length = n := by
    rw [List.length_take]; omega
  refine ⟨?_, ?_, ?_⟩
  · unfold Buffer.appended Buffer.storeAt
    dsimp only
    rw [hd, hn, hk]
    simp only [Int.toNat_ofNat, add_sub_cancel_left, List.append_assoc]
    rw [List.drop_left' htl, List.take_left' (by simp)]
  · unfold Buffer.storeAt
    dsimp only
    rw [hd, hn]
    simp only [Int.toNat_ofNat, List.append_assoc]
    rw [List.take_left' htl]
  · exact Buffer.pushes_limit b bs

theorem leBytes_two (u : Nat) : (leBytes 2 u).reverse = [u / 2 ^ 8 % 256, u % 256] := rfl

theorem leBytes_four (u : Nat) :
    (leBytes 4 u).reverse = [u / 2 ^ 24 % 256, u / 2 ^ 16 % 256, u / 2 ^ 8 % 256, u % 256] := by
  simp only [leBytes, List.reverse_cons, List.reverse_nil, List.nil_append, List.cons_append,
    Nat.div_div_eq_div_mul]
  norm_num

theorem leBytes_eight (u : Nat) :
    (leBytes 8 u).reverse
      = [u / 2 ^ 56 % 256, u / 2 ^ 48 % 256, u / 2 ^ 40 % 256, u / 2 ^ 32 % 256,
          u / 2 ^ 24 % 256, u / 2 ^ 16 % 256, u / 2 ^ 8 % 256, u % 256] := by
  simp only [leBytes, List.reverse_cons, List.reverse_nil, List.nil_append, List.cons_append,
    Nat.div_div_eq_div_mul]
  norm_num

theorem map_mod_leBytes (n v : Nat) :
    ((leBytes n v).reverse).map (· % 256) = (leBytes n v).reverse := by
  have h : ∀ x ∈ (leBytes n v).reverse, (fun y => y % 256) x = id x := fun x hx =>
    Nat.mod_eq_of_lt (leBytes_lt n v x (List.mem_reverse.1 hx))
  rw [List.map_congr_left h, List.map_id]


/-- C17. On a host of either byte order and in every buffer state with a non-negative cursor
and a limit within the storage, each fixed-width write whose capacity assertion holds returns
normally, appends at the old cursor the bytes of its argument with the most significant byte
first (one byte for `put8`, 2, 4 and 8 for `put16`, `put32` and `put64`), advances the
cursor by that number of bytes, and leaves every byte before the old cursor as it was. -/
theorem put_fixed_width (littleEndian : Bool) (b : Buffer) (h0 : 0 ≤ b._offset)
    (hl : b.limit ≤ b._data.length) :
    (∀ v : Nat, b._offset < b.limit →
      ∃ b1, b.put8 v = some b1 ∧ b1._offset = b._offset + 1 ∧ b.appended b1 = [v % 256]
        ∧ b1._data.take b._offset.toNat = b._data.take b._offset.toNat)
    ∧ (∀ v : Int, b._offset + 2 < b.limit →
      ∃ b1, b.put16 littleEndian v = some b1 ∧ b1._offset = b._offset + 2
        ∧ b.appended b1 = [(v % 2 ^ 16).toNat / 2 ^ 8 % 256, (v % 2 ^ 16).toNat % 256]
        ∧ b1._data.take b._offset.toNat = b._data.take b._offset.toNat)
    ∧ (∀ v : Int, b._offset + 4 < b.limit →
      ∃ b1, b.put32 littleEndian v = some b1 ∧ b1._offset = b._offset + 4
        ∧ b.appended b1 = [(v % 2 ^ 32).toNat / 2 ^ 24 % 256, (v % 2 ^ 32).toNat / 2 ^ 16 % 256,
            (v % 2 ^ 32).toNat / 2 ^ 8 % 256, (v % 2 ^ 32).toNat % 256]
        ∧ b1._data.take b._offset.toNat = b._data.take b._offset.toNat)
    ∧ (∀ v : Nat, v < 2 ^ 64 → b._offset + 8 < b.limit →
      ∃ b1, b.put64 littleEndian v = some b1 ∧ b1._offset = b._offset + 8
        ∧ b.appended b1 = [v / 2 ^ 56 % 256, v / 2 ^ 48 % 256, v / 2 ^ 40 % 256,
            v / 2 ^ 32 % 256, v / 2 ^ 24 % 256, v / 2 ^ 16 % 256, v / 2 ^ 8 % 256, v % 256]
        ∧ b1._data.take b._offset.toNat = b._data.take b._offset.toNat) := by
  refine ⟨fun v hc => ?_, fun v hc => ?_, fun v hc => ?_, fun v hv hc => ?_⟩
  · have h := b.storeAt_advance [v] h0 (by simp only [List.length_cons, List.length_nil]; omega)
      1 rfl
    refine ⟨b.push v, ?_, rfl, h.1, h.2.1⟩
    unfold Buffer.put8
    rw [if_pos hc]
  · have h := b.storeAt_advance
      (memoryBytes littleEndian 2 (hton littleEndian 2 (v % 2 ^ 16).toNat)) h0
      (by rw [memoryBytes_hton, List.length_reverse, leBytes_length]; omega) 2
      (by rw [memoryBytes_hton, List.length_reverse, leBytes_length]; rfl)
    refine ⟨_, by unfold Buffer.put16; rw [if_pos hc], rfl, ?_, h.2.1⟩
    rw [h.1, memoryBytes_hton, map_mod_leBytes, leBytes_two]
  · have h := b.storeAt_advance
      (memoryBytes littleEndian 4 (hton littleEndian 4 (v % 2 ^ 32).toNat)) h0
      (by rw [memoryBytes_hton, List.length_reverse, leBytes_length]; omega) 4
      (by rw [memoryBytes_hton, List.length_reverse, leBytes_length]; rfl)
    refine ⟨_, by unfold Buffer.put32; rw [if_pos hc], rfl, ?_, h.2.1⟩
    rw [h.1, memoryBytes_hton, map_mod_leBytes, leBytes_four]
  · have h := b.storeAt_advance
      (memoryBytes littleEndian 8 (hton64 littleEndian (v % 2 ^ 64))) h0
      (by unfold hton64; rw [memoryBytes_hton, List.length_reverse, leBytes_length]; omega) 8
      (by unfold hton64; rw [memoryBytes_hton, List.length_reverse, leBytes_length]; rfl)
    refine ⟨_, by unfold Buffer.put64; rw [if_pos hc], rfl, ?_, h.2.1⟩
    rw [h.1]
    unfold hton64
    rw [memoryBytes_hton, map_mod_leBytes, leBytes_eight, Nat.mod_eq_of_lt hv]

/-- Witness of C17: `put16(0x1234)` on a fresh buffer over zeroed memory. -/
theorem put_fixed_width_witness :
    ∃ b1, zeroBuffer.put16 true 0x1234 = some b1 ∧ b1._offset = zeroBuffer._offset + 2
      ∧ zeroBuffer.appended b1 = [0x12, 0x34]
      ∧ b1._data.take zeroBuffer._offset.toNat = zeroBuffer._data.take zeroBuffer._offset.toNat :=
  (put_fixed_width true zeroBuffer (by decide)
    (by rw [zeroBuffer_limit, zeroBuffer_length]; decide)).2.1 0x1234 (by decide)


theorem Buffer.storeAt_pushes (b : Buffer) (bs : List Nat) (k : Int) (hk : k = bs.length) :
    ({ b.storeAt bs with _offset := b._offset + k } : Buffer) = b.pushes bs := by
  have h := Buffer.pushes_offset b bs
  unfold Buffer.storeAt
  rcases hp : b.pushes bs with ⟨o, d, l⟩
  rw [hp] at h
  simp only at h
  simp only [Buffer.mk.injEq, and_true]
  omega

/-- The three writes of `putUtf8(v, len)` as one run of stores at the cursor. -/
theorem Buffer.putUtf8Len_eq (b : Buffer) (s : List Nat) (n : Nat) (hn : n ≤ s.length)
    (hn31 : n < 2 ^ 31) (h0 : 0 ≤ b._offset) (hi : b.limit < 2 ^ 31)
    (hc1 : b._offset + 6 < b.limit)
    (hc2 : b._offset + 1 + (varBytes 32 n).length + n < b.limit) :
    b.putUtf8Len s n = some (b.pushes (3 :: (varBytes 32 n ++ s.take n))) := by
  have e1 : b.put8 3 = some (b.pushes [3]) := by
    unfold Buffer.put8
    rw [if_pos (by omega)]
    rfl
  have o1 : (b.pushes [3])._offset = b._offset + 1 := by
    rw [Buffer.pushes_offset]; rfl
  have l1 : (b.pushes [3]).limit = b.limit := Buffer.pushes_limit _ _
  have hmod : n % 2 ^ 32 = n := Nat.mod_eq_of_lt (lt_trans hn31 (by norm_num))
  have e2 : (b.pushes [3]).putVar32 n = some ((b.pushes [3]).pushes (varBytes 32 n)) := by
    unfold Buffer.putVar32
    rw [if_pos (by rw [o1, l1]; omega), Buffer.putVarLoop_eq, hmod]
  have o2 : ((b.pushes [3]).pushes (varBytes 32 n))._offset
      = b._offset + 1 + (varBytes 32 n).length := by
    rw [Buffer.pushes_offset, o1]
  have l2 : ((b.pushes [3]).pushes (varBytes 32 n)).limit = b.limit := by
    rw [Buffer.pushes_limit, l1]
  have ht : (s.take n).length = n := by
    rw [List.length_take]; omega
  have e3 : ((b.pushes [3]).pushes (varBytes 32 n)).put s n
      = some (((b.pushes [3]).pushes (varBytes 32 n)).pushes (s.take n)) := by
    unfold Buffer.put
    rw [hmod, o2, l2]
    have hlt : (b._offset + 1 + ((varBytes 32 n).length : Int) + ((n : Nat) : Int)) % 2 ^ 32
        < b.limit % 2 ^ 32 := by omega
    rw [if_pos hlt]
    have ht32 : toInt32 ((n : Nat) : Int) = ((s.take n).length : Int) := by
      rw [ht]; unfold toInt32; omega
    rw [← o2, Buffer.storeAt_pushes _ _ _ ht32]
  unfold Buffer.putUtf8Len
  rw [e1]
  dsimp only
  rw [e2]
  dsimp only
  rw [e3, ← Buffer.pushes_append, ← Buffer.pushes_append]
  rfl

/-- C16. For every string `s` (its bytes up to the terminating NUL) and every buffer state
in which the capacity assertions of the writes hold, `putUtf8(s)` returns normally and has
appended at the cursor the byte 3, then the variable-length encoding of
`n = min(strlen(s), 8191)` (bytes that an unsigned LEB128 reader decodes to `n`), then the
first `n` bytes of `s`, with the cursor advanced by the number of bytes written; for the null
string it has appended the single byte 0. -/
theorem putUtf8_spec (b : Buffer) (h0 : 0 ≤ b._offset) (hl : b.limit ≤ b._data.length)
    (hi : b.limit < 2 ^ 31) :
    (∀ s : List Nat, (∀ x ∈ s, x < 256) →
      b._offset + 6 < b.limit →
      b._offset + 1 + (varBytes 32 (min s.length 8191)).length + min s.length 8191 < b.limit →
      ∃ b1, b.putUtf8 (some s) = some b1
        ∧ b.appended b1
            = 3 :: (varBytes 32 (min s.length 8191) ++ s.take (min s.length 8191))
        ∧ (∀ rest, decodeLEB128 (varBytes 32 (min s.length 8191) ++ rest)
            = some (min s.length 8191, rest))
        ∧ b1._offset = b._offset + (b.appended b1).length)
    ∧ (b._offset < b.limit →
      ∃ b1, b.putUtf8 none = some b1 ∧ b.appended b1 = [0] ∧ b1._offset = b._offset + 1) := by
  refine ⟨fun s hs hc1 hc2 => ?_, fun hc => ?_⟩
  · have hmin : (if s.length < MAX_STRING_LENGTH then s.length else MAX_STRING_LENGTH)
        = min s.length 8191 := by
      unfold MAX_STRING_LENGTH
      split_ifs <;> omega
    have hn : min s.length 8191 ≤ s.length := min_le_left _ _
    have hn2 : min s.length 8191 ≤ 8191 := min_le_right _ _
    have hbytes : ∀ x ∈ 3 :: (varBytes 32 (min s.length 8191) ++ s.take (min s.length 8191)),
        x < 256 := by
      intro x hx
      rcases List.mem_cons.1 hx with h | h
      · omega
      · rcases List.mem_append.1 h with h | h
        · exact varBytes_lt _ _ x h
        · exact hs x (List.mem_of_mem_take h)
    have ht : (s.take (min s.length 8191)).length = min s.length 8191 := by
      rw [List.length_take]; omega
    have hlen : b._offset
        + ((3 :: (varBytes 32 (min s.length 8191) ++ s.take (min s.length 8191))).length : Nat)
        ≤ b._data.length := by
      simp only [List.length_cons, List.length_append, ht]
      push_cast
      omega
    have happ := Buffer.appended_pushes _ b h0 hlen
    rw [map_mod_256 _ hbytes] at happ
    refine ⟨_, ?_, happ, ?_, ?_⟩
    · unfold Buffer.putUtf8
      dsimp only
      rw [hmin]
      exact b.putUtf8Len_eq s _ hn (by omega) h0 hi hc1 hc2
    · intro rest
      exact decode_varBytes 32 _ rest (lt_of_le_of_lt hn2 (by norm_num)) (by norm_num)
    · rw [happ, Buffer.pushes_offset]
  · have h := b.storeAt_advance [0] h0 (by simp only [List.length_cons, List.length_nil]; omega)
      1 rfl
    refine ⟨b.push 0, ?_, h.1, rfl⟩
    unfold Buffer.putUtf8
    dsimp only
    unfold Buffer.put8
    rw [if_pos hc]


/-- Witness of C16: the two-byte string `Hi` written to a fresh buffer over zeroed memory. -/
theorem putUtf8_spec_witness :
    ∃ b1, zeroBuffer.putUtf8 (some [72, 105]) = some b1
      ∧ zeroBuffer.appended b1 = [3, 2, 72, 105]
      ∧ (∀ rest, decodeLEB128 ([2] ++ rest) = some (2, rest))
      ∧ b1._offset = zeroBuffer._offset + (zeroBuffer.appended b1).length :=
  (putUtf8_spec zeroBuffer (by decide) (by rw [zeroBuffer_limit, zeroBuffer_length]; decide)
    (by decide)).1 [72, 105] (by decide) (by decide) (by decide)

/-! ## Theorems: `engine.h` -/

theorem Engine.updateCounter_single (counter value interval : Nat) (hi : 1 < interval) :
    Engine.updateCounter counter value interval
      = if (counter + value) % 2 ^ 64 < interval then some (false, (counter + value) % 2 ^ 64)
        else some (true, (counter + value) % 2 ^ 64 % interval) := by
  simp only [Engine.updateCounter, if_neg (not_le.2 hi), Engine.updateCounterLoop,
    compareAndSwap, if_true]

theorem Engine.feed_carry (interval : Nat) (hi : 1 < interval) (hI : interval ≤ 2 ^ 63)
    (ws : List Nat) (hw : ∀ w ∈ ws, w ≤ interval) (c : Nat) (hc : c < interval) :
    Engine.feed interval c ws
      = some ((c + ws.sum) / interval, (c + ws.sum) % interval) := by
  induction ws generalizing c with
  | nil =>
    simp only [Engine.feed, List.sum_nil, add_zero]
    rw [Nat.div_eq_of_lt hc, Nat.mod_eq_of_lt hc]
  | cons w ws ih =>
    have hwI : w ≤ interval := hw w (List.mem_cons_self _ _)
    have hws : ∀ x ∈ ws, x ≤ interval := fun x hx => hw x (List.mem_cons_of_mem _ hx)
    have hnw : (c + w) % 2 ^ 64 = c + w := Nat.mod_eq_of_lt (by omega)
    have hpos : 0 < interval := by omega
    rw [Engine.feed, Engine.updateCounter_single _ _ _ hi, hnw, List.sum_cons]
    by_cases hlt : c + w < interval
    · rw [if_pos hlt]
      simp only [ih hws (c + w) hlt, Bool.false_eq_true, if_false, add_assoc]
    · rw [if_neg hlt]
      have hsub : (c + w) % interval = c + w - interval := by
        rw [Nat.mod_eq_sub_mod (not_lt.1 hlt), Nat.mod_eq_of_lt (by omega)]
      have hlt2 : c + w - interval < interval := by omega
      rw [hsub]
      simp only [ih hws (c + w - interval) hlt2, if_true]
      have e : c + (w + ws.sum) = (c + w - interval + ws.sum) + interval := by omega
      rw [e, Nat.add_div_right _ hpos, Nat.add_mod_right]

/-- C4 (amended). For every interval with `1 < interval ≤ 2 ^ 63`, every `k` and every finite
sequence of weights, none larger than the interval, whose sum is exactly `k` times the
interval, applying `updateCounter` to the weights in order (single caller, counter initially
0) returns true exactly `k` times and leaves the counter at 0, however the total is chunked. -/
theorem updateCounter_signals_k (interval k : Nat) (ws : List Nat) (hi : 1 < interval)
    (hI : interval ≤ 2 ^ 63) (hw : ∀ w ∈ ws, w ≤ interval) (hsum : ws.sum = k * interval) :
    Engine.feed interval 0 ws = some (k, 0) := by
  rw [Engine.feed_carry interval hi hI ws hw 0 (by omega), Nat.zero_add, hsum,
    Nat.mul_div_cancel _ (by omega), Nat.mul_mod_left]

/-- Witness of C4: interval 10, the total 30 fed as 4 + 6 + 10 + 3 + 7. -/
theorem updateCounter_signals_k_witness : Engine.feed 10 0 [4, 6, 10, 3, 7] = some (3, 0) :=
  updateCounter_signals_k 10 3 [4, 6, 10, 3, 7] (by decide) (by decide) (by decide) (by decide)

/-- Counterexample to C4 as stated: with interval 10 the single weight 20 sums to twice the
interval, yet `updateCounter` returns true once. -/
theorem updateCounter_one_signal_counterexample :
    [20].sum = 2 * 10 ∧ Engine.feed 10 0 [20] = some (1, 0) := by
  decide

/-! ## Theorems: the event specification resolver -/

theorem Resolver.entry_setEntry_self (st : Resolver) (i : Nat) (e : PerfEventType)
    (h : i < st.table.length) : (st.setEntry i e).entry i = e := by
  simp [Resolver.entry, Resolver.setEntry, List.getD_eq_getElem?_getD, List.getElem?_set, h]

theorem Resolver.entry_setEntry_ne (st : Resolver) (i j : Nat) (e : PerfEventType)
    (h : i ≠ j) : (st.setEntry i e).entry j = st.entry j := by
  simp [Resolver.entry, Resolver.setEntry, List.getD_eq_getElem?_getD, List.getElem?_set, h]

theorem Resolver.setEntry_out (st : Resolver) (i : Nat) (e : PerfEventType)
    (h : st.table.length ≤ i) : st.setEntry i e = st := by
  cases st with
  | mk table pf =>
    simp only [Resolver.setEntry, Resolver.mk.injEq, and_true]
    exact List.set_eq_of_length_le h

theorem Resolver.setEntry_probe_func (st : Resolver) (i : Nat) (e : PerfEventType) :
    (st.setEntry i e).probe_func = st.probe_func := rfl

theorem Resolver.setEntry_length (st : Resolver) (i : Nat) (e : PerfEventType) :
    (st.setEntry i e).table.length = st.table.length := by
  simp [Resolver.setEntry]

theorem pmuParams_keeps (env : Env) (device : List Char) (fuel : Nat)
    (d : Option (List Char)) (raw : PerfEventType) :
    (pmuParams env device fuel d raw).2.name = raw.name
      ∧ (pmuParams env device fuel d raw).2.default_interval = raw.default_interval
      ∧ (pmuParams env device fuel d raw).2.type = raw.type
      ∧ (pmuParams env device fuel d raw).2.counter_arg = raw.counter_arg := by
  induction fuel generalizing d raw with
  | zero => simp [pmuParams]
  | succ f ih =>
    unfold pmuParams
    cases d with
    | none => simp
    | some d =>
      simp only
      split_ifs
      · simp
      · exact ih _ _
      · exact ih _ _
      · exact ih _ _
      · split
        · exact ih _ _
        · simp

theorem getPmuEventOn_eq (env : Env) (buf : List Char) (i : Nat) (raw : PerfEventType) :
    getPmuEventOn env buf i raw
      = if toU32 (findDeviceType env (buf.take i)) = 0 then
          (Outcome.null, { raw with type := toU32 (findDeviceType env (buf.take i)) })
        else if (decide (charAt (buf.drop (i + 1)).dropLast 0 = 'r')
            && decide (48 ≤ (charAt (buf.drop (i + 1)).dropLast 1).toNat)) = true
            ∧ (strtoull ((buf.drop (i + 1)).dropLast.drop 1) 16).2 = [] then
          (Outcome.found IDX_PMU,
            { raw with type := toU32 (findDeviceType env (buf.take i)),
                       config := (strtoull ((buf.drop (i + 1)).dropLast.drop 1) 16).1 })
        else
          match pmuParams env (buf.take i)
            ((resolvePmuEventName env (buf.take i) (buf.drop (i + 1)).dropLast
              (256 - (i + 1))).length + 1)
            (some (resolvePmuEventName env (buf.take i) (buf.drop (i + 1)).dropLast
              (256 - (i + 1))))
            (pmuStart (toU32 (findDeviceType env (buf.take i))) raw) with
          | (true, r) => (Outcome.found IDX_PMU, r)
          | (false, r) => (Outcome.null, r) := by
  unfold getPmuEventOn pmuStart
  simp only
  by_cases h1 : toU32 (findDeviceType env (buf.take i)) = 0
  · simp only [h1, if_true]
  · simp only [h1, if_false]
    by_cases h2 : (decide (charAt (buf.drop (i + 1)).dropLast 0 = 'r')
            && decide (48 ≤ (charAt (buf.drop (i + 1)).dropLast 1).toNat)) = true
    · by_cases h3 : (strtoull ((buf.drop (i + 1)).dropLast.drop 1) 16).2 = []
      · simp only [h2, h3, and_self, if_true]
      · simp only [h2, h3, and_false, if_false, if_true]
    · simp only [h2, false_and, if_false, Bool.false_eq_true]

theorem forNameDynamic_route (env : Env) (name : List Char) :
    ∃ r : Route, r.Valid ∧ ∀ st, forNameDynamic env st name = r.run env name st := by
  by_cases h1 : strncmpEq name "mem:".toList 4 = true
  · exact ⟨Route.breakpoint (name.drop 4) HW_BREAKPOINT_RW 1, trivial, fun st => by
      unfold forNameDynamic; rw [if_pos h1]; rfl⟩
  by_cases h2 : strncmpEq name "trace:".toList 6 = true
  · by_cases h2a : atoi (name.drop 6) > 0
    · exact ⟨Route.tracepoint (atoi (name.drop 6)), trivial, fun st => by
        unfold forNameDynamic; rw [if_neg h1, if_pos h2, if_pos h2a]; rfl⟩
    · exact ⟨Route.null, trivial, fun st => by
        unfold forNameDynamic; rw [if_neg h1, if_pos h2, if_neg h2a]; rfl⟩
  by_cases h3 : strncmpEq name "kprobe:".toList 7 = true
  · exact ⟨Route.probe IDX_KPROBE "kprobe".toList (name.drop 7) 0, Or.inl rfl, fun st => by
      unfold forNameDynamic; rw [if_neg h1, if_neg h2, if_pos h3]; rfl⟩
  by_cases h4 : strncmpEq name "uprobe:".toList 7 = true
  · exact ⟨Route.probe IDX_UPROBE "uprobe".toList (name.drop 7) 0, Or.inr rfl, fun st => by
      unfold forNameDynamic; rw [if_neg h1, if_neg h2, if_neg h3, if_pos h4]; rfl⟩
  by_cases h5 : strncmpEq name "kretprobe:".toList 10 = true
  · exact ⟨Route.probe IDX_KPROBE "kprobe".toList (name.drop 10) 1, Or.inl rfl, fun st => by
      unfold forNameDynamic; rw [if_neg h1, if_neg h2, if_neg h3, if_neg h4, if_pos h5]; rfl⟩
  by_cases h6 : strncmpEq name "uretprobe:".toList 10 = true
  · exact ⟨Route.probe IDX_UPROBE "uprobe".toList (name.drop 10) 1, Or.inr rfl, fun st => by
      unfold forNameDynamic
      rw [if_neg h1, if_neg h2, if_neg h3, if_neg h4, if_neg h5, if_pos h6]; rfl⟩
  by_cases h7 : charAt name 0 = 'r' ∧ 48 ≤ (charAt name 1).toNat
      ∧ (strtoull (name.drop 1) 16).2 = []
  · exact ⟨Route.raw (strtoull (name.drop 1) 16).1, trivial, fun st => by
      unfold forNameDynamic
      rw [if_neg h1, if_neg h2, if_neg h3, if_neg h4, if_neg h5, if_neg h6, if_pos h7]; rfl⟩
  by_cases h8 : pmuShape name = true
  · exact ⟨Route.pmu, trivial, fun st => by
      unfold forNameDynamic
      rw [if_neg h1, if_neg h2, if_neg h3, if_neg h4, if_neg h5, if_neg h6, if_neg h7,
        if_pos h8]; rfl⟩
  by_cases h9 : tracepointShape name = true
  · cases hf : findTracepointId env name with
    | none =>
      exact ⟨Route.fault, trivial, fun st => by
        unfold forNameDynamic
        rw [if_neg h1, if_neg h2, if_neg h3, if_neg h4, if_neg h5, if_neg h6, if_neg h7,
          if_neg h8, if_pos h9, hf]; rfl⟩
    | some id =>
      by_cases h10 : id > 0
      · exact ⟨Route.tracepoint id, trivial, fun st => by
          unfold forNameDynamic
          rw [if_neg h1, if_neg h2, if_neg h3, if_neg h4, if_neg h5, if_neg h6, if_neg h7,
            if_neg h8, if_pos h9, hf]
          simp only [if_pos h10]; rfl⟩
      · exact ⟨Route.breakpoint name HW_BREAKPOINT_X sizeofLong, trivial, fun st => by
          unfold forNameDynamic
          rw [if_neg h1, if_neg h2, if_neg h3, if_neg h4, if_neg h5, if_neg h6, if_neg h7,
            if_neg h8, if_pos h9, hf]
          simp only [if_neg h10]; rfl⟩
  · exact ⟨Route.breakpoint name HW_BREAKPOINT_X sizeofLong, trivial, fun st => by
      unfold forNameDynamic
      rw [if_neg h1, if_neg h2, if_neg h3, if_neg h4, if_neg h5, if_neg h6, if_neg h7,
        if_neg h8, if_neg h9]; rfl⟩

set_option maxRecDepth 100000 in
theorem digitChar_facts : ∀ d < 16,
    digitVal (digitChar d) = some d ∧ isspace (digitChar d) = false
      ∧ digitChar d ≠ '-' ∧ digitChar d ≠ '+' ∧ digitChar d ≠ '\x7b' ∧ digitChar d ≠ ':'
      ∧ digitChar d ≠ '/' ∧ (digitChar d = '0' ↔ d = 0) := by
  decide

theorem scanDigits_nil (base acc : Nat) : scanDigits base acc [] = (acc, []) := rfl

theorem scanDigits_digit (base acc d : Nat) (t : List Char) (hd : d < base) (hb : base ≤ 16) :
    scanDigits base acc (digitChar d :: t) = scanDigits base (acc * base + d) t := by
  have h := (digitChar_facts d (by omega)).1
  simp only [scanDigits, h, if_pos hd]

theorem scanDigits_digitsOf (base : Nat) (hb2 : 2 ≤ base) (hb : base ≤ 16) (fuel n acc : Nat)
    (rest : List Char) (hn : n < base ^ fuel) :
    scanDigits base acc (digitsOf base fuel n ++ rest)
      = scanDigits base (acc * base ^ (digitsOf base fuel n).length + n) rest := by
  induction fuel generalizing n acc rest with
  | zero => simp at hn; subst hn; simp [digitsOf]
  | succ f ih =>
    unfold digitsOf
    split
    · rename_i hlt
      simp only [List.singleton_append, List.length_singleton, pow_one]
      exact scanDigits_digit base acc n rest hlt hb
    · rename_i hge
      have hq : n / base < base ^ f := by
        rw [pow_succ] at hn
        exact Nat.div_lt_of_lt_mul (by rw [Nat.mul_comm]; exact hn)
      rw [List.append_assoc, ih (n / base) acc _ hq, List.singleton_append,
        scanDigits_digit base _ (n % base) rest (Nat.mod_lt _ (by omega)) hb]
      congr 1
      rw [List.length_append, List.length_singleton, pow_succ]
      have := Nat.div_add_mod n base
      nlinarith [this]

theorem digitsOf_head (base : Nat) (hb2 : 2 ≤ base) (fuel n : Nat) (hf : 0 < fuel)
    (hn : n < base ^ fuel) :
    ∃ d t, digitsOf base fuel n = digitChar d :: t ∧ d < base ∧ (0 < n → 0 < d) := by
  induction fuel generalizing n with
  | zero => omega
  | succ f ih =>
    unfold digitsOf
    split
    · rename_i hlt
      exact ⟨n, [], rfl, hlt, fun h => h⟩
    · rename_i hge
      have hq : n / base < base ^ f := by
        rw [pow_succ] at hn
        exact Nat.div_lt_of_lt_mul (by rw [Nat.mul_comm]; exact hn)
      have hqpos : 0 < n / base := Nat.div_pos (not_lt.1 hge) (by omega)
      have hf0 : 0 < f := by
        rcases Nat.eq_zero_or_pos f with h0 | h0
        · subst h0; simp at hq; omega
        · exact h0
      obtain ⟨d, t, he, hd, hpos⟩ := ih (n / base) hf0 hq
      exact ⟨d, t ++ [digitChar (n % base)], by rw [he]; rfl, hd, fun _ => hpos hqpos⟩

theorem digitsOf_mem (base : Nat) (hb2 : 2 ≤ base) (fuel n : Nat) :
    ∀ c ∈ digitsOf base fuel n, ∃ d, d < base ∧ c = digitChar d := by
  induction fuel generalizing n with
  | zero => simp [digitsOf]
  | succ f ih =>
    unfold digitsOf
    split
    · rename_i hlt
      intro c hc
      simp only [List.mem_singleton] at hc
      exact ⟨n, hlt, hc⟩
    · intro c hc
      rcases List.mem_append.1 hc with h | h
      · exact ih _ c h
      · simp only [List.mem_singleton] at h
        exact ⟨n % base, Nat.mod_lt _ (by omega), h⟩

theorem digitsOf_length (base fuel n : Nat) : (digitsOf base fuel n).length ≤ fuel := by
  induction fuel generalizing n with
  | zero => simp [digitsOf]
  | succ f ih =>
    unfold digitsOf
    split
    · simp
    · have := ih (n / base)
      simp only [List.length_append, List.length_singleton]
      omega

/-- Reading back the digits written by `digitsOf`. -/
theorem scanDigits_digitsOf_all (base : Nat) (hb2 : 2 ≤ base) (hb : base ≤ 16) (fuel n : Nat)
    (hn : n < base ^ fuel) : scanDigits base 0 (digitsOf base fuel n) = (n, []) := by
  have h := scanDigits_digitsOf base hb2 hb fuel n 0 [] hn
  rw [List.append_nil] at h
  rw [h, Nat.zero_mul, Nat.zero_add, scanDigits_nil]

theorem isDigitOf_digitChar (base d : Nat) (hd : d < base) (hb : base ≤ 16) :
    isDigitOf base (digitChar d) = true := by
  have h := (digitChar_facts d (by omega)).1
  simp [isDigitOf, h, hd]

theorem charAt_cons_zero (c : Char) (t : List Char) : charAt (c :: t) 0 = c := rfl

theorem charAt_cons_succ (c : Char) (t : List Char) (i : Nat) :
    charAt (c :: t) (i + 1) = charAt t i := by
  simp [charAt]

/-- `strtoCore` on a string that starts with a digit of the base in force and carries no
white space, sign or prefix to skip. -/
theorem strtoCore_plain (base b d : Nat) (t : List Char) (hd : d < b) (hb : b ≤ 16)
    (hbase : base = b ∨ (base = 0 ∧ b = 10 ∧ 0 < d)) (h16 : base ≠ 16) :
    strtoCore (digitChar d :: t) base
      = (false, (scanDigits b 0 (digitChar d :: t)).1, (scanDigits b 0 (digitChar d :: t)).2) := by
  obtain ⟨_, hsp, hm, hp, _, _, _, hz⟩ := digitChar_facts d (by omega)
  have hdw : (digitChar d :: t).dropWhile isspace = digitChar d :: t := by
    simp [List.dropWhile, hsp]
  have hdig := isDigitOf_digitChar b d hd hb
  unfold strtoCore
  simp only [hdw, charAt_cons_zero, hm, hp, or_self, if_false, decide_False]
  rcases hbase with h | ⟨h0, h10, hpos⟩
  · subst h
    have hb0 : base ≠ 0 := by omega
    simp only [hb0, h16, or_self, false_and, if_false, charAt_cons_zero, hdig, if_true]
  · subst h0; subst h10
    have hne : digitChar d ≠ '0' := fun h => by have := hz.1 h; omega
    simp [hne, hdig, charAt_cons_zero]

theorem strtoCore_decimal (base : Nat) (hbase : base = 10 ∨ base = 0) (n : Nat)
    (hn : n < 10 ^ 64) : strtoCore (decimal n) base = (false, n, []) := by
  unfold decimal
  obtain ⟨d, t, he, hd, hpos⟩ := digitsOf_head 10 (by norm_num) 64 n (by norm_num) hn
  have hscan := scanDigits_digitsOf_all 10 (by norm_num) (by norm_num) 64 n hn
  rcases hbase with h | h
  · subst h
    rw [he, strtoCore_plain 10 10 d t hd (by norm_num) (Or.inl rfl) (by norm_num), ← he, hscan]
  · subst h
    rcases Nat.eq_zero_or_pos n with h0 | h0
    · subst h0
      decide
    · rw [he, strtoCore_plain 0 10 d t hd (by norm_num) (Or.inr ⟨rfl, rfl, hpos h0⟩)
        (by norm_num), ← he, hscan]

theorem strtoCore_hex (n : Nat) (hn : n < 16 ^ 64) :
    strtoCore ("0x".toList ++ hexadecimal n) 0 = (false, n, []) := by
  unfold hexadecimal
  obtain ⟨d, t, he, hd, _⟩ := digitsOf_head 16 (by norm_num) 64 n (by norm_num) hn
  have hscan := scanDigits_digitsOf_all 16 (by norm_num) (by norm_num) 64 n hn
  rw [he] at hscan
  have hdig := isDigitOf_digitChar 16 d hd (by norm_num)
  have e : "0x".toList ++ digitsOf 16 64 n = '0' :: 'x' :: digitChar d :: t := by
    rw [he]; rfl
  rw [e]
  have hdw : ('0' :: 'x' :: digitChar d :: t).dropWhile isspace
      = '0' :: 'x' :: digitChar d :: t := by
    rw [List.dropWhile_cons_of_neg (by decide)]
  have c0 : charAt ('0' :: 'x' :: digitChar d :: t) 0 = '0' := rfl
  have c1 : charAt ('0' :: 'x' :: digitChar d :: t) 1 = 'x' := rfl
  have c2 : charAt ('0' :: 'x' :: digitChar d :: t) 2 = digitChar d := rfl
  have d2 : ('0' :: 'x' :: digitChar d :: t).drop 2 = digitChar d :: t := rfl
  have m1 : ('0' : Char) ≠ '-' := by decide
  have m2 : ('0' : Char) ≠ '+' := by decide
  unfold strtoCore
  simp only [hdw, c0, c1, c2, d2, hdig, m1, m2, or_self, if_false, decide_False, decide_True,
    Bool.true_or, Bool.and_self, true_or, and_self, if_true, charAt_cons_zero, hscan]

theorem strtoll_decimal (base : Nat) (hbase : base = 10 ∨ base = 0) (n : Nat)
    (hn : n < 2 ^ 63) : strtoll (decimal n) base = n := by
  unfold strtoll
  rw [strtoCore_decimal base hbase n (lt_trans hn (by norm_num))]
  simp only
  omega

theorem strtoll_hex (n : Nat) (hn : n < 2 ^ 63) :
    strtoll ("0x".toList ++ hexadecimal n) 0 = n := by
  unfold strtoll
  rw [strtoCore_hex n (lt_trans hn (by norm_num))]
  simp only
  omega

theorem strtoll_numeral (x : Numeral) (hx : x.value < 2 ^ 63) : strtoll x.text 0 = x.value := by
  cases x with
  | dec n => exact strtoll_decimal 0 (Or.inr rfl) n hx
  | hex n => exact strtoll_hex n hx

theorem strrchr_none (s : List Char) (ch : Char) (h : ch ∉ s) : strrchr s ch = none := by
  induction s with
  | nil => rfl
  | cons c t ih =>
    have hc : c ≠ ch := fun e => h (e ▸ List.mem_cons_self _ _)
    have ht : ch ∉ t := fun m => h (List.mem_cons_of_mem _ m)
    simp [strrchr, ih ht, hc]

theorem strrchr_append (pre post : List Char) (ch : Char) (h : ch ∉ post) :
    strrchr (pre ++ ch :: post) ch = some pre.length := by
  induction pre with
  | nil => simp [strrchr, strrchr_none post ch h]
  | cons c t ih => simp [strrchr, ih]

theorem take_append_cons (pre post : List Char) (ch : Char) :
    (pre ++ ch :: post).take pre.length = pre := by
  rw [List.take_left]

theorem drop_append_cons (pre post : List Char) (ch : Char) :
    (pre ++ ch :: post).drop (pre.length + 1) = post := by
  have : pre ++ ch :: post = (pre ++ [ch]) ++ post := by simp
  rw [this, List.drop_left' (by simp)]

theorem charAt_append_left (pre post : List Char) (i : Nat) (h : i < pre.length) :
    charAt (pre ++ post) i = charAt pre i := by
  simp [charAt, List.getD_eq_getElem?_getD, List.getElem?_append_left h]

theorem charAt_mem (s : List Char) (i : Nat) (h : i < s.length) : charAt s i ∈ s := by
  simp only [charAt, List.getD_eq_getElem?_getD, List.getElem?_eq_getElem h, Option.getD_some]
  exact List.getElem_mem h

/-- No character of a hexadecimal or decimal number is one of the separators of a
specifier. -/
theorem digitsOf_plain (base : Nat) (hb2 : 2 ≤ base) (hb : base ≤ 16) (fuel n : Nat) :
    ∀ c ∈ digitsOf base fuel n, c ≠ '\x7b' ∧ c ≠ ':' ∧ c ≠ '/' ∧ c ≠ '+' := by
  intro c hc
  obtain ⟨d, hd, rfl⟩ := digitsOf_mem base hb2 fuel n c hc
  obtain ⟨_, _, _, h4, h5, h6, h7, _⟩ := digitChar_facts d (by omega)
  exact ⟨h5, h6, h7, h4⟩

theorem Numeral.text_plain (x : Numeral) :
    ∀ c ∈ x.text, c ≠ '\x7b' ∧ c ≠ ':' ∧ c ≠ '/' ∧ c ≠ '+' := by
  cases x with
  | dec n => exact digitsOf_plain 10 (by norm_num) (by norm_num) 64 n
  | hex n =>
    intro c hc
    simp only [Numeral.text, List.mem_append] at hc
    rcases hc with h | h
    · have : c = '0' ∨ c = 'x' := by simpa using h
      rcases this with rfl | rfl <;> decide
    · exact digitsOf_plain 16 (by norm_num) (by norm_num) 64 n c h

theorem Numeral.text_length (x : Numeral) : x.text.length ≤ 66 := by
  cases x with
  | dec n =>
    have := digitsOf_length 10 64 n
    simp only [Numeral.text, decimal]; omega
  | hex n =>
    have := digitsOf_length 16 64 n
    simp only [Numeral.text, hexadecimal, List.length_append]
    have : "0x".toList.length = 2 := rfl
    omega

/-- `parseBreakpoint` on `A+O/L:T` where none of the parts holds a separator. -/
theorem parseBreakpoint_split (env : Env) (A O L T : List Char) (bp_type bp_len : Nat)
    (hA : ∀ c ∈ A, c ≠ '\x7b' ∧ c ≠ ':' ∧ c ≠ '/' ∧ c ≠ '+')
    (hO : ∀ c ∈ O, c ≠ '\x7b' ∧ c ≠ ':' ∧ c ≠ '/' ∧ c ≠ '+')
    (hL : ∀ c ∈ L, c ≠ '\x7b' ∧ c ≠ ':' ∧ c ≠ '/' ∧ c ≠ '+')
    (hT : T = "r".toList ∨ T = "w".toList)
    (hlen : (A ++ '+' :: O ++ '/' :: L ++ ':' :: T).length ≤ 255)
    (h0x : strncmpEq A "0x".toList 2 = true)
    (haddr : toU64 (strtoll A 0) ≠ 0) :
    parseBreakpoint env (A ++ '+' :: O ++ '/' :: L ++ ':' :: T) bp_type bp_len
      = some (if T = "r".toList then HW_BREAKPOINT_R else HW_BREAKPOINT_W,
          toU64 ((toU64 (strtoll A 0) : Int) + strtoll O 0), toU32 (strtoll L 0), 0) := by
  have hcopy : copy255 (A ++ '+' :: O ++ '/' :: L ++ ':' :: T)
      = A ++ '+' :: O ++ '/' :: L ++ ':' :: T := List.take_of_length_le hlen
  have hTm : ∀ c ∈ T, c ≠ '\x7b' ∧ c ≠ ':' := by
    rcases hT with h | h <;> subst h <;> decide
  have hPmem : ∀ c ∈ A ++ '+' :: O ++ '/' :: L, c ≠ '\x7b' ∧ c ≠ ':' := by
    intro c hc
    simp only [List.mem_append, List.mem_cons] at hc
    rcases hc with ((h | h | h) | h | h)
    · exact ⟨(hA c h).1, (hA c h).2.1⟩
    · subst h; decide
    · exact ⟨(hO c h).1, (hO c h).2.1⟩
    · subst h; decide
    · exact ⟨(hL c h).1, (hL c h).2.1⟩
  have h1 : strrchr (A ++ '+' :: O ++ '/' :: L ++ ':' :: T) '\x7b' = none := by
    apply strrchr_none
    intro hm
    rcases List.mem_append.1 hm with h | h
    · exact (hPmem _ h).1 rfl
    · rcases List.mem_cons.1 h with h | h
      · exact absurd h (by decide)
      · exact (hTm _ h).1 rfl
  have h2 : strrchr (A ++ '+' :: O ++ '/' :: L ++ ':' :: T) ':'
      = some (A ++ '+' :: O ++ '/' :: L).length :=
    strrchr_append _ T ':' (fun hm => (hTm _ hm).2 rfl)
  have hPpos : 0 < (A ++ '+' :: O ++ '/' :: L).length := by
    simp only [List.length_append, List.length_cons]; omega
  have hprev : charAt (A ++ '+' :: O ++ '/' :: L ++ ':' :: T)
      ((A ++ '+' :: O ++ '/' :: L).length - 1) ≠ ':' := by
    rw [charAt_append_left _ _ _ (by omega)]
    exact (hPmem _ (charAt_mem _ _ (by omega))).2
  have h3 : strrchr (A ++ '+' :: O ++ '/' :: L) '/' = some (A ++ '+' :: O).length :=
    strrchr_append _ L '/' (fun hm => (hL _ hm).2.2.1 rfl)
  have h4 : strrchr (A ++ '+' :: O) '+' = some A.length :=
    strrchr_append _ O '+' (fun hm => (hO _ hm).2.2.2 rfl)
  have s1 : bpCounterArg (A ++ '+' :: O ++ '/' :: L ++ ':' :: T)
      = (A ++ '+' :: O ++ '/' :: L ++ ':' :: T, 0) := by
    unfold bpCounterArg; rw [h1]
  have s2 : bpAccess env (A ++ '+' :: O ++ '/' :: L ++ ':' :: T) bp_type bp_len
      = (A ++ '+' :: O ++ '/' :: L,
          if T = "r".toList then HW_BREAKPOINT_R else HW_BREAKPOINT_W, bp_len) := by
    unfold bpAccess
    rw [h2]
    dsimp only
    rw [if_neg (Nat.pos_iff_ne_zero.1 hPpos), if_pos hprev, take_append_cons,
      drop_append_cons]
    have hwr : "w".toList ≠ "r".toList := by decide
    rcases hT with h | h
    · subst h
      rw [if_pos rfl, if_pos rfl]
    · subst h
      rw [if_neg hwr, if_pos rfl, if_neg hwr]
  have s3 : bpLength (A ++ '+' :: O ++ '/' :: L) bp_len
      = (A ++ '+' :: O, toU32 (strtoll L 0)) := by
    unfold bpLength; rw [h3]; simp only [take_append_cons, drop_append_cons]
  have s4 : bpOffset (A ++ '+' :: O) = (A, some (strtoll O 0)) := by
    unfold bpOffset; rw [h4]; simp only [take_append_cons, drop_append_cons]
  have s5 : bpAddress env A (some (strtoll O 0)) = (toU64 (strtoll A 0), strtoll O 0) := by
    unfold bpAddress; rw [if_pos h0x, Option.getD_some]
  have hx : ¬ ((if T = "r".toList then HW_BREAKPOINT_R else HW_BREAKPOINT_W) = HW_BREAKPOINT_X
      ∧ (0 : Int) = 0) := by
    rcases hT with h | h <;> subst h <;> decide
  unfold parseBreakpoint
  dsimp only
  rw [hcopy, s1]
  dsimp only
  rw [s2]
  dsimp only
  rw [s3]
  dsimp only
  rw [s4]
  dsimp only
  rw [s5]
  dsimp only
  rw [if_neg haddr, if_neg hx]

theorem initial_name_head (env : Env) (i : Nat) (hi : i < 13) :
    ∃ h t, ((Resolver.initial env).entry i).name = h :: t
      ∧ (h = 'c' ∨ h = 'p' ∨ h = 'i' ∨ h = 'b' ∨ h = 'L' ∨ h = 'd') := by
  interval_cases i <;> exact ⟨_, _, rfl, by decide⟩

theorem findPredefined_none (env : Env) (st : Resolver) (hst : st.Stable env) (c : Char)
    (t : List Char)
    (hc : c ≠ 'c' ∧ c ≠ 'p' ∧ c ≠ 'i' ∧ c ≠ 'b' ∧ c ≠ 'L' ∧ c ≠ 'd') :
    findPredefined st (c :: t) = none := by
  unfold findPredefined
  rw [List.find?_eq_none]
  intro i hi
  have hi13 : i < 13 := by
    have := List.mem_range.1 hi
    simpa [IDX_PREDEFINED] using this
  obtain ⟨h, t1, hn, hh⟩ := initial_name_head env i hi13
  rw [(hst.2 i).1, hn]
  simp only [decide_eq_true_eq, List.cons.injEq, not_and]
  intro e
  exfalso
  subst e
  obtain ⟨h1, h2, h3, h4, h5, h6⟩ := hc
  rcases hh with h | h | h | h | h | h
  · exact h1 h
  · exact h2 h
  · exact h3 h
  · exact h4 h
  · exact h5 h
  · exact h6 h

theorem Stable.entry_type (env : Env) (st : Resolver) (hst : st.Stable env) (j : Nat)
    (h1 : j ≠ IDX_PMU) (h2 : j ≠ IDX_KPROBE) (h3 : j ≠ IDX_UPROBE) :
    (st.entry j).type = ((Resolver.initial env).entry j).type :=
  (hst.2 j).2.2 h1 h2 h3

theorem memSpecifier_eq (address : Nat) (offset length : Numeral) (access : Char) :
    memSpecifier address offset length access
      = 'm' :: 'e' :: 'm' :: ':' :: (("0x".toList ++ hexadecimal address) ++ '+' :: offset.text
          ++ '/' :: length.text ++ ':' :: [access]) := by
  unfold memSpecifier
  have e : "mem:0x".toList = 'm' :: 'e' :: 'm' :: ':' :: "0x".toList := rfl
  have e1 : "+".toList = ['+'] := rfl
  have e2 : "/".toList = ['/'] := rfl
  have e3 : ":".toList = [':'] := rfl
  rw [e, e1, e2, e3]
  simp only [List.cons_append, List.append_assoc, List.nil_append]

theorem getBreakpoint_of_parse (env : Env) (st : Resolver) (name : List Char) (t l : Nat)
    (cfg cfg1 cfg2 : Nat) (carg : Int)
    (h : parseBreakpoint env name t l = some (cfg, cfg1, cfg2, carg)) :
    getBreakpoint env st name t l
      = (Outcome.found IDX_BREAKPOINT,
          st.setEntry IDX_BREAKPOINT
            { st.entry IDX_BREAKPOINT with
              config := cfg, config1 := cfg1, config2 := cfg2, counter_arg := carg }) := by
  unfold getBreakpoint
  rw [h]

theorem memSpecifier_resolves (env : Env) (st : Resolver) (hst : st.Stable env) (address : Nat)
    (offset length : Numeral) (access : Char) (hpos : 0 < address) (ha : address < 2 ^ 63)
    (ho : offset.value < 2 ^ 63) (hl : length.value < 2 ^ 32)
    (hacc : access = 'r' ∨ access = 'w') :
    forName env st (memSpecifier address offset length access)
      = (Outcome.found IDX_BREAKPOINT,
          st.setEntry IDX_BREAKPOINT
            { st.entry IDX_BREAKPOINT with
              config := if access = 'r' then HW_BREAKPOINT_R else HW_BREAKPOINT_W,
              config1 := address + offset.value,
              config2 := length.value,
              counter_arg := 0 }) := by
  have hA : ∀ c ∈ "0x".toList ++ hexadecimal address,
      c ≠ '\x7b' ∧ c ≠ ':' ∧ c ≠ '/' ∧ c ≠ '+' := (Numeral.hex address).text_plain
  have hAlen : ("0x".toList ++ hexadecimal address).length ≤ 66 :=
    (Numeral.hex address).text_length
  have hOlen := offset.text_length
  have hLlen := length.text_length
  have hT : [access] = "r".toList ∨ [access] = "w".toList := by
    rcases hacc with h | h <;> subst h
    · exact Or.inl rfl
    · exact Or.inr rfl
  have hlen : (("0x".toList ++ hexadecimal address) ++ '+' :: offset.text
      ++ '/' :: length.text ++ ':' :: [access]).length ≤ 255 := by
    simp only [List.length_append, List.length_cons, List.length_nil] at hAlen ⊢
    omega
  obtain ⟨d, t, he, hd, _⟩ := digitsOf_head 16 (by norm_num) 64 address (by norm_num)
    (lt_trans ha (by norm_num))
  have h0x : strncmpEq ("0x".toList ++ hexadecimal address) "0x".toList 2 = true := by
    unfold hexadecimal; rw [he]; rfl
  have hsA : strtoll ("0x".toList ++ hexadecimal address) 0 = address := strtoll_hex address ha
  have hsO := strtoll_numeral offset ho
  have hsL := strtoll_numeral length (lt_trans hl (by norm_num))
  have hu1 : toU64 (address : Int) = address := by
    unfold toU64; omega
  have hp := parseBreakpoint_split env ("0x".toList ++ hexadecimal address) offset.text
    length.text [access] HW_BREAKPOINT_RW 1 hA offset.text_plain length.text_plain hT hlen h0x
    (by rw [hsA, hu1]; omega)
  rw [hsA, hsO, hsL, hu1] at hp
  have hu2 : toU64 ((address : Int) + (offset.value : Int)) = address + offset.value := by
    unfold toU64; omega
  have hu3 : toU32 (length.value : Int) = length.value := by
    unfold toU32; omega
  have hty : (if [access] = "r".toList then HW_BREAKPOINT_R else HW_BREAKPOINT_W)
      = if access = 'r' then HW_BREAKPOINT_R else HW_BREAKPOINT_W := by
    rcases hacc with h | h <;> subst h <;> rfl
  rw [hu2, hu3, hty] at hp
  rw [memSpecifier_eq]
  unfold forName
  rw [findPredefined_none env st hst 'm' _ (by decide)]
  dsimp only
  unfold forNameDynamic
  rw [if_pos (by rfl)]
  exact getBreakpoint_of_parse env st _ _ _ _ _ _ _ hp

theorem strtoCore_minus (d : Nat) (t : List Char) (hd : d < 10) :
    strtoCore ('-' :: digitChar d :: t) 10
      = (true, (scanDigits 10 0 (digitChar d :: t)).1, (scanDigits 10 0 (digitChar d :: t)).2) := by
  have hdig := isDigitOf_digitChar 10 d hd (by norm_num)
  have hdw : ('-' :: digitChar d :: t).dropWhile isspace = '-' :: digitChar d :: t := by
    rw [List.dropWhile_cons_of_neg (by decide)]
  have c0 : charAt ('-' :: digitChar d :: t) 0 = '-' := rfl
  have d1 : ('-' :: digitChar d :: t).drop 1 = digitChar d :: t := rfl
  have b1 : ¬ ((10 = 0 ∨ 10 = 16) ∧
      (decide (charAt (digitChar d :: t) 0 = '0') && (decide (charAt (digitChar d :: t) 1 = 'x')
        || decide (charAt (digitChar d :: t) 1 = 'X'))
        && isDigitOf 16 (charAt (digitChar d :: t) 2)) = true) := by
    intro h; omega
  have b2 : ¬ ((10 : Nat) = 0) := by omega
  unfold strtoCore
  dsimp only
  rw [hdw, c0, if_pos (Or.inl rfl), d1, if_neg b1, if_neg b1, if_neg b2, charAt_cons_zero,
    if_pos hdig]
  simp only [decide_True]

theorem atoi_intText (n : Int) (hlo : -2 ^ 31 ≤ n) (hhi : n < 2 ^ 31) : atoi (intText n) = n := by
  unfold atoi intText
  by_cases hneg : n < 0
  · rw [if_pos hneg]
    have hm : (-n).toNat < 10 ^ 64 := by
      have : (-n).toNat ≤ 2 ^ 31 := by omega
      exact lt_of_le_of_lt this (by norm_num)
    have hmpos : 0 < (-n).toNat := by omega
    obtain ⟨d, t, he, hd, _⟩ := digitsOf_head 10 (by norm_num) 64 (-n).toNat (by norm_num) hm
    have hscan := scanDigits_digitsOf_all 10 (by norm_num) (by norm_num) 64 (-n).toNat hm
    unfold strtoll decimal
    rw [he, strtoCore_minus d t hd, ← he, hscan]
    dsimp only
    unfold toInt32
    omega
  · rw [if_neg hneg]
    have hm : n.toNat < 2 ^ 63 := by
      have : n.toNat < 2 ^ 31 := by omega
      exact lt_trans this (by norm_num)
    rw [strtoll_decimal 10 (Or.inl rfl) n.toNat hm]
    unfold toInt32
    omega

theorem traceSpecifier_resolves (env : Env) (st : Resolver) (hst : st.Stable env) (n : Int)
    (hlo : -2 ^ 31 ≤ n) (hhi : n < 2 ^ 31) :
    forName env st (traceSpecifier n)
      = if n > 0 then getTracepoint st n else (Outcome.null, st) := by
  have e : traceSpecifier n = 't' :: 'r' :: 'a' :: 'c' :: 'e' :: ':' :: intText n := rfl
  rw [e]
  unfold forName
  rw [findPredefined_none env st hst 't' _ (by decide)]
  dsimp only
  unfold forNameDynamic
  have h1 : strncmpEq ('t' :: 'r' :: 'a' :: 'c' :: 'e' :: ':' :: intText n) "mem:".toList 4
      = false := rfl
  have h2 : strncmpEq ('t' :: 'r' :: 'a' :: 'c' :: 'e' :: ':' :: intText n) "trace:".toList 6
      = true := rfl
  have h3 : ('t' :: 'r' :: 'a' :: 'c' :: 'e' :: ':' :: intText n).drop 6 = intText n := rfl
  rw [h1, h2, h3, atoi_intText n hlo hhi]
  simp only [Bool.false_eq_true, if_false, if_true]

theorem Resolver.initial_stable (env : Env) : (Resolver.initial env).Stable env :=
  ⟨rfl, fun _ => ⟨rfl, rfl, fun _ _ _ => rfl⟩⟩
theorem Resolver.Stable.setEntry (env : Env) (st : Resolver) (hst : st.Stable env) (i : Nat)
    (e : PerfEventType) (h1 : e.name = (st.entry i).name)
    (h2 : e.default_interval = (st.entry i).default_interval)
    (h3 : i ≠ IDX_PMU → i ≠ IDX_KPROBE → i ≠ IDX_UPROBE → e.type = (st.entry i).type) :
    (st.setEntry i e).Stable env := by
  refine ⟨by rw [Resolver.setEntry_length]; exact hst.1, fun j => ?_⟩
  by_cases hij : i = j
  · subst hij
    by_cases hi : i < st.table.length
    · rw [Resolver.entry_setEntry_self _ _ _ hi]
      exact ⟨h1.trans (hst.2 i).1, h2.trans (hst.2 i).2.1,
        fun a b c => (h3 a b c).trans ((hst.2 i).2.2 a b c)⟩
    · rw [Resolver.setEntry_out st i _ (not_lt.1 hi)]
      exact hst.2 i
  · rw [Resolver.entry_setEntry_ne _ _ _ _ hij]
    exact hst.2 j

theorem Resolver.Stable.with_probe_func (env : Env) (st : Resolver) (hst : st.Stable env)
    (pf : List Char) : ({ st with probe_func := pf } : Resolver).Stable env := hst

theorem getProbeOn_keeps (env : Env) (type name : List Char) (ret : Nat) (e : PerfEventType) :
    (getProbeOn env type name ret e).2.1.name = e.name
      ∧ (getProbeOn env type name ret e).2.1.default_interval = e.default_interval := by
  unfold getProbeOn
  dsimp only
  split_ifs <;> exact ⟨rfl, rfl⟩

theorem getPmuEventOn_keeps (env : Env) (buf : List Char) (i : Nat) (e : PerfEventType) :
    (getPmuEventOn env buf i e).2.name = e.name
      ∧ (getPmuEventOn env buf i e).2.default_interval = e.default_interval
      ∧ (getPmuEventOn env buf i e).2.counter_arg = e.counter_arg := by
  rw [getPmuEventOn_eq env buf i e]
  split_ifs
  · exact ⟨rfl, rfl, rfl⟩
  · exact ⟨rfl, rfl, rfl⟩
  · have hk := pmuParams_keeps env (buf.take i)
        ((resolvePmuEventName env (buf.take i) (buf.drop (i + 1)).dropLast
          (256 - (i + 1))).length + 1)
        (some (resolvePmuEventName env (buf.take i) (buf.drop (i + 1)).dropLast
          (256 - (i + 1))))
        (pmuStart (toU32 (findDeviceType env (buf.take i))) e)
    split <;>
    · rename_i hp
      rw [hp] at hk
      exact ⟨hk.1, hk.2.1, hk.2.2.2⟩

theorem Route.run_stable (env : Env) (name : List Char) (r : Route) (hr : r.Valid)
    (st : Resolver) (hst : st.Stable env) : (r.run env name st).2.Stable env := by
  cases r with
  | breakpoint n t l =>
    show (getBreakpoint env st n t l).2.Stable env
    unfold getBreakpoint
    cases parseBreakpoint env n t l with
    | none => exact hst
    | some v =>
      obtain ⟨cfg, cfg1, cfg2, carg⟩ := v
      exact hst.setEntry env st _ _ rfl rfl (fun _ _ _ => rfl)
  | tracepoint id => exact hst.setEntry env st _ _ rfl rfl (fun _ _ _ => rfl)
  | null => exact hst
  | fault => exact hst
  | probe idx type n ret =>
    show (getProbe env st idx type n ret).2.Stable env
    unfold getProbe
    apply Resolver.Stable.with_probe_func
    have hk := getProbeOn_keeps env type n ret (st.entry idx)
    exact hst.setEntry env st _ _ hk.1 hk.2 (fun _ h2 h3 => by
      rcases hr with h | h
      · exact absurd h h2
      · exact absurd h h3)
  | raw config => exact hst.setEntry env st _ _ rfl rfl (fun _ _ _ => rfl)
  | pmu =>
    show (getPmuEvent env st name).2.Stable env
    unfold getPmuEvent
    dsimp only
    cases strchr (copy255 name) '/' with
    | none => exact hst
    | some i =>
      have hk := getPmuEventOn_keeps env (copy255 name) i (st.entry IDX_PMU)
      exact hst.setEntry env st _ _ hk.1 hk.2.1 (fun h _ _ => absurd rfl h)

/-- Every call of `forName` leaves a stable table stable. -/
theorem forName_stable (env : Env) (st : Resolver) (hst : st.Stable env) (name : List Char) :
    (forName env st name).2.Stable env := by
  unfold forName
  cases findPredefined st name with
  | some i => exact hst
  | none =>
    obtain ⟨r, hv, hr⟩ := forNameDynamic_route env name
    dsimp only
    rw [hr st]
    exact r.run_stable env name hv st hst

/-- C6 (amended). For every specifier `mem:0x<address>+<offset>/<length>:<a>` with `a` in
`r`, `w`, a non-zero address below `2 ^ 63`, an offset below `2 ^ 63` and a length below
`2 ^ 32` (offset and length written in decimal or in hexadecimal after `0x`), and every table
state that calls of `forName` can leave, `forName` returns the breakpoint entry, of breakpoint
type, whose `config1` is address + offset, whose `config2` is the length and whose `config`
is read-only for `r` and write-only for `w`. -/
theorem forName_mem (env : Env) (st : Resolver) (hst : st.Stable env) (address : Nat)
    (offset length : Numeral) (access : Char) (hpos : 0 < address) (ha : address < 2 ^ 63)
    (ho : offset.value < 2 ^ 63) (hl : length.value < 2 ^ 32)
    (hacc : access = 'r' ∨ access = 'w') :
    (forName env st (memSpecifier address offset length access)).1
        = Outcome.found IDX_BREAKPOINT
      ∧ ((forName env st (memSpecifier address offset length access)).2.entry
          IDX_BREAKPOINT).type = PERF_TYPE_BREAKPOINT
      ∧ ((forName env st (memSpecifier address offset length access)).2.entry
          IDX_BREAKPOINT).config = (if access = 'r' then HW_BREAKPOINT_R else HW_BREAKPOINT_W)
      ∧ ((forName env st (memSpecifier address offset length access)).2.entry
          IDX_BREAKPOINT).config1 = address + offset.value
      ∧ ((forName env st (memSpecifier address offset length access)).2.entry
          IDX_BREAKPOINT).config2 = length.value := by
  have hi : IDX_BREAKPOINT < st.table.length := by rw [hst.1]; decide
  have hty : (st.entry IDX_BREAKPOINT).type = PERF_TYPE_BREAKPOINT :=
    Stable.entry_type env st hst IDX_BREAKPOINT (by decide) (by decide) (by decide)
  rw [memSpecifier_resolves env st hst address offset length access hpos ha ho hl hacc]
  dsimp only
  rw [Resolver.entry_setEntry_self _ _ _ hi]
  exact ⟨rfl, hty, rfl, rfl, rfl⟩

/-- Witness of C6: `mem:0x1000+0x10/4:w` on the initial table gives a write-only watchpoint
at address `0x1010` of length 4. -/
theorem forName_mem_witness :
    (forName exampleEnv (Resolver.initial exampleEnv) "mem:0x1000+0x10/4:w".toList).1
        = Outcome.found IDX_BREAKPOINT
      ∧ ((forName exampleEnv (Resolver.initial exampleEnv) "mem:0x1000+0x10/4:w".toList).2.entry
          IDX_BREAKPOINT).type = PERF_TYPE_BREAKPOINT
      ∧ ((forName exampleEnv (Resolver.initial exampleEnv) "mem:0x1000+0x10/4:w".toList).2.entry
          IDX_BREAKPOINT).config = HW_BREAKPOINT_W
      ∧ ((forName exampleEnv (Resolver.initial exampleEnv) "mem:0x1000+0x10/4:w".toList).2.entry
          IDX_BREAKPOINT).config1 = 0x1010
      ∧ ((forName exampleEnv (Resolver.initial exampleEnv) "mem:0x1000+0x10/4:w".toList).2.entry
          IDX_BREAKPOINT).config2 = 4 :=
  forName_mem exampleEnv (Resolver.initial exampleEnv) (Resolver.initial_stable exampleEnv)
    0x1000 (Numeral.hex 0x10) (Numeral.dec 4) 'w' (by decide) (by decide) (by decide)
    (by decide) (Or.inr rfl)

set_option maxRecDepth 100000 in
/-- Counterexample to C6 as stated: `mem:0x0+0x10/4:w` has the required form, and `forName`
returns `NULL` for it, leaving the table as it was. -/
theorem forName_mem_zero_counterexample :
    memSpecifier 0 (Numeral.hex 0x10) (Numeral.dec 4) 'w' = "mem:0x0+0x10/4:w".toList
      ∧ forName exampleEnv (Resolver.initial exampleEnv) "mem:0x0+0x10/4:w".toList
        = (Outcome.null, Resolver.initial exampleEnv) := by
  decide

/-- C7 (amended). For every specifier `trace:<n>` with `n` a decimal integer in the range of
`int` and every table state that calls of `forName` can leave, `forName` succeeds if and only
if `n > 0`: for `n > 0` it returns the tracepoint entry, of tracepoint type, with `config`
equal to `n`; for `n ≤ 0` it returns `NULL` and leaves the table as it was. -/
theorem forName_trace (env : Env) (st : Resolver) (hst : st.Stable env) (n : Int)
    (hlo : -2 ^ 31 ≤ n) (hhi : n < 2 ^ 31) :
    ((forName env st (traceSpecifier n)).1 ≠ Outcome.null ↔ 0 < n)
      ∧ (0 < n →
          (forName env st (traceSpecifier n)).1 = Outcome.found IDX_TRACEPOINT
          ∧ ((forName env st (traceSpecifier n)).2.entry IDX_TRACEPOINT).type
              = PERF_TYPE_TRACEPOINT
          ∧ (((forName env st (traceSpecifier n)).2.entry IDX_TRACEPOINT).config : Int) = n)
      ∧ (n ≤ 0 → forName env st (traceSpecifier n) = (Outcome.null, st)) := by
  have hi : IDX_TRACEPOINT < st.table.length := by rw [hst.1]; decide
  have hty : (st.entry IDX_TRACEPOINT).type = PERF_TYPE_TRACEPOINT :=
    Stable.entry_type env st hst IDX_TRACEPOINT (by decide) (by decide) (by decide)
  rw [traceSpecifier_resolves env st hst n hlo hhi]
  by_cases hn : n > 0
  · rw [if_pos hn]
    unfold getTracepoint
    dsimp only
    rw [Resolver.entry_setEntry_self _ _ _ hi]
    refine ⟨⟨fun _ => hn, fun _ h => by cases h⟩, fun _ => ⟨rfl, hty, ?_⟩, fun h => by omega⟩
    show ((toU64 n : Nat) : Int) = n
    unfold toU64
    omega
  · rw [if_neg hn]
    exact ⟨⟨fun h => absurd rfl h, fun h => absurd h hn⟩, fun h => absurd h hn, fun _ => rfl⟩

/-- Witness of C7: `trace:42` on the initial table. -/
theorem forName_trace_witness :
    ((forName exampleEnv (Resolver.initial exampleEnv) "trace:42".toList).1 ≠ Outcome.null
        ↔ (0 : Int) < 42)
      ∧ ((0 : Int) < 42 →
          (forName exampleEnv (Resolver.initial exampleEnv) "trace:42".toList).1
            = Outcome.found IDX_TRACEPOINT
          ∧ ((forName exampleEnv (Resolver.initial exampleEnv) "trace:42".toList).2.entry
              IDX_TRACEPOINT).type = PERF_TYPE_TRACEPOINT
          ∧ (((forName exampleEnv (Resolver.initial exampleEnv) "trace:42".toList).2.entry
              IDX_TRACEPOINT).config : Int) = 42)
      ∧ ((42 : Int) ≤ 0 →
          forName exampleEnv (Resolver.initial exampleEnv) "trace:42".toList
            = (Outcome.null, Resolver.initial exampleEnv)) :=
  forName_trace exampleEnv (Resolver.initial exampleEnv) (Resolver.initial_stable exampleEnv)
    42 (by decide) (by decide)

set_option maxRecDepth 100000 in
/-- Counterexample to C7 as stated: `2147483648` is a positive decimal integer, `atoi` turns
it into a negative `int`, and `forName` returns `NULL` for `trace:2147483648`. -/
theorem forName_trace_overflow_counterexample :
    traceSpecifier 2147483648 = "trace:2147483648".toList
      ∧ forName exampleEnv (Resolver.initial exampleEnv) "trace:2147483648".toList
        = (Outcome.null, Resolver.initial exampleEnv) := by
  decide

set_option maxRecDepth 100000 in
/-- C8, the code at the failing input. `read` is in `KNOWN_FUNCTIONS` with counter argument 3
and resolves to a non-zero address, yet `forName` takes it for the raw register `r` + `ead`:
it returns the raw entry with `config = 0xead`, not a breakpoint. -/
theorem forName_read_is_raw :
    findCounterArg "read".toList = 3 ∧ exampleEnv.dlsym "read".toList ≠ 0
      ∧ (forName exampleEnv (Resolver.initial exampleEnv) "read".toList).1
          = Outcome.found IDX_RAW
      ∧ ((forName exampleEnv (Resolver.initial exampleEnv) "read".toList).2.entry IDX_RAW).type
          = PERF_TYPE_RAW
      ∧ ((forName exampleEnv (Resolver.initial exampleEnv) "read".toList).2.entry IDX_RAW).config
          = 0xead := by
  decide

/-- `parseBreakpoint` on a bare symbol name: no separator, no `0x` prefix. -/
theorem parseBreakpoint_symbol (env : Env) (name : List Char) (l : Nat)
    (h1 : strrchr name '\x7b' = none) (h2 : strrchr name ':' = none)
    (h3 : strrchr name '/' = none) (h4 : strrchr name '+' = none)
    (hlen : name.length ≤ 255) (h0x : strncmpEq name "0x".toList 2 = false) :
    parseBreakpoint env name HW_BREAKPOINT_X l
      = if (if env.dlsym name = 0 then env.resolveSymbol name else env.dlsym name) = 0 then none
        else
          some (HW_BREAKPOINT_X,
            toU64 (((if env.dlsym name = 0 then env.resolveSymbol name else env.dlsym name : Nat)
              : Int) + env.BREAKPOINT_OFFSET),
            l, findCounterArg name) := by
  have hcopy : copy255 name = name := List.take_of_length_le hlen
  have s1 : bpCounterArg name = (name, 0) := by unfold bpCounterArg; rw [h1]
  have s2 : bpAccess env name HW_BREAKPOINT_X l = (name, HW_BREAKPOINT_X, l) := by
    unfold bpAccess; rw [h2]
  have s3 : bpLength name l = (name, l) := by unfold bpLength; rw [h3]
  have s4 : bpOffset name = (name, none) := by unfold bpOffset; rw [h4]
  have s5 : bpAddress env name none
      = (if env.dlsym name = 0 then env.resolveSymbol name else env.dlsym name,
          env.BREAKPOINT_OFFSET) := by
    unfold bpAddress; rw [h0x]; rfl
  unfold parseBreakpoint
  dsimp only
  rw [hcopy, s1]
  dsimp only
  rw [s2]
  dsimp only
  rw [s3]
  dsimp only
  rw [s4]
  dsimp only
  rw [s5]
  dsimp only
  by_cases ha : (if env.dlsym name = 0 then env.resolveSymbol name else env.dlsym name) = 0
  · rw [if_pos ha, if_pos ha]
  · rw [if_neg ha, if_neg ha]
    simp only [and_self, if_true]

/-- `forName` on a name that no rule before the fallback takes. -/
theorem forName_fallback (env : Env) (st : Resolver) (hst : st.Stable env) (c : Char)
    (t : List Char)
    (hc : c ≠ 'c' ∧ c ≠ 'p' ∧ c ≠ 'i' ∧ c ≠ 'b' ∧ c ≠ 'L' ∧ c ≠ 'd')
    (h1 : strncmpEq (c :: t) "mem:".toList 4 = false)
    (h2 : strncmpEq (c :: t) "trace:".toList 6 = false)
    (h3 : strncmpEq (c :: t) "kprobe:".toList 7 = false)
    (h4 : strncmpEq (c :: t) "uprobe:".toList 7 = false)
    (h5 : strncmpEq (c :: t) "kretprobe:".toList 10 = false)
    (h6 : strncmpEq (c :: t) "uretprobe:".toList 10 = false)
    (h7 : ¬ (charAt (c :: t) 0 = 'r' ∧ 48 ≤ (charAt (c :: t) 1).toNat
      ∧ (strtoull ((c :: t).drop 1) 16).2 = []))
    (h8 : pmuShape (c :: t) = false) (h9 : tracepointShape (c :: t) = false) :
    forName env st (c :: t) = getBreakpoint env st (c :: t) HW_BREAKPOINT_X sizeofLong := by
  unfold forName
  rw [findPredefined_none env st hst c t hc]
  dsimp only
  unfold forNameDynamic
  rw [h1, h2, h3, h4, h5, h6, if_neg (by decide), if_neg (by decide), if_neg (by decide),
    if_neg (by decide), if_neg (by decide), if_neg (by decide), if_neg h7, h8, h9,
    if_neg (by decide), if_neg (by decide)]

set_option maxRecDepth 100000 in
/-- The names of `KNOWN_FUNCTIONS` other than `read`: when the name resolves through `dlsym`
to a non-zero address, `forName` returns the breakpoint entry as an execution breakpoint on
the symbol, of length `sizeof(long)`, whose counter argument is the value the table gives for
the name. -/
theorem forName_known_function (env : Env) (st : Resolver) (hst : st.Stable env)
    (f : FunctionWithCounter) (hf : f ∈ KNOWN_FUNCTIONS) (hread : f.name ≠ "read".toList)
    (haddr : env.dlsym f.name ≠ 0) :
    (forName env st f.name).1 = Outcome.found IDX_BREAKPOINT
      ∧ ((forName env st f.name).2.entry IDX_BREAKPOINT).type = PERF_TYPE_BREAKPOINT
      ∧ ((forName env st f.name).2.entry IDX_BREAKPOINT).config = HW_BREAKPOINT_X
      ∧ ((forName env st f.name).2.entry IDX_BREAKPOINT).config1
          = toU64 ((env.dlsym f.name : Int) + env.BREAKPOINT_OFFSET)
      ∧ ((forName env st f.name).2.entry IDX_BREAKPOINT).config2 = sizeofLong
      ∧ ((forName env st f.name).2.entry IDX_BREAKPOINT).counter_arg = f.counter_arg := by
  have hi : IDX_BREAKPOINT < st.table.length := by rw [hst.1]; decide
  have hty : (st.entry IDX_BREAKPOINT).type = PERF_TYPE_BREAKPOINT :=
    Stable.entry_type env st hst IDX_BREAKPOINT (by decide) (by decide) (by decide)
  have key : ∀ (c : Char) (t : List Char) (k : Int), f.name = c :: t → f.counter_arg = k →
      (c ≠ 'c' ∧ c ≠ 'p' ∧ c ≠ 'i' ∧ c ≠ 'b' ∧ c ≠ 'L' ∧ c ≠ 'd') →
      strncmpEq (c :: t) "mem:".toList 4 = false →
      strncmpEq (c :: t) "trace:".toList 6 = false →
      strncmpEq (c :: t) "kprobe:".toList 7 = false →
      strncmpEq (c :: t) "uprobe:".toList 7 = false →
      strncmpEq (c :: t) "kretprobe:".toList 10 = false →
      strncmpEq (c :: t) "uretprobe:".toList 10 = false →
      ¬ (charAt (c :: t) 0 = 'r' ∧ 48 ≤ (charAt (c :: t) 1).toNat
        ∧ (strtoull ((c :: t).drop 1) 16).2 = []) →
      pmuShape (c :: t) = false → tracepointShape (c :: t) = false →
      strrchr (c :: t) '\x7b' = none → strrchr (c :: t) ':' = none →
      strrchr (c :: t) '/' = none → strrchr (c :: t) '+' = none →
      (c :: t).length ≤ 255 → strncmpEq (c :: t) "0x".toList 2 = false →
      findCounterArg (c :: t) = k →
      (forName env st f.name).1 = Outcome.found IDX_BREAKPOINT
      ∧ ((forName env st f.name).2.entry IDX_BREAKPOINT).type = PERF_TYPE_BREAKPOINT
      ∧ ((forName env st f.name).2.entry IDX_BREAKPOINT).config = HW_BREAKPOINT_X
      ∧ ((forName env st f.name).2.entry IDX_BREAKPOINT).config1
          = toU64 ((env.dlsym f.name : Int) + env.BREAKPOINT_OFFSET)
      ∧ ((forName env st f.name).2.entry IDX_BREAKPOINT).config2 = sizeofLong
      ∧ ((forName env st f.name).2.entry IDX_BREAKPOINT).counter_arg = f.counter_arg := by
    intro c t k hn hk hc h1 h2 h3 h4 h5 h6 h7 h8 h9 p1 p2 p3 p4 plen p0x pk
    rw [hn] at haddr ⊢
    have hp := parseBreakpoint_symbol env (c :: t) sizeofLong p1 p2 p3 p4 plen p0x
    rw [if_neg haddr, if_neg haddr, pk] at hp
    rw [forName_fallback env st hst c t hc h1 h2 h3 h4 h5 h6 h7 h8 h9,
      getBreakpoint_of_parse env st _ _ _ _ _ _ _ hp]
    dsimp only
    rw [Resolver.entry_setEntry_self _ _ _ hi]
    exact ⟨rfl, hty, rfl, rfl, rfl, hk.symm⟩
  simp only [KNOWN_FUNCTIONS, List.mem_cons, List.mem_singleton, List.not_mem_nil,
    or_false] at hf
  rcases hf with h | h | h | h | h | h | h | h | h
  all_goals subst h
  · exact key 'm' "alloc".toList 1 rfl rfl (by decide) (by decide) (by decide) (by decide)
      (by decide) (by decide) (by decide) (by decide) (by decide) (by decide) (by decide)
      (by decide) (by decide) (by decide) (by decide) (by decide) (by decide)
  · exact key 'm' "map".toList 2 rfl rfl (by decide) (by decide) (by decide) (by decide)
      (by decide) (by decide) (by decide) (by decide) (by decide) (by decide) (by decide)
      (by decide) (by decide) (by decide) (by decide) (by decide) (by decide)
  · exact key 'm' "unmap".toList 2 rfl rfl (by decide) (by decide) (by decide) (by decide)
      (by decide) (by decide) (by decide) (by decide) (by decide) (by decide) (by decide)
      (by decide) (by decide) (by decide) (by decide) (by decide) (by decide)
  · exact absurd rfl hread
  · exact key 'w' "rite".toList 3 rfl rfl (by decide) (by decide) (by decide) (by decide)
      (by decide) (by decide) (by decide) (by decide) (by decide) (by decide) (by decide)
      (by decide) (by decide) (by decide) (by decide) (by decide) (by decide)
  · exact key 's' "end".toList 3 rfl rfl (by decide) (by decide) (by decide) (by decide)
      (by decide) (by decide) (by decide) (by decide) (by decide) (by decide) (by decide)
      (by decide) (by decide) (by decide) (by decide) (by decide) (by decide)
  · exact key 'r' "ecv".toList 3 rfl rfl (by decide) (by decide) (by decide) (by decide)
      (by decide) (by decide) (by decide) (by decide) (by decide) (by decide) (by decide)
      (by decide) (by decide) (by decide) (by decide) (by decide) (by decide)
  · exact key 's' "endto".toList 3 rfl rfl (by decide) (by decide) (by decide) (by decide)
      (by decide) (by decide) (by decide) (by decide) (by decide) (by decide) (by decide)
      (by decide) (by decide) (by decide) (by decide) (by decide) (by decide)
  · exact key 'r' "ecvfrom".toList 3 rfl rfl (by decide) (by decide) (by decide) (by decide)
      (by decide) (by decide) (by decide) (by decide) (by decide) (by decide) (by decide)
      (by decide) (by decide) (by decide) (by decide) (by decide) (by decide)

theorem getPmuEventOn_outcome (env : Env) (buf : List Char) (i : Nat) (raw : PerfEventType)
    (j : Nat) (h : (getPmuEventOn env buf i raw).1 = Outcome.found j) : j = IDX_PMU := by
  rw [getPmuEventOn_eq] at h
  split_ifs at h
  · exact (Outcome.found.inj h).symm
  · split at h
    · exact (Outcome.found.inj h).symm
    · exact absurd h (by simp)

/-- A route writes to at most one table entry, an entry of a dynamic kind, which is the entry
returned when one is returned. -/
theorem Route.run_frame (env : Env) (name : List Char) (r : Route) (hr : r.Valid)
    (st : Resolver) :
    ∃ k, IDX_PREDEFINED < k ∧ k ≤ IDX_UPROBE
      ∧ (∀ j, j ≠ k → (r.run env name st).2.entry j = st.entry j)
      ∧ (∀ j, (r.run env name st).1 = Outcome.found j → j = k) := by
  cases r with
  | breakpoint n t l =>
    refine ⟨IDX_BREAKPOINT, by decide, by decide, fun j hj => ?_, fun j hj => ?_⟩
    · show (getBreakpoint env st n t l).2.entry j = _
      unfold getBreakpoint
      cases parseBreakpoint env n t l with
      | none => rfl
      | some v => exact Resolver.entry_setEntry_ne _ _ _ _ (Ne.symm hj)
    · have hj : (getBreakpoint env st n t l).1 = Outcome.found j := hj
      unfold getBreakpoint at hj
      cases hp : parseBreakpoint env n t l with
      | none => rw [hp] at hj; exact absurd hj (by simp)
      | some v => rw [hp] at hj; exact (Outcome.found.inj hj).symm
  | tracepoint id =>
    exact ⟨IDX_TRACEPOINT, by decide, by decide,
      fun j hj => Resolver.entry_setEntry_ne _ _ _ _ (Ne.symm hj),
      fun j hj => (Outcome.found.inj hj).symm⟩
  | null =>
    exact ⟨IDX_RAW, by decide, by decide, fun _ _ => rfl,
      fun j hj => absurd hj (fun h => Outcome.noConfusion h)⟩
  | fault =>
    exact ⟨IDX_RAW, by decide, by decide, fun _ _ => rfl,
      fun j hj => absurd hj (fun h => Outcome.noConfusion h)⟩
  | probe idx type n ret =>
    refine ⟨idx, ?_, ?_, fun j hj => ?_, fun j hj => ?_⟩
    · rcases hr with h | h <;> (rw [h]; decide)
    · rcases hr with h | h
      · rw [h]; decide
      · exact le_of_eq h
    · show (getProbe env st idx type n ret).2.entry j = _
      unfold getProbe
      exact Resolver.entry_setEntry_ne _ _ _ _ (Ne.symm hj)
    · have hj : (getProbe env st idx type n ret).1 = Outcome.found j := hj
      unfold getProbe at hj
      dsimp only at hj
      split_ifs at hj
      exact (Outcome.found.inj hj).symm
  | raw config =>
    exact ⟨IDX_RAW, by decide, by decide,
      fun j hj => Resolver.entry_setEntry_ne _ _ _ _ (Ne.symm hj),
      fun j hj => (Outcome.found.inj hj).symm⟩
  | pmu =>
    refine ⟨IDX_PMU, by decide, by decide, fun j hj => ?_, fun j hj => ?_⟩
    · show (getPmuEvent env st name).2.entry j = _
      unfold getPmuEvent
      dsimp only
      cases strchr (copy255 name) '/' with
      | none => rfl
      | some i => exact Resolver.entry_setEntry_ne _ _ _ _ (Ne.symm hj)
    · have hj : (getPmuEvent env st name).1 = Outcome.found j := hj
      unfold getPmuEvent at hj
      dsimp only at hj
      cases hs : strchr (copy255 name) '/' with
      | none => rw [hs] at hj; exact absurd hj (fun h => Outcome.noConfusion h)
      | some i =>
        rw [hs] at hj
        exact getPmuEventOn_outcome env _ i _ j hj

/-- A call of `forName` writes to at most one table entry, one of the six entries of the
dynamic kinds; when it returns an entry, that is the entry written to, or nothing was
written. -/
theorem forName_frame (env : Env) (st : Resolver) (name : List Char) :
    ∃ k, IDX_PREDEFINED < k ∧ k ≤ IDX_UPROBE
      ∧ (∀ j, j ≠ k → (forName env st name).2.entry j = st.entry j)
      ∧ (∀ j, (forName env st name).1 = Outcome.found j →
          j = k ∨ (forName env st name).2 = st) := by
  unfold forName
  cases findPredefined st name with
  | some i =>
    exact ⟨IDX_RAW, by decide, by decide, fun _ _ => rfl, fun _ _ => Or.inr rfl⟩
  | none =>
    obtain ⟨r, hv, hr⟩ := forNameDynamic_route env name
    dsimp only
    rw [hr st]
    obtain ⟨k, h1, h2, h3, h4⟩ := r.run_frame env name hv st
    exact ⟨k, h1, h2, h3, fun j hj => Or.inl (h4 j hj)⟩

/-- C19 (amended). The descriptor that `forName(s1)` returned keeps every field through a
later call `forName(s2)` when it is the entry of a predefined event, and when the later call
returns a different descriptor; a later call writes to at most one entry, one of the six
entries of the dynamic kinds. -/
theorem forName_descriptor_kept (env : Env) (st : Resolver) (s1 s2 : List Char) (i : Nat)
    (_h : (forName env st s1).1 = Outcome.found i) :
    (i ≤ IDX_PREDEFINED →
        (forName env (forName env st s1).2 s2).2.entry i = (forName env st s1).2.entry i)
      ∧ (∀ j, (forName env (forName env st s1).2 s2).1 = Outcome.found j → j ≠ i →
        (forName env (forName env st s1).2 s2).2.entry i = (forName env st s1).2.entry i)
      ∧ ∃ k, IDX_PREDEFINED < k ∧ k ≤ IDX_UPROBE
          ∧ ∀ j, j ≠ k →
            (forName env (forName env st s1).2 s2).2.entry j
              = (forName env st s1).2.entry j := by
  obtain ⟨k, h1, h2, h3, h4⟩ := forName_frame env (forName env st s1).2 s2
  refine ⟨fun hi => h3 i (by omega), fun j hj hne => ?_, k, h1, h2, h3⟩
  rcases h4 j hj with e | e
  · exact h3 i (by omega)
  · rw [e]

set_option maxRecDepth 100000 in
/-- Witness of C19 (amended): the watchpoint descriptor of `mem:0x1000` keeps its fields
through a later `forName("trace:42")`. -/
theorem forName_descriptor_kept_witness :
    (forName exampleEnv (Resolver.initial exampleEnv) "mem:0x1000".toList).1
        = Outcome.found IDX_BREAKPOINT
      ∧ (forName exampleEnv
          (forName exampleEnv (Resolver.initial exampleEnv) "mem:0x1000".toList).2
          "trace:42".toList).2.entry IDX_BREAKPOINT
        = (forName exampleEnv (Resolver.initial exampleEnv) "mem:0x1000".toList).2.entry
            IDX_BREAKPOINT :=
  ⟨by decide,
    (forName_descriptor_kept exampleEnv (Resolver.initial exampleEnv) "mem:0x1000".toList
      "trace:42".toList IDX_BREAKPOINT (by decide)).2.1 IDX_TRACEPOINT (by decide) (by decide)⟩

set_option maxRecDepth 100000 in
/-- Counterexample to C19 as stated: `forName("mem:0x1000")` returns the breakpoint entry with
address `0x1000`; after `forName("mem:0x2000")` the same entry holds the address `0x2000`. -/
theorem forName_descriptor_overwritten_counterexample :
    (forName exampleEnv (Resolver.initial exampleEnv) "mem:0x1000".toList).1
        = Outcome.found IDX_BREAKPOINT
      ∧ ((forName exampleEnv (Resolver.initial exampleEnv) "mem:0x1000".toList).2.entry
          IDX_BREAKPOINT).config1 = 0x1000
      ∧ (forName exampleEnv
          (forName exampleEnv (Resolver.initial exampleEnv) "mem:0x1000".toList).2
          "mem:0x2000".toList).1 = Outcome.found IDX_BREAKPOINT
      ∧ ((forName exampleEnv
          (forName exampleEnv (Resolver.initial exampleEnv) "mem:0x1000".toList).2
          "mem:0x2000".toList).2.entry IDX_BREAKPOINT).config1 = 0x2000 := by
  decide

theorem bpAccess_optional (env : Env) (P : List Char) (T : Option Char) (t l : Nat)
    (hP : ∀ c ∈ P, c ≠ ':') (hne : P ≠ [])
    (hT : ∀ a, T = some a → a = 'r' ∨ a = 'w' ∨ a = 'x') :
    bpAccess env (P ++ optionalPart ':' (T.map (fun a => [a]))) t l
      = (P,
          T.elim t (fun a =>
            if a = 'r' then HW_BREAKPOINT_R else if a = 'w' then HW_BREAKPOINT_W
            else HW_BREAKPOINT_X),
          if T = some 'x' then sizeofLong else l) := by
  cases T with
  | none =>
    show bpAccess env (P ++ []) t l = _
    rw [List.append_nil]
    unfold bpAccess
    rw [strrchr_none P ':' (fun h => hP _ h rfl)]
    simp
  | some a =>
    show bpAccess env (P ++ ':' :: [a]) t l = _
    have ha : (':' : Char) ∉ [a] := by
      rcases hT a rfl with h | h | h <;> rw [h] <;> decide
    have hpos : 0 < P.length := List.length_pos.2 hne
    have hprev : charAt (P ++ ':' :: [a]) (P.length - 1) ≠ ':' := by
      rw [charAt_append_left _ _ _ (by omega)]
      exact hP _ (charAt_mem _ _ (by omega))
    unfold bpAccess
    rw [strrchr_append P [a] ':' ha]
    dsimp only
    rw [if_neg (Nat.pos_iff_ne_zero.1 hpos), if_pos hprev, take_append_cons, drop_append_cons]
    rcases hT a rfl with h | h | h <;> subst h <;> rfl

theorem bpLength_optional (P : List Char) (L : Option (List Char)) (l : Nat)
    (hP : ∀ c ∈ P, c ≠ '/') (hL : ∀ x, L = some x → '/' ∉ x) :
    bpLength (P ++ optionalPart '/' L) l
      = (P, (L.map (fun x => toU32 (strtoll x 0))).getD l) := by
  cases L with
  | none =>
    show bpLength (P ++ []) l = _
    rw [List.append_nil]
    unfold bpLength
    rw [strrchr_none P '/' (fun h => hP _ h rfl)]
    rfl
  | some x =>
    show bpLength (P ++ '/' :: x) l = _
    unfold bpLength
    rw [strrchr_append P x '/' (hL x rfl)]
    simp only [take_append_cons, drop_append_cons]
    rfl

theorem bpOffset_optional (P : List Char) (O : Option (List Char))
    (hP : ∀ c ∈ P, c ≠ '+') (hO : ∀ x, O = some x → '+' ∉ x) :
    bpOffset (P ++ optionalPart '+' O) = (P, O.map (fun x => strtoll x 0)) := by
  cases O with
  | none =>
    show bpOffset (P ++ []) = _
    rw [List.append_nil]
    unfold bpOffset
    rw [strrchr_none P '+' (fun h => hP _ h rfl)]
    rfl
  | some x =>
    show bpOffset (P ++ '+' :: x) = _
    unfold bpOffset
    rw [strrchr_append P x '+' (hO x rfl)]
    simp only [take_append_cons, drop_append_cons]
    rfl

/-- `parseBreakpoint` on `A[+O][/L][:a]` where none of the parts holds a separator. -/
theorem parseBreakpoint_optional (env : Env) (A : List Char) (O L : Option (List Char))
    (T : Option Char) (t l : Nat)
    (hA : ∀ c ∈ A, c ≠ '\x7b' ∧ c ≠ ':' ∧ c ≠ '/' ∧ c ≠ '+') (hne : A ≠ [])
    (hO : ∀ x, O = some x → ∀ c ∈ x, c ≠ '\x7b' ∧ c ≠ ':' ∧ c ≠ '/' ∧ c ≠ '+')
    (hL : ∀ x, L = some x → ∀ c ∈ x, c ≠ '\x7b' ∧ c ≠ ':' ∧ c ≠ '/' ∧ c ≠ '+')
    (hT : ∀ a, T = some a → a = 'r' ∨ a = 'w' ∨ a = 'x')
    (hlen : (A ++ optionalPart '+' O ++ optionalPart '/' L
      ++ optionalPart ':' (T.map (fun a => [a]))).length ≤ 255)
    (haddr : (bpAddress env A (O.map (fun x => strtoll x 0))).1 ≠ 0) :
    parseBreakpoint env (A ++ optionalPart '+' O ++ optionalPart '/' L
        ++ optionalPart ':' (T.map (fun a => [a]))) t l
      = some
          (T.elim t (fun a =>
              if a = 'r' then HW_BREAKPOINT_R else if a = 'w' then HW_BREAKPOINT_W
              else HW_BREAKPOINT_X),
            toU64 (((bpAddress env A (O.map (fun x => strtoll x 0))).1 : Int)
              + (bpAddress env A (O.map (fun x => strtoll x 0))).2),
            (L.map (fun x => toU32 (strtoll x 0))).getD
              (if T = some 'x' then sizeofLong else l),
            if T.elim t (fun a =>
                  if a = 'r' then HW_BREAKPOINT_R else if a = 'w' then HW_BREAKPOINT_W
                  else HW_BREAKPOINT_X) = HW_BREAKPOINT_X ∧ (0 : Int) = 0
              then findCounterArg A else 0) := by
  have hcopy := List.take_of_length_le hlen
  have hOp : ∀ c ∈ optionalPart '+' O, c ≠ '\x7b' ∧ c ≠ ':' ∧ c ≠ '/' := by
    intro c hc
    cases O with
    | none => exact absurd hc (List.not_mem_nil c)
    | some x =>
      rcases List.mem_cons.1 hc with h | h
      · rw [h]; decide
      · exact ⟨(hO x rfl c h).1, (hO x rfl c h).2.1, (hO x rfl c h).2.2.1⟩
  have hLp : ∀ c ∈ optionalPart '/' L, c ≠ '\x7b' ∧ c ≠ ':' := by
    intro c hc
    cases L with
    | none => exact absurd hc (List.not_mem_nil c)
    | some x =>
      rcases List.mem_cons.1 hc with h | h
      · rw [h]; decide
      · exact ⟨(hL x rfl c h).1, (hL x rfl c h).2.1⟩
  have hTp : ∀ c ∈ optionalPart ':' (T.map (fun a => [a])), c ≠ '\x7b' := by
    intro c hc
    cases T with
    | none => exact absurd hc (List.not_mem_nil c)
    | some a =>
      rcases List.mem_cons.1 hc with h | h
      · rw [h]; decide
      · rw [List.mem_singleton.1 h]
        rcases hT a rfl with e | e | e <;> rw [e] <;> decide
  have h1 : strrchr (A ++ optionalPart '+' O ++ optionalPart '/' L
      ++ optionalPart ':' (T.map (fun a => [a]))) '\x7b' = none := by
    apply strrchr_none
    intro hm
    simp only [List.mem_append] at hm
    rcases hm with ((h | h) | h) | h
    · exact (hA _ h).1 rfl
    · exact (hOp _ h).1 rfl
    · exact (hLp _ h).1 rfl
    · exact hTp _ h rfl
  have s1 : bpCounterArg (A ++ optionalPart '+' O ++ optionalPart '/' L
      ++ optionalPart ':' (T.map (fun a => [a])))
      = (A ++ optionalPart '+' O ++ optionalPart '/' L
          ++ optionalPart ':' (T.map (fun a => [a])), 0) := by
    unfold bpCounterArg; rw [h1]
  have s2 := bpAccess_optional env (A ++ optionalPart '+' O ++ optionalPart '/' L) T t l
    (fun c hc => by
      simp only [List.mem_append] at hc
      rcases hc with (h | h) | h
      · exact (hA _ h).2.1
      · exact (hOp _ h).2.1
      · exact (hLp _ h).2)
    (by
      intro h
      rw [List.append_assoc] at h
      exact hne (List.append_eq_nil.1 h).1) hT
  have s3 := bpLength_optional (A ++ optionalPart '+' O) L (if T = some 'x' then sizeofLong else l)
    (fun c hc => by
      simp only [List.mem_append] at hc
      rcases hc with h | h
      · exact (hA _ h).2.2.1
      · exact (hOp _ h).2.2)
    (fun x hx hm => (hL x hx _ hm).2.2.1 rfl)
  have s4 := bpOffset_optional A O (fun c hc => (hA _ hc).2.2.2)
    (fun x hx hm => (hO x hx _ hm).2.2.2 rfl)
  unfold parseBreakpoint
  dsimp only
  rw [copy255, hcopy, s1]
  dsimp only
  rw [s2]
  dsimp only
  rw [s3]
  dsimp only
  rw [s4]
  dsimp only
  rw [if_neg haddr]

theorem memSpecifierOf_eq (target : Target) (offset length : Option Numeral)
    (access : Option Char) :
    memSpecifierOf target offset length access
      = 'm' :: 'e' :: 'm' :: ':' :: (target.text ++ optionalPart '+' (offset.map Numeral.text)
          ++ optionalPart '/' (length.map Numeral.text)
          ++ optionalPart ':' (access.map (fun a => [a]))) := rfl

theorem optionalPart_length (sep : Char) (x : Option Numeral) :
    (optionalPart sep (x.map Numeral.text)).length ≤ 67 := by
  cases x with
  | none => exact Nat.zero_le _
  | some n =>
    have := n.text_length
    show (sep :: n.text).length ≤ 67
    rw [List.length_cons]
    omega

theorem Target.text_facts (env : Env) (target : Target) (h : target.Valid env) :
    (∀ c ∈ target.text, c ≠ '\x7b' ∧ c ≠ ':' ∧ c ≠ '/' ∧ c ≠ '+') ∧ target.text ≠ []
      ∧ target.text.length ≤ 100 := by
  cases target with
  | absolute a =>
    refine ⟨(Numeral.hex a).text_plain, ?_, ?_⟩
    · show "0x".toList ++ hexadecimal a ≠ []
      intro e
      exact absurd (List.append_eq_nil.1 e).1 (by decide)
    · have := (Numeral.hex a).text_length
      exact le_trans this (by norm_num)
  | symbol n => exact ⟨h.2.1, h.1, h.2.2.2.1⟩

theorem bpAddress_target (env : Env) (target : Target) (h : target.Valid env)
    (off : Option Int) :
    bpAddress env target.text off
      = (target.address env,
          match target with
          | Target.absolute _ => off.getD 0
          | Target.symbol _ => off.getD env.BREAKPOINT_OFFSET) := by
  cases target with
  | absolute a =>
    obtain ⟨d, t, he, hd, _⟩ := digitsOf_head 16 (by norm_num) 64 a (by norm_num)
      (lt_trans h.2 (by norm_num))
    have h0x : strncmpEq ("0x".toList ++ hexadecimal a) "0x".toList 2 = true := by
      unfold hexadecimal; rw [he]; rfl
    have hsA : strtoll ("0x".toList ++ hexadecimal a) 0 = a := strtoll_hex a h.2
    have hu1 : toU64 (a : Int) = a := by
      have := h.2
      unfold toU64; omega
    show bpAddress env ("0x".toList ++ hexadecimal a) off = _
    unfold bpAddress
    rw [if_pos h0x, hsA, hu1]
    rfl
  | symbol n =>
    show bpAddress env n off = _
    unfold bpAddress
    rw [if_neg (by rw [h.2.2.1]; exact Bool.false_ne_true)]
    cases off <;> rfl

/-- The resolution of `mem:<target>[+<offset>][/<length>][:<access>]`, with the values
stored in the breakpoint entry. -/
theorem memSpecifierOf_resolves (env : Env) (st : Resolver) (hst : st.Stable env)
    (target : Target) (offset length : Option Numeral) (access : Option Char)
    (ht : target.Valid env) (ho : ∀ o, offset = some o → o.value < 2 ^ 63)
    (hl : ∀ x, length = some x → x.value < 2 ^ 32)
    (ha : ∀ a, access = some a → a = 'r' ∨ a = 'w' ∨ a = 'x') :
    ∃ carg, forName env st (memSpecifierOf target offset length access)
      = (Outcome.found IDX_BREAKPOINT,
          st.setEntry IDX_BREAKPOINT
            { st.entry IDX_BREAKPOINT with
              config := access.elim HW_BREAKPOINT_RW (fun a =>
                if a = 'r' then HW_BREAKPOINT_R else if a = 'w' then HW_BREAKPOINT_W
                else HW_BREAKPOINT_X),
              config1 := toU64 ((target.address env : Int)
                + (bpAddress env target.text (offset.map (fun o => (o.value : Int)))).2),
              config2 := (length.map Numeral.value).getD
                (if access = some 'x' then sizeofLong else 1),
              counter_arg := carg }) := by
  obtain ⟨hplain, hne, hlen100⟩ := target.text_facts env ht
  have hOm : (offset.map Numeral.text).map (fun x => strtoll x 0)
      = offset.map (fun o => (o.value : Int)) := by
    cases offset with
    | none => rfl
    | some o => exact congrArg some (strtoll_numeral o (ho o rfl))
  have hLm : ((length.map Numeral.text).map (fun x => toU32 (strtoll x 0)))
      = length.map Numeral.value := by
    cases length with
    | none => rfl
    | some x =>
      have h1 := strtoll_numeral x (lt_trans (hl x rfl) (by norm_num))
      have h2 : toU32 (x.value : Int) = x.value := by
        have := hl x rfl
        unfold toU32; omega
      show some (toU32 (strtoll x.text 0)) = some x.value
      rw [h1, h2]
  have hlen : (target.text ++ optionalPart '+' (offset.map Numeral.text)
      ++ optionalPart '/' (length.map Numeral.text)
      ++ optionalPart ':' (access.map (fun a => [a]))).length ≤ 255 := by
    have h1 := optionalPart_length '+' offset
    have h2 := optionalPart_length '/' length
    have h3 : (optionalPart ':' (access.map (fun a => [a]))).length ≤ 2 := by
      cases access with
      | none => exact Nat.zero_le _
      | some a => exact le_refl 2
    simp only [List.length_append]
    omega
  have hadr := bpAddress_target env target ht (offset.map (fun o => (o.value : Int)))
  have haddr : (bpAddress env target.text
      ((offset.map Numeral.text).map (fun x => strtoll x 0))).1 ≠ 0 := by
    rw [hOm, hadr]
    cases target with
    | absolute a => exact Nat.pos_iff_ne_zero.1 ht.1
    | symbol n => exact ht.2.2.2.2
  have hp := parseBreakpoint_optional env target.text (offset.map Numeral.text)
    (length.map Numeral.text) access HW_BREAKPOINT_RW 1 hplain hne
    (fun x hx => by
      cases offset with
      | none => exact absurd hx (by simp)
      | some o =>
        rw [← Option.some.inj hx]
        exact o.text_plain)
    (fun x hx => by
      cases length with
      | none => exact absurd hx (by simp)
      | some o =>
        rw [← Option.some.inj hx]
        exact o.text_plain) ha hlen haddr
  rw [hOm, hLm] at hp
  have e1 : (bpAddress env target.text (offset.map (fun o => (o.value : Int)))).1
      = target.address env := by rw [hadr]
  rw [e1] at hp
  refine ⟨if access.elim HW_BREAKPOINT_RW (fun a =>
      if a = 'r' then HW_BREAKPOINT_R else if a = 'w' then HW_BREAKPOINT_W
      else HW_BREAKPOINT_X) = HW_BREAKPOINT_X ∧ (0 : Int) = 0
    then findCounterArg target.text else 0, ?_⟩
  rw [memSpecifierOf_eq]
  unfold forName
  rw [findPredefined_none env st hst 'm' _ (by decide)]
  dsimp only
  unfold forNameDynamic
  rw [if_pos (by rfl)]
  exact getBreakpoint_of_parse env st _ _ _ _ _ _ _ hp

/-- C18. For a specifier `mem:<target>[+<offset>][/<length>][:<access>]` with a target that
is a non-zero absolute address or a symbol with an address, an offset below `2 ^ 63`, a length
below `2 ^ 32` and an access letter among `r`, `w`, `x`, each part that is present or left
out, `forName` returns the breakpoint entry, of breakpoint type, in which: the access type is
read-write without a suffix and read-only, write-only, execute for `r`, `w`, `x`; the address
of an absolute target is the address plus the offset, and plus 0 without an offset; the
address of a symbol is its address plus the offset, and plus the platform breakpoint offset
without one; the length is the one given, and without one `sizeof(long)` for the suffix `x`
and 1 otherwise. -/
theorem forName_mem_defaults (env : Env) (st : Resolver) (hst : st.Stable env)
    (target : Target) (offset length : Option Numeral) (access : Option Char)
    (ht : target.Valid env) (ho : ∀ o, offset = some o → o.value < 2 ^ 63)
    (hl : ∀ x, length = some x → x.value < 2 ^ 32)
    (ha : ∀ a, access = some a → a = 'r' ∨ a = 'w' ∨ a = 'x') :
    (forName env st (memSpecifierOf target offset length access)).1
        = Outcome.found IDX_BREAKPOINT
      ∧ ((forName env st (memSpecifierOf target offset length access)).2.entry
          IDX_BREAKPOINT).type = PERF_TYPE_BREAKPOINT
      ∧ ((forName env st (memSpecifierOf target offset length access)).2.entry
          IDX_BREAKPOINT).config
        = access.elim HW_BREAKPOINT_RW (fun a =>
            if a = 'r' then HW_BREAKPOINT_R else if a = 'w' then HW_BREAKPOINT_W
            else HW_BREAKPOINT_X)
      ∧ (∀ address, target = Target.absolute address →
          ((forName env st (memSpecifierOf target offset length access)).2.entry
            IDX_BREAKPOINT).config1 = address + (offset.map Numeral.value).getD 0)
      ∧ (∀ name, target = Target.symbol name →
          ((forName env st (memSpecifierOf target offset length access)).2.entry
            IDX_BREAKPOINT).config1
          = toU64 (((Target.symbol name).address env : Int)
              + (offset.map (fun o => (o.value : Int))).getD env.BREAKPOINT_OFFSET))
      ∧ ((forName env st (memSpecifierOf target offset length access)).2.entry
          IDX_BREAKPOINT).config2
        = (length.map Numeral.value).getD (if access = some 'x' then sizeofLong else 1) := by
  have hi : IDX_BREAKPOINT < st.table.length := by rw [hst.1]; decide
  have hty : (st.entry IDX_BREAKPOINT).type = PERF_TYPE_BREAKPOINT :=
    Stable.entry_type env st hst IDX_BREAKPOINT (by decide) (by decide) (by decide)
  obtain ⟨carg, h⟩ := memSpecifierOf_resolves env st hst target offset length access ht ho hl ha
  have hadr := bpAddress_target env target ht (offset.map (fun o => (o.value : Int)))
  rw [h]
  dsimp only
  rw [Resolver.entry_setEntry_self _ _ _ hi]
  refine ⟨rfl, hty, rfl, fun a e => ?_, fun n e => ?_, rfl⟩
  · subst e
    dsimp only
    rw [hadr]
    have hb := ht.2
    cases offset with
    | none =>
      show toU64 ((a : Int) + 0) = a + 0
      unfold toU64; omega
    | some o =>
      have := ho o rfl
      show toU64 ((a : Int) + (o.value : Int)) = a + o.value
      unfold toU64; omega
  · subst e
    dsimp only
    rw [hadr]

set_option maxRecDepth 100000 in
/-- Witness of C18: with a platform breakpoint offset of 4, `mem:malloc` gives a read-write
watchpoint of length 1 at the address of `malloc` plus 4. -/
theorem forName_mem_defaults_witness :
    memSpecifierOf (Target.symbol "malloc".toList) none none none = "mem:malloc".toList
      ∧ (forName exampleEnvOffset (Resolver.initial exampleEnvOffset) "mem:malloc".toList).1
        = Outcome.found IDX_BREAKPOINT
      ∧ ((forName exampleEnvOffset (Resolver.initial exampleEnvOffset)
          "mem:malloc".toList).2.entry IDX_BREAKPOINT).config = HW_BREAKPOINT_RW
      ∧ ((forName exampleEnvOffset (Resolver.initial exampleEnvOffset)
          "mem:malloc".toList).2.entry IDX_BREAKPOINT).config1 = 0x7f0000001004
      ∧ ((forName exampleEnvOffset (Resolver.initial exampleEnvOffset)
          "mem:malloc".toList).2.entry IDX_BREAKPOINT).config2 = 1 :=
  have h := forName_mem_defaults exampleEnvOffset (Resolver.initial exampleEnvOffset)
    (Resolver.initial_stable exampleEnvOffset) (Target.symbol "malloc".toList) none none none
    ⟨by decide, by decide, by decide, by decide, by decide⟩
    (fun _ e => absurd e (by simp)) (fun _ e => absurd e (by simp))
    (fun _ e => absurd e (by simp))
  ⟨rfl, h.1, h.2.2.1, h.2.2.2.2.1 _ rfl, h.2.2.2.2.2⟩

/-! ## Theorems: the counter lifecycle -/

theorem startRegistration_outcome (os : Os) (s : PerfEvents) :
    (s.startRegistration os).1 = StartOutcome.ok
      ∨ (s.startRegistration os).1
          = StartOutcome.error ("No access to perf events. Try --all-user option or " ++
              "\x27sysctl kernel.perf_event_paranoid=1\x27")
      ∨ (s.startRegistration os).1 = StartOutcome.error "Perf events unavailable" := by
  unfold PerfEvents.startRegistration
  dsimp only
  split_ifs <;>
    first
    | exact Or.inl rfl
    | exact Or.inr (Or.inl rfl)
    | exact Or.inr (Or.inr rfl)

/-- When `start` ends with one of the three errors of an unsupported configuration, every
part of the state other than `_event_type` and the descriptor table is as before the call. -/
theorem start_unsupported_frame (env : Env) (os : Os) (s : PerfEvents) (args : Arguments)
    (h : (s.start env os args).1 = StartOutcome.error "Unsupported event type"
      ∨ (s.start env os args).1 = StartOutcome.error "Only arguments 1-4 can be counted"
      ∨ (s.start env os args).1 = StartOutcome.error "interval must be positive") :
    (s.start env os args).2._interval = s._interval
      ∧ (s.start env os args).2._ring = s._ring
      ∧ (s.start env os args).2._cstack = s._cstack
      ∧ (s.start env os args).2._use_mmap_page = s._use_mmap_page
      ∧ (s.start env os args).2._max_events = s._max_events
      ∧ (s.start env os args).2._events = s._events
      ∧ (s.start env os args).2._pthread_entry = s._pthread_entry
      ∧ (s.start env os args).2.hooked = s.hooked
      ∧ (s.start env os args).2.calls = s.calls := by
  unfold PerfEvents.start at h ⊢
  generalize forName env s.resolver (args._event.getD os.EVENT_CPU) = r at h ⊢
  obtain ⟨o, st⟩ := r
  cases o with
  | fault => simp at h
  | null => exact ⟨rfl, rfl, rfl, rfl, rfl, rfl, rfl, rfl, rfl⟩
  | found idx =>
    dsimp only at h ⊢
    by_cases h1 : (st.entry idx).counter_arg > 4
    · rw [if_pos h1]
      exact ⟨rfl, rfl, rfl, rfl, rfl, rfl, rfl, rfl, rfl⟩
    · rw [if_neg h1] at h ⊢
      by_cases h2 : toInt32 (if args._event ≠ none ∧ args.eventIsCpu = false then args._interval
          else args.cpuSamplerInterval) < 0
      · rw [if_pos h2]
        exact ⟨rfl, rfl, rfl, rfl, rfl, rfl, rfl, rfl, rfl⟩
      · rw [if_neg h2] at h
        exfalso
        by_cases h3 : (if s._pthread_entry = none then os.lookupThreadEntry
            else s._pthread_entry) = none
        · rw [if_pos h3] at h
          simp at h
        · rw [if_neg h3] at h
          rcases startRegistration_outcome os _ with h4 | h4 | h4 <;>
            rw [h4] at h <;> simp at h

set_option maxRecDepth 100000 in
/-- C9, the code at two failing inputs. After a successful `start` for the cpu event
(`_event_type` points at entry 0), a `start` for an event that does not resolve ends with
"Unsupported event type" and leaves `_event_type` at `NULL`. From the initial state
(`_event_type` is `NULL`), a `start` for `malloc` with counter argument 5 ends with
"Only arguments 1-4 can be counted" and leaves `_event_type` pointing at the breakpoint
entry. In both cases `_event_type` is not what it was before the failed call. -/
theorem start_failure_commits_event_type :
    (PerfEvents.start exampleEnv exampleOs (PerfEvents.initial exampleEnv) cpuArgs).1
        = StartOutcome.ok
      ∧ (PerfEvents.start exampleEnv exampleOs (PerfEvents.initial exampleEnv)
          cpuArgs).2._event_type = some 0
      ∧ (PerfEvents.start exampleEnv exampleOs
          (PerfEvents.start exampleEnv exampleOs (PerfEvents.initial exampleEnv) cpuArgs).2
          (eventArgs "nosuchsymbol")).1 = StartOutcome.error "Unsupported event type"
      ∧ (PerfEvents.start exampleEnv exampleOs
          (PerfEvents.start exampleEnv exampleOs (PerfEvents.initial exampleEnv) cpuArgs).2
          (eventArgs "nosuchsymbol")).2._event_type = none
      ∧ (PerfEvents.initial exampleEnv)._event_type = none
      ∧ (PerfEvents.start exampleEnv exampleOs (PerfEvents.initial exampleEnv)
          (eventArgs "malloc\x7b5\x7d")).1
          = StartOutcome.error "Only arguments 1-4 can be counted"
      ∧ (PerfEvents.start exampleEnv exampleOs (PerfEvents.initial exampleEnv)
          (eventArgs "malloc\x7b5\x7d")).2._event_type = some IDX_BREAKPOINT := by
  decide

/-- C10. `registerThread(tid)` returns 0 and changes nothing (no slot, no outside call) when
profiling has not been started (`_max_events` is -1), and when it has been started, `tid` is
below the maximum and the slot of `tid` is already live (`_fd > 0`); it returns -1 and changes
nothing when profiling has been started and `tid` is not below the maximum. -/
theorem registerThread_guards (os : Os) (s : PerfEvents) (tid : Int) :
    (s._max_events = -1 → s.registerThread os tid = (0, s))
      ∧ (s._max_events ≠ -1 → tid ≥ s._max_events → s.registerThread os tid = (-1, s))
      ∧ (s._max_events ≠ -1 → tid < s._max_events → (s.slot tid)._fd > 0 →
          s.registerThread os tid = (0, s)) := by
  refine ⟨fun h => ?_, fun h1 h2 => ?_, fun h1 h2 h3 => ?_⟩
  · unfold PerfEvents.registerThread
    rw [if_pos h]
  · unfold PerfEvents.registerThread
    rw [if_neg h1, if_pos h2]
  · unfold PerfEvents.registerThread
    rw [if_neg h1, if_neg (not_le.2 h2), if_pos h3]

theorem PerfEvents.slot_call (s : PerfEvents) (c : OsCall) (t : Int) :
    (s.call c).slot t = s.slot t := rfl

theorem PerfEvents.slot_setSlot_ne (s : PerfEvents) (tid t : Int) (e : PerfEvent)
    (h : t ≠ tid) : (s.setSlot tid e).slot t = s.slot t := by
  unfold PerfEvents.setSlot PerfEvents.slot
  by_cases h1 : 0 ≤ tid
  · rw [if_pos h1]
    by_cases h2 : 0 ≤ t
    · rw [if_pos h2, if_pos h2]
      dsimp only
      have hne : tid.toNat ≠ t.toNat := by omega
      simp only [List.getD_eq_getElem?_getD, List.getElem?_set_ne hne]
    · rw [if_neg h2, if_neg h2]
  · rw [if_neg h1]

theorem PerfEvents.slot_range (s : PerfEvents) (tid : Int) (h : (s.slot tid)._fd ≠ 0) :
    0 ≤ tid ∧ tid.toNat < s._events.length := by
  unfold PerfEvents.slot at h
  by_cases h1 : 0 ≤ tid
  · refine ⟨h1, ?_⟩
    by_contra h2
    rw [if_pos h1, List.getD_eq_default _ _ (not_lt.1 h2)] at h
    exact h rfl
  · rw [if_neg h1] at h
    exact absurd rfl h

theorem PerfEvents.slot_setSlot_self (s : PerfEvents) (tid : Int) (e : PerfEvent)
    (h0 : 0 ≤ tid) (h1 : tid.toNat < s._events.length) : (s.setSlot tid e).slot tid = e := by
  unfold PerfEvents.setSlot PerfEvents.slot
  rw [if_pos h0, if_pos h0]
  dsimp only
  simp only [List.getD_eq_getElem?_getD, List.getElem?_set_self h1, Option.getD_some]

theorem PerfEvents.setSlot_length (s : PerfEvents) (tid : Int) (e : PerfEvent) :
    (s.setSlot tid e)._events.length = s._events.length := by
  unfold PerfEvents.setSlot
  split
  · simp only [List.length_set]
  · rfl

theorem PerfEvents.setSlot_calls (s : PerfEvents) (tid : Int) (e : PerfEvent) :
    (s.setSlot tid e).calls = s.calls := by
  unfold PerfEvents.setSlot
  split <;> rfl

theorem PerfEvents.setSlot_max_events (s : PerfEvents) (tid : Int) (e : PerfEvent) :
    (s.setSlot tid e)._max_events = s._max_events := by
  unfold PerfEvents.setSlot
  split <;> rfl

theorem PerfEvents.call_calls (s : PerfEvents) (c : OsCall) :
    (s.call c).calls = s.calls ++ [c] := rfl

theorem PerfEvents.call_events (s : PerfEvents) (c : OsCall) :
    (s.call c)._events = s._events := rfl

theorem PerfEvents.call_max_events (s : PerfEvents) (c : OsCall) :
    (s.call c)._max_events = s._max_events := rfl

theorem PerfEvents.slot_zero (s : PerfEvents) (tid : Int)
    (h : ¬ (0 ≤ tid ∧ tid.toNat < s._events.length)) : s.slot tid = PerfEvent.zero := by
  unfold PerfEvents.slot
  by_cases h0 : 0 ≤ tid
  · rw [if_pos h0, List.getD_eq_default _ _ (by
      have := fun h1 => h ⟨h0, h1⟩
      omega)]
  · rw [if_neg h0]

/-- The slot of `tid` after `s.unregisterThread tid`, and the outside calls it made, for a
thread id below the maximum. -/
theorem PerfEvents.unregisterThread_below (s : PerfEvents) (tid : Int)
    (h : tid < s._max_events) :
    (s.unregisterThread tid).calls
        = s.calls
          ++ (if (s.slot tid)._fd > 0
              then [OsCall.ioctl_DISABLE (s.slot tid)._fd, OsCall.close (s.slot tid)._fd]
              else [])
          ++ ((s.slot tid)._page.map OsCall.munmap).toList
      ∧ ((s.unregisterThread tid).slot tid)._fd
          = (if (s.slot tid)._fd > 0 then 0 else (s.slot tid)._fd)
      ∧ ((s.unregisterThread tid).slot tid)._page = none
      ∧ ((s.slot tid).locked = false → ((s.unregisterThread tid).slot tid).locked = false) := by
  unfold PerfEvents.unregisterThread
  rw [if_neg (not_le.2 h)]
  dsimp only
  by_cases hr : 0 ≤ tid ∧ tid.toNat < s._events.length
  · obtain ⟨h0, h1⟩ := hr
    by_cases hfd : (s.slot tid)._fd > 0
    · rw [if_pos hfd, if_pos hfd, if_pos hfd]
      simp only [PerfEvents.slot_call, PerfEvents.slot_setSlot_self _ _ _ h0 h1]
      cases hp : (s.slot tid)._page with
      | none =>
        dsimp only
        simp only [PerfEvents.slot_call, PerfEvents.slot_setSlot_self _ _ _ h0 h1, hp,
          Option.map, Option.toList, PerfEvents.call_calls, PerfEvents.setSlot_calls,
          List.append_assoc, List.append_nil,
          List.cons_append, List.nil_append, true_and]
        exact fun hl => hl
      | some page =>
        dsimp only
        simp only [PerfEvents.slot_call, PerfEvents.slot_setSlot_self, PerfEvents.setSlot_length,
          Option.map, Option.toList, PerfEvents.call_events, h0, h1, PerfEvents.call_calls,
          PerfEvents.setSlot_calls,
          List.append_assoc, List.cons_append, List.nil_append, true_and, implies_true]
    · rw [if_neg hfd, if_neg hfd, if_neg hfd]
      cases hp : (s.slot tid)._page with
      | none =>
        dsimp only
        rw [hp]
        simp only [Option.map, Option.toList, List.append_nil, true_and]
        exact fun hl => hl
      | some page =>
        dsimp only
        simp only [PerfEvents.slot_call, PerfEvents.slot_setSlot_self, PerfEvents.setSlot_length,
          Option.map, Option.toList, PerfEvents.call_events, h0, h1, PerfEvents.call_calls,
          PerfEvents.setSlot_calls,
          List.append_assoc, List.cons_append, List.nil_append, List.append_nil, true_and,
          implies_true]
  · have hz := s.slot_zero tid hr
    rw [hz]
    simp [PerfEvent.zero, hz]

theorem PerfEvents.unregisterThread_other (s : PerfEvents) (tid t : Int) (h : t ≠ tid) :
    (s.unregisterThread tid).slot t = s.slot t := by
  unfold PerfEvents.unregisterThread
  by_cases hm : tid ≥ s._max_events
  · rw [if_pos hm]
  · rw [if_neg hm]
    dsimp only
    split <;> split <;>
      simp only [PerfEvents.slot_call, PerfEvents.slot_setSlot_ne _ _ _ _ h]

theorem PerfEvents.unregisterThread_max_events (s : PerfEvents) (tid : Int) :
    (s.unregisterThread tid)._max_events = s._max_events := by
  unfold PerfEvents.unregisterThread
  by_cases hm : tid ≥ s._max_events
  · rw [if_pos hm]
  · rw [if_neg hm]
    dsimp only
    split <;> split <;>
      simp only [PerfEvents.call_max_events, PerfEvents.setSlot_max_events]

theorem PerfEvents.setSlot_event_type (s : PerfEvents) (tid : Int) (e : PerfEvent) :
    (s.setSlot tid e)._event_type = s._event_type := by
  unfold PerfEvents.setSlot
  split <;> rfl

theorem PerfEvents.call_event_type (s : PerfEvents) (c : OsCall) :
    (s.call c)._event_type = s._event_type := rfl

theorem PerfEvents.slot_setSlot_fd (s : PerfEvents) (tid : Int) (e : PerfEvent) :
    ((s.setSlot tid e).slot tid)._fd = e._fd ∨ ((s.setSlot tid e).slot tid)._fd = 0 := by
  by_cases hr : 0 ≤ tid ∧ tid.toNat < s._events.length
  · rw [PerfEvents.slot_setSlot_self _ _ _ hr.1 hr.2]
    exact Or.inl rfl
  · rw [PerfEvents.slot_zero _ _ (by rw [PerfEvents.setSlot_length]; exact hr)]
    exact Or.inr rfl

/-- What `registerThread(tid)` can change: the slot of `tid`, whose handle becomes 0, -1 or a
descriptor answered by `perf_event_open` if it changes, and the record of outside calls, which
grows by calls for `tid`. -/
theorem PerfEvents.registerThread_effect (os : Os) (s : PerfEvents) (tid : Int) :
    (s.registerThread os tid).2._max_events = s._max_events
      ∧ (s.registerThread os tid).2._event_type = s._event_type
      ∧ (∀ t, t ≠ tid → (s.registerThread os tid).2.slot t = s.slot t)
      ∧ (∃ cs, (s.registerThread os tid).2.calls = s.calls ++ cs
          ∧ ∀ c ∈ cs, c.ofRegister os tid s.calls.length)
      ∧ (((s.registerThread os tid).2.slot tid)._fd = (s.slot tid)._fd
          ∨ ((s.registerThread os tid).2.slot tid)._fd = 0
          ∨ ((s.registerThread os tid).2.slot tid)._fd = -1
          ∨ ∃ n a, s.calls.length ≤ n
              ∧ ((s.registerThread os tid).2.slot tid)._fd = (os.perf_event_open n a tid).1)
      ∧ ((s.registerThread os tid).1 = 0
          ∨ ((s.registerThread os tid).1 = -1 ∧ (tid ≥ s._max_events ∨ s._event_type = none))
          ∨ ∃ n a, (os.perf_event_open n a tid).1 = -1
              ∧ (s.registerThread os tid).1 = (os.perf_event_open n a tid).2) := by
  have triv : s._max_events = s._max_events ∧ s._event_type = s._event_type
      ∧ (∀ t, t ≠ tid → s.slot t = s.slot t)
      ∧ (∃ cs, s.calls = s.calls ++ cs ∧ ∀ c ∈ cs, c.ofRegister os tid s.calls.length)
      ∧ ((s.slot tid)._fd = (s.slot tid)._fd ∨ (s.slot tid)._fd = 0
          ∨ (s.slot tid)._fd = -1
          ∨ ∃ n a, s.calls.length ≤ n ∧ (s.slot tid)._fd = (os.perf_event_open n a tid).1) :=
    ⟨rfl, rfl, fun _ _ => rfl, ⟨[], by simp, by simp⟩, Or.inl rfl⟩
  unfold PerfEvents.registerThread
  by_cases h1 : s._max_events = -1
  · rw [if_pos h1]
    exact ⟨triv.1, triv.2.1, triv.2.2.1, triv.2.2.2.1, triv.2.2.2.2, Or.inl rfl⟩
  rw [if_neg h1]
  by_cases h2 : tid ≥ s._max_events
  · rw [if_pos h2]
    exact ⟨triv.1, triv.2.1, triv.2.2.1, triv.2.2.2.1, triv.2.2.2.2,
      Or.inr (Or.inl ⟨rfl, Or.inl h2⟩)⟩
  rw [if_neg h2]
  by_cases h3 : (s.slot tid)._fd > 0
  · rw [if_pos h3]
    exact ⟨triv.1, triv.2.1, triv.2.2.1, triv.2.2.2.1, triv.2.2.2.2, Or.inl rfl⟩
  rw [if_neg h3]
  split
  · rename_i he
    exact ⟨triv.1, triv.2.1, triv.2.2.1, triv.2.2.2.1, triv.2.2.2.2,
      Or.inr (Or.inl ⟨rfl, Or.inr he⟩)⟩
  rename_i event_type he
  by_cases h4 : (s.slot tid)._fd ≠ 0
  · rw [if_pos h4]
    exact ⟨triv.1, triv.2.1, triv.2.2.1, triv.2.2.2.1, triv.2.2.2.2, Or.inl rfl⟩
  rw [if_neg h4]
  dsimp only
  generalize hs1 : s.setSlot tid { s.slot tid with _fd := -1 } = s1
  have m1 : s1._max_events = s._max_events := by rw [← hs1, PerfEvents.setSlot_max_events]
  have t1 : s1._event_type = s._event_type := by rw [← hs1, PerfEvents.setSlot_event_type]
  have c1 : s1.calls = s.calls := by rw [← hs1, PerfEvents.setSlot_calls]
  have o1 : ∀ t, t ≠ tid → s1.slot t = s.slot t := fun t ht => by
    rw [← hs1, PerfEvents.slot_setSlot_ne _ _ _ _ ht]
  generalize hattr : s1.attrFor os (s1.resolver.entry event_type) = attr
  have hopen : ∃ n a, s.calls.length ≤ n ∧ (os.perf_event_open s1.calls.length attr tid).1
      = (os.perf_event_open n a tid).1 := ⟨_, _, by rw [c1], rfl⟩
  by_cases h5 : (os.perf_event_open s1.calls.length attr tid).1 = -1
  · rw [if_pos h5]
    refine ⟨?_, ?_, fun t ht => ?_, ⟨[OsCall.perf_event_open attr tid
      (os.perf_event_open s1.calls.length attr tid).1], ?_, ?_⟩, ?_, ?_⟩
    · rw [PerfEvents.setSlot_max_events, PerfEvents.call_max_events, m1]
    · rw [PerfEvents.setSlot_event_type, PerfEvents.call_event_type, t1]
    · rw [PerfEvents.slot_setSlot_ne _ _ _ _ ht, PerfEvents.slot_call, o1 t ht]
    · rw [PerfEvents.setSlot_calls, PerfEvents.call_calls, c1]
    · intro c hc
      rw [List.mem_singleton.1 hc]
      exact rfl
    · rcases PerfEvents.slot_setSlot_fd
        (s1.call (OsCall.perf_event_open attr tid (os.perf_event_open s1.calls.length attr tid).1))
        tid { (s1.call (OsCall.perf_event_open attr tid
          (os.perf_event_open s1.calls.length attr tid).1)).slot tid with _fd := 0 } with h | h
      · exact Or.inr (Or.inl h)
      · exact Or.inr (Or.inl h)
    · exact Or.inr (Or.inr ⟨_, _, h5, rfl⟩)
  rw [if_neg h5]
  generalize hfd : (os.perf_event_open s1.calls.length attr tid).1 = fd at hopen h5 ⊢
  generalize hs2 : s1.call (OsCall.perf_event_open attr tid fd) = s2
  have m2 : s2._max_events = s._max_events := by rw [← hs2, PerfEvents.call_max_events, m1]
  have t2 : s2._event_type = s._event_type := by rw [← hs2, PerfEvents.call_event_type, t1]
  have c2 : s2.calls = s.calls ++ [OsCall.perf_event_open attr tid fd] := by
    rw [← hs2, PerfEvents.call_calls, c1]
  have o2 : ∀ t, t ≠ tid → s2.slot t = s.slot t := fun t ht => by
    rw [← hs2, PerfEvents.slot_call, o1 t ht]
  have f2 : (s2.slot tid)._fd = -1 ∨ (s2.slot tid)._fd = 0 := by
    rw [← hs2, PerfEvents.slot_call, ← hs1]
    exact PerfEvents.slot_setSlot_fd _ _ _
  by_cases h6 : (s2.slot tid)._fd ≠ -1
  · rw [if_pos h6]
    refine ⟨?_, ?_, fun t ht => ?_, ⟨[OsCall.perf_event_open attr tid fd, OsCall.close fd],
      ?_, ?_⟩, ?_, Or.inl rfl⟩
    · rw [PerfEvents.call_max_events, m2]
    · rw [PerfEvents.call_event_type, t2]
    · rw [PerfEvents.slot_call, o2 t ht]
    · rw [PerfEvents.call_calls, c2, List.append_assoc]
      rfl
    · intro c hc
      simp only [List.mem_cons, List.mem_singleton, List.not_mem_nil, or_false] at hc
      rcases hc with h | h
      · rw [h]; exact rfl
      · rw [h]; exact hopen
    · rw [PerfEvents.slot_call]
      rcases f2 with h | h
      · exact absurd h h6
      · exact Or.inr (Or.inl h)
  rw [if_neg h6]
  have h7 : (s2.slot tid)._fd = -1 := not_not.1 h6
  have hr := s2.slot_range tid (by rw [h7]; decide)
  dsimp only
  generalize hs3 : s2.setSlot tid { s2.slot tid with _fd := fd } = s3
  have m3 : s3._max_events = s._max_events := by rw [← hs3, PerfEvents.setSlot_max_events, m2]
  have t3 : s3._event_type = s._event_type := by rw [← hs3, PerfEvents.setSlot_event_type, t2]
  have c3 : s3.calls = s.calls ++ [OsCall.perf_event_open attr tid fd] := by
    rw [← hs3, PerfEvents.setSlot_calls, c2]
  have o3 : ∀ t, t ≠ tid → s3.slot t = s.slot t := fun t ht => by
    rw [← hs3, PerfEvents.slot_setSlot_ne _ _ _ _ ht, o2 t ht]
  have l3 : s3._events.length = s2._events.length := by
    rw [← hs3, PerfEvents.setSlot_length]
  generalize hpage : (if s3._ring &&& os.RING_KERNEL ≠ 0 then
      if s3._use_mmap_page = true then
        (os.mmap s3.calls.length fd, s3.call (OsCall.mmap fd (os.mmap s3.calls.length fd)))
      else (none, s3)
    else (none, s3)) = page
  have hp : page.2 = s3 ∨ ∃ p, page.2 = s3.call (OsCall.mmap fd p) := by
    rw [← hpage]
    split_ifs
    · exact Or.inr ⟨_, rfl⟩
    · exact Or.inl rfl
    · exact Or.inl rfl
  have m4 : page.2._max_events = s._max_events := by
    rcases hp with h | ⟨p, h⟩ <;> rw [h]
    · exact m3
    · rw [PerfEvents.call_max_events, m3]
  have t4 : page.2._event_type = s._event_type := by
    rcases hp with h | ⟨p, h⟩ <;> rw [h]
    · exact t3
    · rw [PerfEvents.call_event_type, t3]
  have o4 : ∀ t, t ≠ tid → page.2.slot t = s.slot t := fun t ht => by
    rcases hp with h | ⟨p, h⟩ <;> rw [h]
    · exact o3 t ht
    · rw [PerfEvents.slot_call, o3 t ht]
  have l4 : page.2._events.length = s2._events.length := by
    rcases hp with h | ⟨p, h⟩ <;> rw [h]
    · exact l3
    · rw [PerfEvents.call_events, l3]
  have c4 : ∃ cs, page.2.calls = s.calls ++ cs ∧ ∀ c ∈ cs, c.ofRegister os tid s.calls.length := by
    rcases hp with h | ⟨p, h⟩ <;> rw [h]
    · exact ⟨_, c3, fun c hc => by rw [List.mem_singleton.1 hc]; exact rfl⟩
    · refine ⟨[OsCall.perf_event_open attr tid fd, OsCall.mmap fd p], ?_, fun c hc => ?_⟩
      · rw [PerfEvents.call_calls, c3, List.append_assoc]
        rfl
      · simp only [List.mem_cons, List.mem_singleton, List.not_mem_nil, or_false] at hc
        rcases hc with h | h
        · rw [h]; exact rfl
        · rw [h]; exact trivial
  obtain ⟨cs, hcs, hcs2⟩ := c4
  refine ⟨?_, ?_, fun t ht => ?_, ⟨cs ++ [OsCall.fcntl_SETFL_ASYNC fd,
      OsCall.fcntl_SETSIG_SIGPROF fd, OsCall.fcntl_SETOWN_EX fd tid, OsCall.ioctl_RESET fd,
      OsCall.ioctl_REFRESH fd], ?_, ?_⟩, ?_, Or.inl rfl⟩
  · simp only [PerfEvents.call_max_events, PerfEvents.setSlot_max_events, m4]
  · simp only [PerfEvents.call_event_type, PerfEvents.setSlot_event_type, t4]
  · simp only [PerfEvents.slot_call, PerfEvents.slot_setSlot_ne _ _ _ _ ht, o4 t ht]
  · simp only [PerfEvents.call_calls, PerfEvents.setSlot_calls, hcs, List.append_assoc,
      List.cons_append, List.nil_append]
  · intro c hc
    rcases List.mem_append.1 hc with h | h
    · exact hcs2 c h
    · simp only [List.mem_cons, List.mem_singleton, List.not_mem_nil, or_false] at h
      rcases h with h | h | h | h | h <;> rw [h] <;> exact trivial
  · simp only [PerfEvents.slot_call]
    rw [PerfEvents.slot_setSlot_self _ _ _ hr.1 (by rw [l4]; exact hr.2)]
    exact Or.inr (Or.inr (Or.inr hopen))

theorem qsortInsert_perm (cmp : Int → Int → Int) (x : Int) (l : List Int) :
    (qsortInsert cmp x l).Perm (x :: l) := by
  induction l with
  | nil => exact List.Perm.refl _
  | cons y ys ih =>
    unfold qsortInsert
    split
    · exact ((List.Perm.cons y ih).trans (List.Perm.swap x y ys))
    · exact List.Perm.refl _

theorem qsort_perm (cmp : Int → Int → Int) (l : List Int) : (qsort cmp l).Perm l := by
  induction l with
  | nil => exact List.Perm.refl _
  | cons x xs ih =>
    unfold qsort
    exact (qsortInsert_perm cmp x _).trans (List.Perm.cons x ih)

theorem qsortInsert_sorted (x : Int) (l : List Int) (h : l.Pairwise (· ≤ ·)) :
    (qsortInsert __intsort x l).Pairwise (· ≤ ·) := by
  induction l with
  | nil => exact List.pairwise_singleton _ _
  | cons y ys ih =>
    unfold qsortInsert
    have hy := List.pairwise_cons.1 h
    by_cases hc : __intsort y x ≤ 0
    · rw [if_pos hc]
      have hyx : y ≤ x := by
        unfold __intsort at hc
        by_contra hn
        rw [if_pos (not_le.1 hn)] at hc
        omega
      refine List.pairwise_cons.2 ⟨fun z hz => ?_, ih hy.2⟩
      rcases List.mem_cons.1 ((qsortInsert_perm __intsort x ys).subset hz) with e | e
      · rw [e]; exact hyx
      · exact hy.1 z e
    · rw [if_neg hc]
      have hxy : x ≤ y := by
        unfold __intsort at hc
        by_contra hn
        rw [if_neg (by omega)] at hc
        exact hc (le_refl 0)
      refine List.pairwise_cons.2 ⟨fun z hz => ?_, h⟩
      rcases List.mem_cons.1 hz with e | e
      · rw [e]; exact hxy
      · exact le_trans hxy (hy.1 z e)

/-- With `__intsort` as comparison the sort by insertion that tests `cmp(a, b) <= 0` sorts
ascending. -/
theorem qsort_sorted (l : List Int) : (qsort __intsort l).Pairwise (· ≤ ·) := by
  induction l with
  | nil => exact List.Pairwise.nil
  | cons x xs ih =>
    unfold qsort
    exact qsortInsert_sorted x _ ih

theorem qsort_strict (l : List Int) (h : l.Nodup) : (qsort __intsort l).Pairwise (· < ·) := by
  have hn : (qsort __intsort l).Nodup := (qsort_perm __intsort l).nodup_iff.2 h
  exact ((qsort_sorted l).and hn).imp (fun h => lt_of_le_of_ne h.1 h.2)

/-- Induction over the registration loop of `start` for any content of the snapshot: a
property of the state that `registerThread` and `unregisterThread` keep holds at the end of
the loop; and the loop ends with `err == 0` when every `registerThread` returns 0 or
`ESRCH`. -/
theorem PerfEvents.startLoop_any (os : Os) (threads : List Int) (M : Int)
    (P : PerfEvents → Prop)
    (hreg : ∀ s tid, 0 ≤ tid → tid < M → P s → P (s.registerThread os tid).2)
    (hun : ∀ s tid, 0 ≤ tid → tid < M → P s → P (s.unregisterThread tid)) :
    ∀ (rounds : Nat) (tid : Int) (idx : Nat) (s : PerfEvents),
      0 ≤ tid → tid + rounds = M → P s →
      P (PerfEvents.startLoop os threads rounds tid idx s).2.2
        ∧ ((∀ s tid, 0 ≤ tid → tid < M → P s →
              (s.registerThread os tid).1 = 0 ∨ (s.registerThread os tid).1 = ESRCH) →
            (PerfEvents.startLoop os threads rounds tid idx s).1 = 0) := by
  intro rounds
  induction rounds with
  | zero =>
    intro tid idx s _ _ hP
    exact ⟨hP, fun _ => rfl⟩
  | succ rounds ih =>
    intro tid idx s h0 hM hP
    have htM : tid < M := by omega
    unfold PerfEvents.startLoop
    by_cases hm : idx < threads.length ∧ tid = threads.getD idx 0
    · rw [if_pos hm]
      have hP1 := hreg s tid h0 htM hP
      dsimp only
      by_cases hb : (s.registerThread os tid).1 ≠ 0 ∧ (s.registerThread os tid).1 ≠ ESRCH
      · rw [if_pos hb]
        refine ⟨hP1, fun herr => ?_⟩
        rcases herr s tid h0 htM hP with h | h
        · exact absurd h hb.1
        · exact absurd h hb.2
      · rw [if_neg hb]
        exact ih (tid + 1) (idx + 1) _ (by omega) (by omega) hP1
    · rw [if_neg hm]
      exact ih (tid + 1) idx _ (by omega) (by omega) (hun s tid h0 htM hP)

theorem PerfEvents.startRegistration_eq (os : Os) (s : PerfEvents) :
    s.startRegistration os
      = if (PerfEvents.startLoop os (PerfEvents.startThreads os)
            (s.startPrepared os)._max_events.toNat 0 0 (s.startPrepared os)).1 ≠ 0 then
          if (PerfEvents.startLoop os (PerfEvents.startThreads os)
                (s.startPrepared os)._max_events.toNat 0 0 (s.startPrepared os)).1 = EACCES
              ∨ (PerfEvents.startLoop os (PerfEvents.startThreads os)
                (s.startPrepared os)._max_events.toNat 0 0 (s.startPrepared os)).1 = EPERM then
            (StartOutcome.error ("No access to perf events. Try --all-user option or " ++
              "\x27sysctl kernel.perf_event_paranoid=1\x27"),
              ({ (PerfEvents.startLoop os (PerfEvents.startThreads os)
                    (s.startPrepared os)._max_events.toNat 0 0 (s.startPrepared os)).2.2 with
                  hooked := false } : PerfEvents).call OsCall.switchThreadEvents_DISABLE)
          else
            (StartOutcome.error "Perf events unavailable",
              ({ (PerfEvents.startLoop os (PerfEvents.startThreads os)
                    (s.startPrepared os)._max_events.toNat 0 0 (s.startPrepared os)).2.2 with
                  hooked := false } : PerfEvents).call OsCall.switchThreadEvents_DISABLE)
        else
          (StartOutcome.ok, (PerfEvents.startLoop os (PerfEvents.startThreads os)
            (s.startPrepared os)._max_events.toNat 0 0 (s.startPrepared os)).2.2) := rfl

theorem PerfEvents.registerThread_live (os : Os) (s : PerfEvents) (tid : Int)
    (h : (s.slot tid)._fd > 0) : (s.registerThread os tid).2 = s := by
  unfold PerfEvents.registerThread
  by_cases h1 : s._max_events = -1
  · rw [if_pos h1]
  rw [if_neg h1]
  by_cases h2 : tid ≥ s._max_events
  · rw [if_pos h2]
  rw [if_neg h2, if_pos h]

theorem OsCall.ofRegister_spares (os : Os) (tid tid0 fd0 : Int) (lo : Nat) (c : OsCall)
    (hne : tid ≠ tid0) (hfresh : ∀ n a t, lo ≤ n → (os.perf_event_open n a t).1 ≠ fd0)
    (h : c.ofRegister os tid lo) : c.spares tid0 fd0 := by
  cases c with
  | perf_event_open a t r => exact fun e => hne (h.symm.trans e)
  | close f =>
    obtain ⟨n, a, hn, hf⟩ := h
    exact fun e => hfresh n a tid hn (hf.symm.trans e)
  | ioctl_DISABLE f => exact absurd h id
  | _ => exact trivial

theorem PerfEvents.unregisterThread_event_type (s : PerfEvents) (tid : Int) :
    (s.unregisterThread tid)._event_type = s._event_type := by
  unfold PerfEvents.unregisterThread
  by_cases hm : tid ≥ s._max_events
  · rw [if_pos hm]
  · rw [if_neg hm]
    dsimp only
    split <;> split <;>
      simp only [PerfEvents.call_event_type, PerfEvents.setSlot_event_type]


theorem PerfEvents.Keeps.register (os : Os) (s0 s : PerfEvents) (tid0 tid : Int)
    (hlive : (s0.slot tid0)._fd > 0)
    (hfresh : ∀ n a t, s0.calls.length ≤ n → (os.perf_event_open n a t).1 ≠ (s0.slot tid0)._fd)
    (h : s0.Keeps tid0 s) : s0.Keeps tid0 (s.registerThread os tid).2 := by
  by_cases he : tid = tid0
  · rw [he, PerfEvents.registerThread_live os s tid0 (by rw [h.1]; exact hlive)]
    exact h
  · obtain ⟨_, _, hother, ⟨cs2, hc2, hcs2⟩, hfd, _⟩ := s.registerThread_effect os tid
    obtain ⟨hslot, hown, cs, hc, hcs⟩ := h
    have hlen : s0.calls.length ≤ s.calls.length := by
      rw [hc, List.length_append]; omega
    refine ⟨by rw [hother tid0 (Ne.symm he), hslot], fun t ht => ?_, cs ++ cs2, ?_, ?_⟩
    · by_cases htt : t = tid
      · rw [htt]
        rcases hfd with e | e | e | ⟨n, a, hn, e⟩
        · rw [e]; exact hown tid he
        · rw [e]; omega
        · rw [e]; omega
        · rw [e]; exact hfresh n a tid (le_trans hlen hn)
      · rw [hother t htt]
        exact hown t ht
    · rw [hc2, hc, List.append_assoc]
    · intro c hcm
      rcases List.mem_append.1 hcm with e | e
      · exact hcs c e
      · exact OsCall.ofRegister_spares os tid tid0 _ s.calls.length c he
          (fun n a t hn => hfresh n a t (le_trans hlen hn)) (hcs2 c e)

theorem PerfEvents.Keeps.unregister (s0 s : PerfEvents) (tid0 tid : Int)
    (hlive : (s0.slot tid0)._fd > 0) (he : tid ≠ tid0)
    (h : s0.Keeps tid0 s) : s0.Keeps tid0 (s.unregisterThread tid) := by
  by_cases hm : tid < s._max_events
  · obtain ⟨hcalls, hfd, _, _⟩ := s.unregisterThread_below tid hm
    obtain ⟨hslot, hown, cs, hc, hcs⟩ := h
    refine ⟨by rw [s.unregisterThread_other tid tid0 (Ne.symm he), hslot], fun t ht => ?_,
      cs ++ ((if (s.slot tid)._fd > 0
              then [OsCall.ioctl_DISABLE (s.slot tid)._fd, OsCall.close (s.slot tid)._fd]
              else [])
          ++ ((s.slot tid)._page.map OsCall.munmap).toList), ?_, ?_⟩
    · by_cases htt : t = tid
      · rw [htt, hfd]
        split
        · omega
        · exact hown tid he
      · rw [s.unregisterThread_other tid t htt]
        exact hown t ht
    · rw [hcalls, hc, List.append_assoc, List.append_assoc]
    · intro c hcm
      rcases List.mem_append.1 hcm with e | e
      · exact hcs c e
      · rcases List.mem_append.1 e with e | e
        · split at e
          · simp only [List.mem_cons, List.mem_singleton, List.not_mem_nil, or_false] at e
            rcases e with e | e <;> rw [e] <;> exact hown tid he
          · exact absurd e (List.not_mem_nil _)
        · cases hp : (s.slot tid)._page with
          | none => rw [hp] at e; exact absurd e (List.not_mem_nil _)
          | some page =>
            rw [hp] at e
            rw [List.mem_singleton.1 e]; exact trivial
  · have : s.unregisterThread tid = s := by
      unfold PerfEvents.unregisterThread
      rw [if_pos (not_lt.1 hm)]
    rw [this]
    exact h

/-- Where the library sorts by insertion with the test `cmp(a, b) <= 0`, the snapshot of
distinct ids reaches the registration loop rearranged in strictly ascending order. -/
theorem PerfEvents.startThreads_sorted (os : Os) (hq : os.qsort = qsort)
    (hnodup : (os.listThreads.takeWhile (· ≠ -1)).Nodup) :
    (PerfEvents.startThreads os).Perm (os.listThreads.takeWhile (· ≠ -1))
      ∧ (PerfEvents.startThreads os).Pairwise (· < ·) := by
  unfold PerfEvents.startThreads
  rw [hq]
  exact ⟨qsort_perm __intsort _, qsort_strict _ hnodup⟩

/-- How `start` can end: before the registration part, with one of the configuration outcomes
and the slots and the record of outside calls untouched, or through the registration part. -/
theorem PerfEvents.start_shape (env : Env) (os : Os) (s : PerfEvents) (args : Arguments) :
    ((s.start env os args).2._events = s._events ∧ (s.start env os args).2.calls = s.calls
        ∧ ((s.start env os args).1 = StartOutcome.fault
          ∨ (s.start env os args).1 = StartOutcome.error "Unsupported event type"
          ∨ (s.start env os args).1 = StartOutcome.error "Only arguments 1-4 can be counted"
          ∨ (s.start env os args).1 = StartOutcome.error "interval must be positive"
          ∨ (s.start env os args).1 = StartOutcome.error "Could not set pthread hook"))
      ∨ ∃ (s1 : PerfEvents) (idx : Nat), s1._events = s._events ∧ s1.calls = s.calls
          ∧ s1._max_events = s._max_events ∧ s1._event_type = some idx
          ∧ s.start env os args = s1.startRegistration os := by
  unfold PerfEvents.start
  generalize forName env s.resolver (args._event.getD os.EVENT_CPU) = r
  obtain ⟨o, st⟩ := r
  cases o with
  | fault => exact Or.inl ⟨rfl, rfl, Or.inl rfl⟩
  | null => exact Or.inl ⟨rfl, rfl, Or.inr (Or.inl rfl)⟩
  | found idx =>
    dsimp only
    by_cases h1 : (st.entry idx).counter_arg > 4
    · rw [if_pos h1]
      exact Or.inl ⟨rfl, rfl, Or.inr (Or.inr (Or.inl rfl))⟩
    · rw [if_neg h1]
      by_cases h2 : toInt32 (if args._event ≠ none ∧ args.eventIsCpu = false then args._interval
          else args.cpuSamplerInterval) < 0
      · rw [if_pos h2]
        exact Or.inl ⟨rfl, rfl, Or.inr (Or.inr (Or.inr (Or.inl rfl)))⟩
      · rw [if_neg h2]
        by_cases h3 : (if s._pthread_entry = none then os.lookupThreadEntry
            else s._pthread_entry) = none
        · rw [if_pos h3]
          exact Or.inl ⟨rfl, rfl, Or.inr (Or.inr (Or.inr (Or.inr rfl)))⟩
        · rw [if_neg h3]
          refine Or.inr ⟨_, idx, ?_, ?_, ?_, ?_, rfl⟩ <;> rfl

/-- The registration part of `start` ends with `Error::OK` when no `perf_event_open` fails
with an error other than `ESRCH`, whatever the order of the snapshot. -/
theorem PerfEvents.startRegistration_ok (os : Os) (s : PerfEvents) (idx : Nat)
    (het : s._event_type = some idx)
    (_hnodup : (os.listThreads.takeWhile (· ≠ -1)).Nodup)
    (_hnonneg : ∀ t ∈ os.listThreads.takeWhile (· ≠ -1), 0 ≤ t)
    (hos : ∀ n a t, (os.perf_event_open n a t).1 = -1 → (os.perf_event_open n a t).2 = ESRCH) :
    (s.startRegistration os).1 = StartOutcome.ok := by
  have hP0 : (s.startPrepared os)._max_events = (s.startPrepared os)._max_events
      ∧ (s.startPrepared os)._event_type = some idx := by
    refine ⟨rfl, ?_⟩
    unfold PerfEvents.startPrepared
    dsimp only
    split <;> exact het
  have hloop := (PerfEvents.startLoop_any os (PerfEvents.startThreads os)
    (s.startPrepared os)._max_events.toNat
    (fun s1 => s1._max_events = (s.startPrepared os)._max_events ∧ s1._event_type = some idx)
    (fun s1 tid _ _ h => by
      obtain ⟨hm, ht, _⟩ := s1.registerThread_effect os tid
      exact ⟨hm.trans h.1, ht.trans h.2⟩)
    (fun s1 tid _ _ h =>
      ⟨(s1.unregisterThread_max_events tid).trans h.1,
        (s1.unregisterThread_event_type tid).trans h.2⟩)
    (s.startPrepared os)._max_events.toNat 0 0 (s.startPrepared os) (le_refl _) (by omega)
    hP0).2
    (fun s1 tid h0 hlt h => by
      have hret := (s1.registerThread_effect os tid).2.2.2.2.2
      have hm1 := h.1
      rcases hret with e | ⟨_, e | e⟩ | ⟨n, a, e1, e2⟩
      · exact Or.inl e
      · exfalso
        clear hP0 h
        omega
      · rw [h.2] at e
        exact absurd e (by simp)
      · exact Or.inr (e2.trans (hos n a tid e1)))
  rw [PerfEvents.startRegistration_eq, if_neg (fun h => h hloop)]

/-- C13. In the registration loop of `start`, at a thread id of the snapshot: when
`registerThread` returns `ESRCH` the loop goes on with the next thread id and the next entry
of the snapshot; when it returns any other non-zero value the loop ends there, with that value
as `err` and the state as `registerThread` left it, so that no later thread is registered or
unregistered. After the loop, `err == 0` makes `start` return `Error::OK`; a non-zero `err`
makes it restore the thread-hook entry, call `switchThreadEvents(JVMTI_DISABLE)` and return
the message about access for `EACCES` and `EPERM` and "Perf events unavailable" otherwise.
`start` either ends before the registration with a configuration outcome or ends as this
registration part does; and when `perf_event_open` fails with no error other than `ESRCH`,
the registration part ends with `Error::OK`. -/
theorem start_registration_errors (os : Os) :
    (∀ (threads : List Int) (rounds : Nat) (tid : Int) (idx : Nat) (s : PerfEvents),
        idx < threads.length ∧ tid = threads.getD idx 0 →
        ((s.registerThread os tid).1 = ESRCH →
          PerfEvents.startLoop os threads (rounds + 1) tid idx s
            = PerfEvents.startLoop os threads rounds (tid + 1) (idx + 1)
                (s.registerThread os tid).2)
        ∧ ((s.registerThread os tid).1 ≠ 0 → (s.registerThread os tid).1 ≠ ESRCH →
          PerfEvents.startLoop os threads (rounds + 1) tid idx s
            = ((s.registerThread os tid).1, idx, (s.registerThread os tid).2)))
      ∧ (∀ (s1 : PerfEvents) (l : Int × Nat × PerfEvents),
          l = PerfEvents.startLoop os (PerfEvents.startThreads os)
                (s1.startPrepared os)._max_events.toNat 0 0 (s1.startPrepared os) →
          (l.1 = 0 → s1.startRegistration os = (StartOutcome.ok, l.2.2))
          ∧ (l.1 ≠ 0 →
              (s1.startRegistration os).2
                  = ({ l.2.2 with hooked := false } : PerfEvents).call
                      OsCall.switchThreadEvents_DISABLE
                ∧ (s1.startRegistration os).2.hooked = false
                ∧ (s1.startRegistration os).1
                  = StartOutcome.error
                      (if l.1 = EACCES ∨ l.1 = EPERM then
                        "No access to perf events. Try --all-user option or " ++
                          "\x27sysctl kernel.perf_event_paranoid=1\x27"
                      else "Perf events unavailable")))
      ∧ (∀ (env : Env) (s0 : PerfEvents) (args : Arguments),
          ((s0.start env os args).1 = StartOutcome.fault
            ∨ (s0.start env os args).1 = StartOutcome.error "Unsupported event type"
            ∨ (s0.start env os args).1 = StartOutcome.error "Only arguments 1-4 can be counted"
            ∨ (s0.start env os args).1 = StartOutcome.error "interval must be positive"
            ∨ (s0.start env os args).1 = StartOutcome.error "Could not set pthread hook")
          ∨ ∃ s1 : PerfEvents, s1._events = s0._events ∧ s1._event_type ≠ none
              ∧ s0.start env os args = s1.startRegistration os)
      ∧ (∀ (s1 : PerfEvents) (idx : Nat), s1._event_type = some idx →
          (os.listThreads.takeWhile (· ≠ -1)).Nodup →
          (∀ t ∈ os.listThreads.takeWhile (· ≠ -1), 0 ≤ t) →
          (∀ n a t, (os.perf_event_open n a t).1 = -1 → (os.perf_event_open n a t).2 = ESRCH) →
          (s1.startRegistration os).1 = StartOutcome.ok) := by
  refine ⟨fun threads rounds tid idx s hm => ⟨fun h => ?_, fun h1 h2 => ?_⟩,
    fun s1 l hl => ⟨fun h => ?_, fun h => ?_⟩, fun env s0 args => ?_,
    fun s1 idx het hn hnn hos => PerfEvents.startRegistration_ok os s1 idx het hn hnn hos⟩
  · have hb : ¬ ((s.registerThread os tid).1 ≠ 0 ∧ (s.registerThread os tid).1 ≠ ESRCH) :=
      fun hb => hb.2 h
    rw [PerfEvents.startLoop, if_pos hm]
    dsimp only
    rw [if_neg hb]
  · rw [PerfEvents.startLoop, if_pos hm]
    dsimp only
    rw [if_pos ⟨h1, h2⟩]
  · rw [PerfEvents.startRegistration_eq, ← hl, if_neg (fun hne => hne h)]
  · rw [PerfEvents.startRegistration_eq, ← hl, if_pos h]
    by_cases he : l.1 = EACCES ∨ l.1 = EPERM
    · rw [if_pos he, if_pos he]
      exact ⟨rfl, rfl, rfl⟩
    · rw [if_neg he, if_neg he]
      exact ⟨rfl, rfl, rfl⟩
  · rcases s0.start_shape env os args with ⟨_, _, h⟩ | ⟨s1, idx, he, _, _, het, hstart⟩
    · exact Or.inl h
    · exact Or.inr ⟨s1, he, by rw [het]; exact fun h => Option.noConfusion h, hstart⟩

set_option maxRecDepth 100000 in
/-- Witness of C13. With the threads 1 and 2 in the snapshot: when opening the counter of
thread 1 fails with `ESRCH`, `start` returns `Error::OK` and thread 2 has its counter; when it
fails with `EACCES`, `start` returns the message about access, thread 2 has no counter and
the thread hook is not left installed. -/
theorem start_registration_errors_witness :
    (PerfEvents.start exampleEnv exampleOsGone (PerfEvents.initial exampleEnv) cpuArgs).1
        = StartOutcome.ok
      ∧ ((PerfEvents.start exampleEnv exampleOsGone (PerfEvents.initial exampleEnv)
          cpuArgs).2.slot 1)._fd = 0
      ∧ ((PerfEvents.start exampleEnv exampleOsGone (PerfEvents.initial exampleEnv)
          cpuArgs).2.slot 2)._fd > 0
      ∧ (PerfEvents.start exampleEnv exampleOsRefused (PerfEvents.initial exampleEnv) cpuArgs).1
        = StartOutcome.error ("No access to perf events. Try --all-user option or " ++
            "\x27sysctl kernel.perf_event_paranoid=1\x27")
      ∧ ((PerfEvents.start exampleEnv exampleOsRefused (PerfEvents.initial exampleEnv)
          cpuArgs).2.slot 2)._fd = 0
      ∧ (PerfEvents.start exampleEnv exampleOsRefused (PerfEvents.initial exampleEnv)
          cpuArgs).2.hooked = false
      ∧ (({ PerfEvents.initial exampleEnv with _event_type := some 0 } :
          PerfEvents).startRegistration exampleOsGone).1 = StartOutcome.ok :=
  ⟨by decide, by decide, by decide, by decide, by decide, by decide,
    (start_registration_errors exampleOsGone).2.2.2
      { PerfEvents.initial exampleEnv with _event_type := some 0 } 0 rfl (by decide)
      (by decide) (fun n a t h => by
        by_cases ht : t = 1
        · simp [exampleOsGone, ht]
        · simp [exampleOsGone, ht] at h
          omega)⟩

/-- C20. For a thread id below the maximum whose slot is live, `unregisterThread` leaves the
slot with handle 0 and no ring page, and the outside calls it made are, in this order, the
disabling of that handle, its closing, and the unmapping of the ring page if there was one;
for a thread id at or above the maximum it changes nothing; and it never changes the slot of
another thread id. -/
theorem unregisterThread_spec (s : PerfEvents) (tid : Int) :
    (tid < s._max_events → (s.slot tid)._fd > 0 →
        ((s.unregisterThread tid).slot tid)._fd = 0
          ∧ ((s.unregisterThread tid).slot tid)._page = none
          ∧ (s.unregisterThread tid).calls
              = s.calls
                ++ [OsCall.ioctl_DISABLE (s.slot tid)._fd, OsCall.close (s.slot tid)._fd]
                ++ ((s.slot tid)._page.map OsCall.munmap).toList)
      ∧ (tid ≥ s._max_events → s.unregisterThread tid = s)
      ∧ (∀ t, t ≠ tid → (s.unregisterThread tid).slot t = s.slot t) := by
  refine ⟨fun hm hfd => ?_, fun hm => ?_, fun t ht => s.unregisterThread_other tid t ht⟩
  · obtain ⟨h1, h2, h3, _⟩ := s.unregisterThread_below tid hm
    rw [if_pos hfd] at h1 h2
    exact ⟨h2, h3, h1⟩
  · unfold PerfEvents.unregisterThread
    rw [if_pos hm]

set_option maxRecDepth 100000 in
/-- Witness of C20: after a `start` with the threads 1 and 2 alive, `unregisterThread(1)`
disables and closes the handle 1001 and unmaps the ring page. -/
theorem unregisterThread_spec_witness :
    ((startedExample.unregisterThread 1).slot 1)._fd = 0
      ∧ ((startedExample.unregisterThread 1).slot 1)._page = none
      ∧ (startedExample.unregisterThread 1).calls
          = startedExample.calls ++ [OsCall.ioctl_DISABLE 1001, OsCall.close 1001]
            ++ [OsCall.munmap 0x7000] :=
  (unregisterThread_spec startedExample 1).1 (by decide) (by decide)

/-! ## Theorems: atomic steps on one slot -/

/-- C12, the code at a failing interleaving. `registerThread(tid)` runs up to its successful
`__sync_bool_compare_and_swap(&_events[tid]._fd, -1, fd)`, which makes the slot live with the
descriptor 3; `unregisterThread(tid)` then runs to its end: it swaps the handle for 0,
disables and closes the descriptor 3; `registerThread` then goes on and stores the
descriptor into the slot again (`_events[tid]._fd = fd;`). Both callers have returned, the
only descriptor opened has been closed, and the slot holds it as its live handle. -/
theorem register_unregister_race :
    (registerUnregister.run exampleKernel
        [false, false, false, false, true, true, true, true, true,
          false, false, false, false, false]).first = Caller.register (RegisterPc.done 0)
      ∧ (registerUnregister.run exampleKernel
        [false, false, false, false, true, true, true, true, true,
          false, false, false, false, false]).second = Caller.unregister UnregisterPc.done
      ∧ (registerUnregister.run exampleKernel
        [false, false, false, false, true, true, true, true, true,
          false, false, false, false, false]).shared
        = { _fd := 3, _page := none, locked := false, opened := [3], closed := [3] }
      ∧ (registerUnregister.run exampleKernel
        [false, false, false, false, true, true, true, true, true,
          false, false, false, false, false]).shared.live = [] := by
  decide

theorem Race.run_mem (k : Kernel) (S : List Race)
    (hclosed : ∀ r ∈ S, ∀ who : Bool, r.step k who ∈ S) (schedule : List Bool) :
    ∀ r ∈ S, r.run k schedule ∈ S := by
  induction schedule with
  | nil => exact fun r hr => hr
  | cons who rest ih => exact fun r hr => ih (r.step k who) (hclosed r hr who)

set_option maxRecDepth 100000 in
/-- Two callers of `registerThread(tid)` on an unset slot, with a kernel that opens every
counter and with one that refuses every counter: in every interleaving of their steps, every
state reached is safe. -/
theorem two_registers_safe (schedule : List Bool) :
    (twoRegisters.run exampleKernel schedule).Safe
      ∧ (twoRegisters.run exampleKernelRefusing schedule).Safe := by
  have c1 : ∀ r ∈ Race.explore exampleKernel 40 [twoRegisters] [], ∀ who : Bool,
      r.step exampleKernel who ∈ Race.explore exampleKernel 40 [twoRegisters] [] := by decide
  have i1 : twoRegisters ∈ Race.explore exampleKernel 40 [twoRegisters] [] := by decide
  have s1 : ∀ r ∈ Race.explore exampleKernel 40 [twoRegisters] [], r.Safe := by decide
  have c2 : ∀ r ∈ Race.explore exampleKernelRefusing 40 [twoRegisters] [], ∀ who : Bool,
      r.step exampleKernelRefusing who
        ∈ Race.explore exampleKernelRefusing 40 [twoRegisters] [] := by decide
  have i2 : twoRegisters ∈ Race.explore exampleKernelRefusing 40 [twoRegisters] [] := by decide
  have s2 : ∀ r ∈ Race.explore exampleKernelRefusing 40 [twoRegisters] [], r.Safe := by decide
  exact ⟨s1 _ (Race.run_mem _ _ c1 schedule _ i1), s2 _ (Race.run_mem _ _ c2 schedule _ i2)⟩

/-! ## Theorems: `objectSampler.cpp` -/

/-- C14. `updateConfiguration` passes to `SetHeapSamplingInterval` only values that are not
below `_interval`; it calls it at most once, with the candidate `required_interval` (the
current interval minus the controller output, converted to `int`); and it does not call it
when the candidate is below `_interval` or when allocation recording is off. -/
theorem updateConfiguration_floor {σ F : Type} (env : SamplerEnv σ F) (o : ObjectSampler σ)
    (event_count : Int) :
    (∀ v ∈ (o.updateConfiguration env event_count).applied, v ≥ o._interval)
      ∧ (o._record_allocations = false → (o.updateConfiguration env event_count).applied = [])
      ∧ (∀ fed, (o.updateConfiguration env event_count).fed = [fed] →
          (env.minus env.sampling_interval (env.compute o.pid_controller fed).1 < o._interval →
            (o.updateConfiguration env event_count).applied = [])
          ∧ (env.minus env.sampling_interval (env.compute o.pid_controller fed).1 ≥ o._interval →
            (o.updateConfiguration env event_count).applied
              = [env.minus env.sampling_interval (env.compute o.pid_controller fed).1])) := by
  unfold ObjectSampler.updateConfiguration
  cases hr : o._record_allocations with
  | false =>
    refine ⟨fun v hv => absurd hv (List.not_mem_nil v), fun _ => rfl, fun fed hf => ?_⟩
    exact absurd hf (by simp)
  | true =>
    dsimp only
    refine ⟨fun v hv => ?_, fun h => absurd h (by simp), fun fed hf => ?_⟩
    · rw [if_pos rfl] at hv
      dsimp only at hv
      generalize env.minus env.sampling_interval _ = c at hv
      by_cases hc : c ≥ o._interval
      · rw [if_pos hc] at hv
        rw [List.mem_singleton.1 hv]
        exact hc
      · rw [if_neg hc] at hv
        exact absurd hv (List.not_mem_nil v)
    · rw [if_pos rfl] at hf ⊢
      dsimp only at hf ⊢
      have hfe := List.cons.inj hf
      rw [hfe.1]
      exact ⟨fun hlt => if_neg (not_le.2 hlt), fun hge => if_pos hge⟩

/-- C15 (amended). With allocation recording on and counts in the range of a non-negative
`long`, `updateConfiguration` feeds the control loop exactly once: with the current count
minus the count of the previous check when the current count is not below it, and with the
current count itself when it is below it (the previous count is then taken as 0); after the
call the remembered count is the current count. With allocation recording off it feeds
nothing and the remembered count stays. -/
theorem updateConfiguration_delta {σ F : Type} (env : SamplerEnv σ F) (o : ObjectSampler σ)
    (event_count : Int) (h0 : 0 ≤ event_count) (h1 : event_count < 2 ^ 63)
    (h2 : 0 ≤ o._last_event_count) :
    (o._record_allocations = true →
        (o.updateConfiguration env event_count).fed
            = [if event_count < o._last_event_count then event_count.toNat
                else (event_count - o._last_event_count).toNat]
          ∧ (o.updateConfiguration env event_count).sampler._last_event_count = event_count)
      ∧ (o._record_allocations = false →
        (o.updateConfiguration env event_count).fed = []
          ∧ (o.updateConfiguration env event_count).sampler._last_event_count
            = o._last_event_count) := by
  unfold ObjectSampler.updateConfiguration
  refine ⟨fun h => ?_, fun h => ?_⟩
  · rw [if_pos h]
    dsimp only
    refine ⟨?_, rfl⟩
    by_cases hc : event_count < o._last_event_count
    · rw [if_pos hc, if_pos hc]
      unfold toU64
      congr 1
      omega
    · rw [if_neg hc, if_neg hc]
      unfold toU64
      congr 1
      omega
  · rw [if_neg (by rw [h]; exact Bool.false_ne_true)]
    exact ⟨rfl, rfl⟩

/-- Witness of C15 (amended): 100 events seen before and 140 now feed 40 to the control
loop. -/
theorem updateConfiguration_delta_witness :
    ((exampleSampler true).updateConfiguration exampleSamplerEnv 140).fed = [40]
      ∧ ((exampleSampler true).updateConfiguration exampleSamplerEnv 140).sampler._last_event_count
        = 140 :=
  (updateConfiguration_delta exampleSamplerEnv (exampleSampler true) 140 (by decide) (by decide)
    (by decide)).1 rfl

/-- Counterexample to C15 as stated: with 100 events seen at the previous check and a current
count of 40, the value fed to the control loop is 40, not 0; and with allocation recording
off the remembered count stays 100 whatever the current count. -/
theorem updateConfiguration_reset_counterexample :
    ((exampleSampler true).updateConfiguration exampleSamplerEnv 40).fed = [40]
      ∧ ((exampleSampler false).updateConfiguration exampleSamplerEnv
          40).sampler._last_event_count = 100 := by
  decide

/-- Witness of C14: with the floor 1024, a reported interval of 524288 and a controller
output of 4, the call applies 524284. -/
theorem updateConfiguration_floor_witness :
    ((exampleSampler true).updateConfiguration exampleSamplerEnv 140).applied = [524284]
      ∧ ((exampleSampler false).updateConfiguration exampleSamplerEnv 140).applied = [] :=
  ⟨((updateConfiguration_floor exampleSamplerEnv (exampleSampler true) 140).2.2 40 rfl).2
      (by decide),
    (updateConfiguration_floor exampleSamplerEnv (exampleSampler false) 140).2.1 rfl⟩

/-! ## Theorems: one call of `updateCounter` -/

/-- C23. For a counter value `c` and a weight `w` whose sum does not overflow 64 bits, one
call of `updateCounter` by a single caller: for an interval greater than 1 and `c` below it,
the call returns true exactly when `c + w ≥ interval` and leaves the counter at
`(c + w) mod interval`, which is below the interval; for an interval of at most 1 it returns
true and leaves the counter as it was. -/
theorem updateCounter_single_call (c w interval : Nat) (hw : c + w < 2 ^ 64) :
    (1 < interval → c < interval →
      Engine.updateCounter c w interval
          = some (decide (interval ≤ c + w), (c + w) % interval)
        ∧ (c + w) % interval < interval)
    ∧ (interval ≤ 1 → Engine.updateCounter c w interval = some (true, c)) := by
  refine ⟨fun hi _ => ⟨?_, Nat.mod_lt _ (by omega)⟩, fun hi => ?_⟩
  · rw [Engine.updateCounter_single _ _ _ hi, Nat.mod_eq_of_lt hw]
    by_cases hlt : c + w < interval
    · rw [if_pos hlt, Nat.mod_eq_of_lt hlt, decide_eq_false (by omega)]
    · rw [if_neg hlt, decide_eq_true (by omega)]
  · rw [Engine.updateCounter, if_pos hi]

/-- Witness of C23: counter 3 and weight 19 under interval 10, and under interval 1. -/
theorem updateCounter_single_call_witness :
    Engine.updateCounter 3 19 10 = some (true, 2) ∧ (3 + 19) % 10 < 10
      ∧ Engine.updateCounter 3 19 1 = some (true, 3) :=
  ⟨((updateCounter_single_call 3 19 10 (by decide)).1 (by decide) (by decide)).1,
    ((updateCounter_single_call 3 19 10 (by decide)).1 (by decide) (by decide)).2,
    (updateCounter_single_call 3 19 1 (by decide)).2 (by decide)⟩

/-! ## Theorems: the comparison function of the thread snapshot -/

/-- C25, the code at the failing input. `__intsort` answers 1 when `a > b` and 0 otherwise: it
never answers a negative number, and for the ids 1 and 2 it answers 0, as it does for two
equal ids, although 1 is smaller than 2. -/
theorem intsort_not_three_way :
    (∀ a b : Int, __intsort a b = (if a > b then 1 else 0) ∧ 0 ≤ __intsort a b)
      ∧ __intsort 1 2 = 0 ∧ __intsort 2 2 = 0 ∧ __intsort 2 1 = 1 := by
  refine ⟨fun a b => ⟨rfl, ?_⟩, by decide, by decide, by decide⟩
  unfold __intsort
  split_ifs <;> decide

/-! ## Theorems: the access type of a breakpoint specifier -/

set_option maxRecDepth 100000 in
/-- C28, the code at the failing input. For `mem::w` the local copy is `:w`, its last colon is
its first character, and the access-type step reads the byte in front of the copy: with any
byte other than a colon there the access type is parsed and the name left is empty, with a
colon there nothing is parsed and the name left is `:w`; where a symbol of that name resolves,
`forName` returns the breakpoint entry in one case and `NULL` in the other. -/
theorem getBreakpoint_reads_before_buf :
    strrchr ":w".toList ':' = some 0
      ∧ (∀ env : Env, bpAccess env ":w".toList HW_BREAKPOINT_RW 1
          = if env.strayByte = ':' then (":w".toList, HW_BREAKPOINT_RW, 1)
            else ([], HW_BREAKPOINT_W, 1))
      ∧ (forName (exampleEnvStray ':') (Resolver.initial (exampleEnvStray ':'))
          "mem::w".toList).1 = Outcome.found IDX_BREAKPOINT
      ∧ (forName (exampleEnvStray 'a') (Resolver.initial (exampleEnvStray 'a'))
          "mem::w".toList).1 = Outcome.null := by
  refine ⟨by decide, fun env => ?_, by decide, by decide⟩
  have e : strrchr ":w".toList ':' = some 0 := by decide
  by_cases h : env.strayByte = ':'
  · simp only [bpAccess, e, if_true, h, ne_eq, not_true_eq_false, if_false]
  · simp only [bpAccess, e, if_true, h, ne_eq, not_false_eq_true, if_false]
    decide

/-! ## Theorems: the cursor invariant of `buffers.h` -/

theorem Buffer.push_data_get (b : Buffer) (x : Nat) (i : Nat) (h : (i : Int) ≠ b._offset) :
    (b.push x)._data[i]? = b._data[i]? := by
  unfold Buffer.push Buffer.poke
  dsimp only
  split
  · rename_i h0
    dsimp only
    rw [List.getElem?_set_ne]
    omega
  · rfl

theorem Buffer.push_data_length (b : Buffer) (x : Nat) :
    (b.push x)._data.length = b._data.length := by
  unfold Buffer.push Buffer.poke
  dsimp only
  split
  · simp
  · rfl

theorem Buffer.pushes_data_length (bs : List Nat) (b : Buffer) :
    (b.pushes bs)._data.length = b._data.length := by
  induction bs generalizing b with
  | nil => rfl
  | cons x bs ih => rw [Buffer.pushes_cons, ih, Buffer.push_data_length]

/-- Stores at the cursor leave every position outside the run of stores as it was. -/
theorem Buffer.pushes_data_get (bs : List Nat) (b : Buffer) (i : Nat)
    (h : (i : Int) < b._offset ∨ b._offset + bs.length ≤ (i : Int)) :
    (b.pushes bs)._data[i]? = b._data[i]? := by
  induction bs generalizing b with
  | nil => rfl
  | cons x bs ih =>
    have ho : (b.push x)._offset = b._offset + 1 := rfl
    rw [Buffer.pushes_cons, ih (b.push x), Buffer.push_data_get]
    · simp only [List.length_cons, Nat.cast_add, Nat.cast_one] at h
      omega
    · rw [ho]
      simp only [List.length_cons, Nat.cast_add, Nat.cast_one] at h
      omega

/-- A run of stores at the cursor that ends below the limit keeps the cursor invariant. -/
theorem Buffer.pushes_within (bs : List Nat) (b : Buffer)
    (hc : b._offset + bs.length ≤ b.limit) : b.Within (b.pushes bs) := by
  refine ⟨Buffer.pushes_limit b bs, Buffer.pushes_data_length bs b, ?_, ?_, fun i hi => ?_⟩
  · rw [Buffer.pushes_offset]; omega
  · rw [Buffer.pushes_offset]; exact hc
  · rw [Buffer.pushes_offset] at hi
    exact Buffer.pushes_data_get bs b i hi

theorem memoryBytes_length (littleEndian : Bool) (n v : Nat) :
    (memoryBytes littleEndian n v).length = n := by
  unfold memoryBytes
  split
  · exact leBytes_length n v
  · rw [List.length_reverse]; exact leBytes_length n v

theorem varBytes_pos (fuel v : Nat) : 1 ≤ (varBytes (fuel + 1) v).length := by
  simp only [varBytes]
  split <;> simp

theorem threeCont_append_pos (v : Nat) (l : List Nat) : 1 ≤ (threeCont v ++ l).length := by
  simp [threeCont]

theorem putVar64Bytes_pos (v : Nat) : 1 ≤ (putVar64Bytes v).length := by
  rw [putVar64Bytes_cases v _ rfl]
  split_ifs
  · exact threeCont_append_pos _ _
  · exact threeCont_append_pos _ _
  · exact threeCont_append_pos _ _
  · exact varBytes_pos 63 _

/-- A fixed-width store followed by the move of the cursor past it. -/
theorem Buffer.storeAt_within (b : Buffer) (bs : List Nat) (k : Int) (hk : k = bs.length)
    (hc : b._offset + k < b.limit) :
    b.Within { b.storeAt bs with _offset := b._offset + k }
      ∧ ({ b.storeAt bs with _offset := b._offset + k } : Buffer)._offset = b._offset + k := by
  refine ⟨?_, rfl⟩
  rw [Buffer.storeAt_pushes b bs k hk]
  exact Buffer.pushes_within bs b (by omega)

/-- C30 (amended). From any state of a buffer with `0 ≤ _offset ≤ limit()`, every
cursor-advancing operation whose capacity assertion holds (the operation returns) leaves the
limit and all bytes outside `[old cursor, new cursor)` as they were and ends with the cursor
at most at the limit: `put8`, `put16`, `put32`, `put64` advance by 1, 2, 4, 8, `putVar32` by
1 to 5, `putVar64` by 1 to 9, `skip` with a non-negative delta by the delta without a store,
and `put` by `len` provided the sum `_offset + len` does not wrap in `unsigned int`. -/
theorem cursor_invariant (b : Buffer) (h0 : 0 ≤ b._offset) (hl : b._offset ≤ b.limit)
    (hi : b.limit < 2 ^ 31) :
    (∀ v b1, b.put8 v = some b1 → b.Within b1 ∧ b1._offset = b._offset + 1)
    ∧ (∀ e v b1, b.put16 e v = some b1 → b.Within b1 ∧ b1._offset = b._offset + 2)
    ∧ (∀ e v b1, b.put32 e v = some b1 → b.Within b1 ∧ b1._offset = b._offset + 4)
    ∧ (∀ e v b1, b.put64 e v = some b1 → b.Within b1 ∧ b1._offset = b._offset + 8)
    ∧ (∀ v b1, b.putVar32 v = some b1 →
        b.Within b1 ∧ b._offset + 1 ≤ b1._offset ∧ b1._offset ≤ b._offset + 5)
    ∧ (∀ v b1, b.putVar64 v = some b1 →
        b.Within b1 ∧ b._offset + 1 ≤ b1._offset ∧ b1._offset ≤ b._offset + 9)
    ∧ (∀ (v : List Nat) (len : Nat) b1, b._offset + (len : Int) < 2 ^ 32 →
        b.put v len = some b1 →
        b.Within b1 ∧ b1._offset = b._offset + len)
    ∧ (∀ delta r b1, 0 ≤ delta → b.skip delta = some (r, b1) →
        b.Within b1 ∧ r = b._offset ∧ b1._offset = b._offset + delta ∧ b1._data = b._data) := by
  refine ⟨?_, ?_, ?_, ?_, ?_, ?_, ?_, ?_⟩
  · intro v b1 h
    unfold Buffer.put8 at h
    split_ifs at h with hc
    cases h
    exact ⟨Buffer.pushes_within [v] b (by simp only [List.length_singleton]; omega), rfl⟩
  · intro e v b1 h
    unfold Buffer.put16 at h
    split_ifs at h with hc
    cases h
    exact Buffer.storeAt_within b _ 2 (by rw [memoryBytes_length]; rfl) hc
  · intro e v b1 h
    unfold Buffer.put32 at h
    split_ifs at h with hc
    cases h
    exact Buffer.storeAt_within b _ 4 (by rw [memoryBytes_length]; rfl) hc
  · intro e v b1 h
    unfold Buffer.put64 at h
    split_ifs at h with hc
    cases h
    exact Buffer.storeAt_within b _ 8 (by rw [memoryBytes_length]; rfl) hc
  · intro v b1 h
    unfold Buffer.putVar32 at h
    split_ifs at h with hc
    cases h
    rw [Buffer.putVarLoop_eq]
    have hlen : (varBytes 32 (v % 2 ^ 32)).length ≤ 5 :=
      varBytes_length 32 4 _ (lt_of_lt_of_le (Nat.mod_lt _ (by norm_num)) (by norm_num))
    have hpos : 1 ≤ (varBytes 32 (v % 2 ^ 32)).length := varBytes_pos 31 (v % 2 ^ 32)
    refine ⟨Buffer.pushes_within _ b (by omega), ?_, ?_⟩ <;> rw [Buffer.pushes_offset] <;> omega
  · intro v b1 h
    rw [Buffer.putVar64_eq] at h
    split_ifs at h with hc
    cases h
    have hlen := putVar64Bytes_length v
    have hpos := putVar64Bytes_pos v
    refine ⟨Buffer.pushes_within _ b (by omega), ?_, ?_⟩ <;> rw [Buffer.pushes_offset] <;> omega
  · intro v len b1 hw h
    unfold Buffer.put at h
    split_ifs at h with hc
    cases h
    have hlen : len % 2 ^ 32 = len := Nat.mod_eq_of_lt (by omega)
    rw [hlen] at hc ⊢
    have hc1 : b._offset + (len : Int) < b.limit := by omega
    have h32 : toInt32 (len : Int) = len := by unfold toInt32; omega
    have htk : ((v.take len).length : Int) ≤ len := by
      rw [List.length_take]; omega
    refine ⟨⟨Buffer.pushes_limit b _, Buffer.pushes_data_length _ b, ?_, ?_, fun i hi => ?_⟩, ?_⟩
    · show b._offset ≤ b._offset + toInt32 (len : Int)
      omega
    · show b._offset + toInt32 (len : Int) ≤ b.limit
      omega
    · have hi1 : (i : Int) < b._offset ∨ b._offset + toInt32 (len : Int) ≤ (i : Int) := hi
      exact Buffer.pushes_data_get _ b i (by omega)
    · show b._offset + toInt32 (len : Int) = b._offset + len
      omega
  · intro delta r b1 hd h
    unfold Buffer.skip at h
    split_ifs at h with hc
    cases h
    refine ⟨⟨rfl, rfl, ?_, ?_, fun _ _ => rfl⟩, rfl, rfl, rfl⟩
    · show b._offset ≤ b._offset + delta
      omega
    · show b._offset + delta ≤ b.limit
      omega

set_option maxRecDepth 100000 in
/-- Witness of C30: on a fresh buffer over zeroed memory `putVar32(300)` and `put` of three
bytes return, and the invariant holds of both. -/
theorem cursor_invariant_witness :
    (∃ b1, zeroBuffer.putVar32 300 = some b1 ∧ zeroBuffer.Within b1
      ∧ zeroBuffer._offset + 1 ≤ b1._offset ∧ b1._offset ≤ zeroBuffer._offset + 5)
    ∧ (∃ b1, zeroBuffer.put [1, 2, 3] 3 = some b1 ∧ zeroBuffer.Within b1
      ∧ b1._offset = zeroBuffer._offset + (3 : Nat)) :=
  ⟨⟨_, rfl, (cursor_invariant zeroBuffer (by decide) (by decide) (by decide)).2.2.2.2.1
      300 _ rfl⟩,
    ⟨_, rfl, (cursor_invariant zeroBuffer (by decide) (by decide) (by decide)).2.2.2.2.2.2.1
      [1, 2, 3] 3 _ (by decide) rfl⟩⟩

set_option maxRecDepth 100000 in
/-- Counterexample to C30 as stated: with the cursor at 10 in a buffer of limit 1020, `put` of
the bytes 1, 2, 3 with `len = 2 ^ 32 - 5` passes its assertion, because `_offset + len` wraps
to 5 in `unsigned int`; the byte at position 10 is overwritten and the cursor ends at 5, before
where it was. -/
theorem put_wrapping_counterexample :
    0 ≤ zeroBufferAt10._offset ∧ zeroBufferAt10._offset ≤ zeroBufferAt10.limit
      ∧ zeroBufferAt10._data[10]? = some 0
      ∧ ∃ b1, zeroBufferAt10.put [1, 2, 3] (2 ^ 32 - 5) = some b1 ∧ b1._offset = 5
          ∧ b1._data[10]? = some 1 :=
  ⟨by decide, by decide, by decide, _, rfl, by decide, by decide⟩

/-! ## Theorems: the headroom above the flush low-water mark -/

theorem longestString_length : longestString.length = 8191 :=
  List.length_replicate 8191 65

/-- The number of bytes that `putVar32` writes for a string length below `2 ^ 14`. -/
theorem varBytes_length_two (n : Nat) (h : n < 2 ^ 14) : (varBytes 32 n).length ≤ 2 :=
  varBytes_length 32 1 n (by norm_num at h ⊢; omega)

theorem varBytes_length_8191 : (varBytes 32 8191).length = 2 := by decide

/-- When the last of the three assertions of `putUtf8(v, len)` fails, so does the call. -/
theorem Buffer.putUtf8Len_none (b : Buffer) (s : List Nat) (n : Nat) (hn31 : n < 2 ^ 31)
    (h0 : 0 ≤ b._offset) (hi : b.limit < 2 ^ 31)
    (hc : b.limit ≤ b._offset + 1 + (varBytes 32 n).length + n) :
    b.putUtf8Len s n = none := by
  have hmod : n % 2 ^ 32 = n := Nat.mod_eq_of_lt (lt_trans hn31 (by norm_num))
  have hk : (varBytes 32 n).length ≤ 5 :=
    varBytes_length 32 4 n (lt_trans hn31 (by norm_num))
  unfold Buffer.putUtf8Len
  by_cases h1 : b._offset < b.limit
  · have e1 : b.put8 3 = some (b.pushes [3]) := by
      unfold Buffer.put8
      rw [if_pos h1]
      rfl
    rw [e1]
    dsimp only
    have o1 : (b.pushes [3])._offset = b._offset + 1 := by
      rw [Buffer.pushes_offset]; rfl
    have l1 : (b.pushes [3]).limit = b.limit := Buffer.pushes_limit _ _
    by_cases h2 : b._offset + 1 + 5 < b.limit
    · have e2 : (b.pushes [3]).putVar32 n = some ((b.pushes [3]).pushes (varBytes 32 n)) := by
        unfold Buffer.putVar32
        rw [if_pos (by rw [o1, l1]; exact h2), Buffer.putVarLoop_eq, hmod]
      rw [e2]
      dsimp only
      unfold Buffer.put
      rw [hmod, Buffer.pushes_offset, Buffer.pushes_limit, o1, l1]
      rw [if_neg (by omega)]
    · have e2 : (b.pushes [3]).putVar32 n = none := by
        unfold Buffer.putVar32
        rw [if_neg (by rw [o1, l1]; exact h2)]
      rw [e2]
  · have e1 : b.put8 3 = none := by
      unfold Buffer.put8
      rw [if_neg h1]
    rw [e1]

/-- C22 (amended). With the cursor at most at the default low-water mark (896 in a `Buffer`
of limit 1020; 61440 in a `RecordingBuffer` of limit `65536 - sizeof(Buffer)`, for a
`sizeof(Buffer)` between 1024 and 4086), the capacity assertion of every fixed-width and
variable-length integer write holds, and so does that of `putUtf8` for a string of at most
121 bytes in a `Buffer` and of at most `4092 - sizeof(Buffer)` bytes in a `RecordingBuffer`.
A string of 8191 bytes or more fails the assertion in a `Buffer` at every cursor position,
and in a `RecordingBuffer` at every cursor position from `57342 - sizeof(Buffer)` on, the
low-water mark included. -/
theorem low_water_headroom (b : Buffer) (h0 : 0 ≤ b._offset) (sizeofBuffer : Int)
    (hs : 1024 ≤ sizeofBuffer) (hs1 : sizeofBuffer ≤ 4086)
    (hb : (b.limit = Buffer._limit ∧ b._offset ≤ BUFFER_LIMIT)
      ∨ (b.limit = RecordingBuffer._limit sizeofBuffer ∧ b._offset ≤ RECORDING_BUFFER_LIMIT)) :
    (∀ v, (b.put8 v).isSome) ∧ (∀ e v, (b.put16 e v).isSome) ∧ (∀ e v, (b.put32 e v).isSome)
    ∧ (∀ e v, (b.put64 e v).isSome) ∧ (∀ v, (b.putVar32 v).isSome)
    ∧ (∀ v, (b.putVar64 v).isSome)
    ∧ (∀ s : List Nat, (b.limit = Buffer._limit ∧ s.length ≤ 121)
          ∨ (b.limit = RecordingBuffer._limit sizeofBuffer
              ∧ (s.length : Int) ≤ 4092 - sizeofBuffer) →
        (b.putUtf8 (some s)).isSome)
    ∧ (∀ s : List Nat, 8191 ≤ s.length →
        b.limit = Buffer._limit
          ∨ (b.limit = RecordingBuffer._limit sizeofBuffer
              ∧ 57342 - sizeofBuffer ≤ b._offset) →
        b.putUtf8 (some s) = none) := by
  simp only [Buffer._limit, RecordingBuffer._limit, BUFFER_LIMIT, BUFFER_SIZE,
    RECORDING_BUFFER_LIMIT, RECORDING_BUFFER_SIZE]
  simp only [Buffer._limit, RecordingBuffer._limit, BUFFER_LIMIT, BUFFER_SIZE,
    RECORDING_BUFFER_LIMIT, RECORDING_BUFFER_SIZE] at hb
  have hroom : b._offset + 10 ≤ b.limit := by omega
  have hi : b.limit < 2 ^ 31 := by omega
  refine ⟨?_, ?_, ?_, ?_, ?_, ?_, ?_, ?_⟩
  · intro v
    unfold Buffer.put8
    rw [if_pos (by omega)]; rfl
  · intro e v
    unfold Buffer.put16
    rw [if_pos (by omega)]; rfl
  · intro e v
    unfold Buffer.put32
    rw [if_pos (by omega)]; rfl
  · intro e v
    unfold Buffer.put64
    rw [if_pos (by omega)]; rfl
  · intro v
    unfold Buffer.putVar32
    rw [if_pos (by omega)]; rfl
  · intro v
    rw [Buffer.putVar64_eq, if_pos (by omega)]; rfl
  · intro s hsl
    have hk := varBytes_length_two s.length (by norm_num; omega)
    have hk1 : s.length < 128 → (varBytes 32 s.length).length ≤ 1 := fun h =>
      varBytes_length 32 0 s.length (by norm_num; exact h)
    have hlt : s.length < 8191 := by omega
    unfold Buffer.putUtf8
    dsimp only
    rw [if_pos (by unfold MAX_STRING_LENGTH; exact hlt)]
    rw [Buffer.putUtf8Len_eq b s s.length le_rfl (by omega) h0 hi (by omega)
      (by by_cases h128 : s.length < 128
          · have := hk1 h128
            omega
          · omega)]
    rfl
  · intro s hsl hcase
    unfold Buffer.putUtf8
    dsimp only
    rw [if_neg (by unfold MAX_STRING_LENGTH; omega)]
    apply Buffer.putUtf8Len_none b s MAX_STRING_LENGTH (by unfold MAX_STRING_LENGTH; norm_num)
      h0 hi
    unfold MAX_STRING_LENGTH
    rw [varBytes_length_8191]
    omega

set_option maxRecDepth 100000 in
/-- Witness of C22: a fresh `Buffer` takes `putVar64` and the string `AB`, and refuses a string
of 8191 bytes. -/
theorem low_water_headroom_witness :
    (zeroBuffer.putVar64 5).isSome ∧ (zeroBuffer.putUtf8 (some [65, 66])).isSome
      ∧ zeroBuffer.putUtf8 (some longestString) = none :=
  ⟨(low_water_headroom zeroBuffer (by decide) 1032 (by decide) (by decide)
      (Or.inl ⟨rfl, by decide⟩)).2.2.2.2.2.1 5,
    (low_water_headroom zeroBuffer (by decide) 1032 (by decide) (by decide)
      (Or.inl ⟨rfl, by decide⟩)).2.2.2.2.2.2.1 [65, 66] (Or.inl ⟨rfl, by decide⟩),
    (low_water_headroom zeroBuffer (by decide) 1032 (by decide) (by decide)
      (Or.inl ⟨rfl, by decide⟩)).2.2.2.2.2.2.2 longestString
      (le_of_eq longestString_length.symm) (Or.inl rfl)⟩

/-- Counterexample to C22 as stated: with the cursor at the low-water mark, 0 ≤ 896 in a fresh
`Buffer` and 61440 in a `RecordingBuffer`, `putUtf8` of a string of the maximum length 8191
fails its capacity assertion. -/
theorem putUtf8_longest_counterexample :
    zeroBuffer._offset ≤ BUFFER_LIMIT ∧ zeroBuffer.limit = Buffer._limit
      ∧ recordingBufferAtMark._offset ≤ RECORDING_BUFFER_LIMIT
      ∧ recordingBufferAtMark.limit = RecordingBuffer._limit 1032
      ∧ longestString.length = MAX_STRING_LENGTH
      ∧ zeroBuffer.putUtf8 (some longestString) = none
      ∧ recordingBufferAtMark.putUtf8 (some longestString) = none := by
  have hz : zeroBuffer.putUtf8 (some longestString) = none := by
    unfold Buffer.putUtf8
    dsimp only
    rw [longestString_length, if_neg (by decide)]
    exact Buffer.putUtf8Len_none _ _ _ (by decide) (by decide) (by decide)
      (by unfold MAX_STRING_LENGTH; rw [varBytes_length_8191]; decide)
  have hr : recordingBufferAtMark.putUtf8 (some longestString) = none := by
    unfold Buffer.putUtf8
    dsimp only
    rw [longestString_length, if_neg (by decide)]
    exact Buffer.putUtf8Len_none _ _ _ (by decide) (by decide) (by decide)
      (by unfold MAX_STRING_LENGTH; rw [varBytes_length_8191]; decide)
  exact ⟨by decide, rfl, by decide, rfl, longestString_length, hz, hr⟩

/-! ## Theorems: the three states of a slot -/

theorem PerfEvents.attrFor_setSlot (os : Os) (s : PerfEvents) (tid : Int) (e : PerfEvent)
    (x : PerfEventType) : (s.setSlot tid e).attrFor os x = s.attrFor os x := by
  unfold PerfEvents.setSlot
  split <;> rfl

theorem PerfEvents.resolver_setSlot (s : PerfEvents) (tid : Int) (e : PerfEvent) :
    (s.setSlot tid e).resolver = s.resolver := by
  unfold PerfEvents.setSlot
  split <;> rfl

/-- The handle that `registerThread(tid)` leaves in the slot of `tid`: the one it found, 0, or
a descriptor other than -1 answered by `perf_event_open`. -/
theorem PerfEvents.registerThread_handle (os : Os) (s : PerfEvents) (tid : Int) :
    ((s.registerThread os tid).2.slot tid)._fd = (s.slot tid)._fd
      ∨ ((s.registerThread os tid).2.slot tid)._fd = 0
      ∨ ∃ n a, (os.perf_event_open n a tid).1 ≠ -1
          ∧ ((s.registerThread os tid).2.slot tid)._fd = (os.perf_event_open n a tid).1 := by
  unfold PerfEvents.registerThread
  by_cases h1 : s._max_events = -1
  · rw [if_pos h1]; exact Or.inl rfl
  rw [if_neg h1]
  by_cases h2 : tid ≥ s._max_events
  · rw [if_pos h2]; exact Or.inl rfl
  rw [if_neg h2]
  by_cases h3 : (s.slot tid)._fd > 0
  · rw [if_pos h3]; exact Or.inl rfl
  rw [if_neg h3]
  split
  · exact Or.inl rfl
  rename_i event_type he
  by_cases h4 : (s.slot tid)._fd ≠ 0
  · rw [if_pos h4]; exact Or.inl rfl
  rw [if_neg h4]
  dsimp only
  generalize hs1 : s.setSlot tid { s.slot tid with _fd := -1 } = s1
  generalize hattr : s1.attrFor os (s1.resolver.entry event_type) = attr
  by_cases h5 : (os.perf_event_open s1.calls.length attr tid).1 = -1
  · rw [if_pos h5]
    rcases PerfEvents.slot_setSlot_fd
      (s1.call (OsCall.perf_event_open attr tid (os.perf_event_open s1.calls.length attr tid).1))
      tid { (s1.call (OsCall.perf_event_open attr tid
        (os.perf_event_open s1.calls.length attr tid).1)).slot tid with _fd := 0 } with h | h
    · exact Or.inr (Or.inl h)
    · exact Or.inr (Or.inl h)
  rw [if_neg h5]
  have hopen : ∃ n a, (os.perf_event_open n a tid).1 ≠ -1
      ∧ (os.perf_event_open s1.calls.length attr tid).1 = (os.perf_event_open n a tid).1 :=
    ⟨_, _, h5, rfl⟩
  generalize hfd : (os.perf_event_open s1.calls.length attr tid).1 = fd at hopen h5 ⊢
  generalize hs2 : s1.call (OsCall.perf_event_open attr tid fd) = s2
  have f2 : (s2.slot tid)._fd = -1 ∨ (s2.slot tid)._fd = 0 := by
    rw [← hs2, PerfEvents.slot_call, ← hs1]
    exact PerfEvents.slot_setSlot_fd _ _ _
  by_cases h6 : (s2.slot tid)._fd ≠ -1
  · rw [if_pos h6, PerfEvents.slot_call]
    rcases f2 with h | h
    · exact absurd h h6
    · exact Or.inr (Or.inl h)
  rw [if_neg h6]
  have h7 : (s2.slot tid)._fd = -1 := not_not.1 h6
  have hr := s2.slot_range tid (by rw [h7]; decide)
  dsimp only
  generalize hs3 : s2.setSlot tid { s2.slot tid with _fd := fd } = s3
  have l3 : s3._events.length = s2._events.length := by
    rw [← hs3, PerfEvents.setSlot_length]
  generalize hpage : (if s3._ring &&& os.RING_KERNEL ≠ 0 then
      if s3._use_mmap_page = true then
        (os.mmap s3.calls.length fd, s3.call (OsCall.mmap fd (os.mmap s3.calls.length fd)))
      else (none, s3)
    else (none, s3)) = page
  have l4 : page.2._events.length = s2._events.length := by
    rw [← hpage]
    split_ifs
    · rw [PerfEvents.call_events, l3]
    · exact l3
    · exact l3
  simp only [PerfEvents.slot_call]
  rw [PerfEvents.slot_setSlot_self _ _ _ hr.1 (by rw [l4]; exact hr.2)]
  exact Or.inr (Or.inr hopen)

/-- A call of `registerThread(tid)` on an unset slot inside the array, in a started state with
a descriptor selected: what it returns and the handle it leaves, by the answer of
`perf_event_open`. -/
theorem PerfEvents.registerThread_unset (os : Os) (s : PerfEvents) (tid : Int)
    (event_type : Nat) (h1 : s._max_events ≠ -1) (h2 : tid < s._max_events) (h0 : 0 ≤ tid)
    (hin : tid.toNat < s._events.length) (hfd : (s.slot tid)._fd = 0)
    (he : s._event_type = some event_type) :
    ((s.openAnswer os tid event_type).1 = -1 →
        (s.registerThread os tid).1 = (s.openAnswer os tid event_type).2
          ∧ ((s.registerThread os tid).2.slot tid)._fd = 0)
      ∧ ((s.openAnswer os tid event_type).1 ≠ -1 →
        (s.registerThread os tid).1 = 0
          ∧ ((s.registerThread os tid).2.slot tid)._fd = (s.openAnswer os tid event_type).1) := by
  unfold PerfEvents.openAnswer PerfEvents.registerThread
  rw [if_neg h1, if_neg (not_le.2 h2), if_neg (by rw [hfd]; decide), he]
  dsimp only
  rw [if_neg (not_not.2 hfd)]
  rw [PerfEvents.attrFor_setSlot, PerfEvents.resolver_setSlot, PerfEvents.setSlot_calls]
  generalize hs1 : s.setSlot tid { s.slot tid with _fd := -1 } = s1
  generalize hattr : s.attrFor os (s.resolver.entry event_type) = attr
  have l1 : s1._events.length = s._events.length := by
    rw [← hs1, PerfEvents.setSlot_length]
  have f1 : (s1.slot tid)._fd = -1 := by
    rw [← hs1, PerfEvents.slot_setSlot_self _ _ _ h0 hin]
  refine ⟨fun h5 => ?_, fun h5 => ?_⟩
  · rw [if_pos h5]
    refine ⟨rfl, ?_⟩
    dsimp only
    rw [PerfEvents.slot_setSlot_self _ _ _ h0 (by rw [PerfEvents.call_events, l1]; exact hin)]
  · rw [if_neg h5, if_neg (by rw [PerfEvents.slot_call, f1]; decide)]
    refine ⟨rfl, ?_⟩
    dsimp only
    generalize hfd1 : (os.perf_event_open s.calls.length attr tid).1 = fd
    generalize hs2 : s1.call (OsCall.perf_event_open attr tid fd) = s2
    have l2 : s2._events.length = s._events.length := by
      rw [← hs2, PerfEvents.call_events, l1]
    generalize hs3 : s2.setSlot tid { s2.slot tid with _fd := fd } = s3
    have l3 : s3._events.length = s._events.length := by
      rw [← hs3, PerfEvents.setSlot_length, l2]
    generalize hpage : (if s3._ring &&& os.RING_KERNEL ≠ 0 then
        if s3._use_mmap_page = true then
          (os.mmap s3.calls.length fd, s3.call (OsCall.mmap fd (os.mmap s3.calls.length fd)))
        else (none, s3)
      else (none, s3)) = page
    have l4 : page.2._events.length = s._events.length := by
      rw [← hpage]
      split_ifs
      · rw [PerfEvents.call_events, l3]
      · exact l3
      · exact l3
    simp only [PerfEvents.slot_call]
    rw [PerfEvents.slot_setSlot_self _ _ _ h0 (by rw [l4]; exact hin)]

/-- The handle that `unregisterThread(tid)` leaves in the slot of `tid`. -/
theorem PerfEvents.unregisterThread_handle (s : PerfEvents) (tid : Int) :
    ((s.unregisterThread tid).slot tid)._fd = (s.slot tid)._fd
      ∨ ((s.unregisterThread tid).slot tid)._fd = 0 := by
  by_cases hm : tid < s._max_events
  · rw [(PerfEvents.unregisterThread_below s tid hm).2.1]
    split_ifs
    · exact Or.inr rfl
    · exact Or.inl rfl
  · unfold PerfEvents.unregisterThread
    rw [if_pos (not_lt.1 hm)]
    exact Or.inl rfl

/-- One completed call keeps every handle at 0 or above 0, when `perf_event_open` answers -1
or a descriptor, which is not negative. -/
theorem PerfEvents.perform_handles (os : Os)
    (hos : ∀ n a t, -1 ≤ (os.perf_event_open n a t).1)
    (s : PerfEvents) (c : ThreadCall) (h : ∀ t, 0 ≤ (s.slot t)._fd) (t : Int) :
    0 ≤ ((s.perform os c).slot t)._fd := by
  cases c with
  | register tid =>
    show 0 ≤ ((s.registerThread os tid).2.slot t)._fd
    by_cases ht : t = tid
    · rw [ht]
      rcases PerfEvents.registerThread_handle os s tid with e | e | ⟨n, a, hne, e⟩
      · rw [e]; exact h tid
      · rw [e]
      · rw [e]
        have := hos n a tid
        omega
    · rw [(PerfEvents.registerThread_effect os s tid).2.2.1 t ht]
      exact h t
  | unregister tid =>
    show 0 ≤ ((s.unregisterThread tid).slot t)._fd
    by_cases ht : t = tid
    · rw [ht]
      rcases PerfEvents.unregisterThread_handle s tid with e | e
      · rw [e]; exact h tid
      · rw [e]
    · rw [PerfEvents.unregisterThread_other s tid t ht]
      exact h t

theorem PerfEvents.performAll_handles (os : Os)
    (hos : ∀ n a t, -1 ≤ (os.perf_event_open n a t).1)
    (cs : List ThreadCall) (s : PerfEvents) (h : ∀ t, 0 ≤ (s.slot t)._fd) (t : Int) :
    0 ≤ ((s.performAll os cs).slot t)._fd := by
  induction cs generalizing s t with
  | nil => exact h t
  | cons c cs ih =>
    exact ih (s.perform os c) (fun t => PerfEvents.perform_handles os hos s c h t) t

theorem unsetExample_slot (t : Int) : (unsetExample.slot t)._fd = 0 := by
  unfold PerfEvents.slot unsetExample
  split
  · dsimp only
    rw [List.getD_eq_getElem?_getD]
    rw [List.getElem?_replicate]
    split <;> rfl
  · rfl

/-- C24 (amended). Where `perf_event_open` answers -1 or a descriptor, which is not negative:
from an array of unset slots, after every sequence of completed, non-overlapping
`registerThread` and `unregisterThread` calls the handle of every slot is 0 (unset) or above
0 (live), never the marker -1. A `registerThread` call that finds its slot unset, in a
started state with an event selected, returns `errno` and ends with the slot unset again
when opening failed (the answer -1); otherwise it returns 0 and ends with the descriptor in
the slot, so that the slot is live when the descriptor is above 0 and reads as unset,
although the counter is open, when the descriptor is 0. -/
theorem slot_protocol (os : Os)
    (hos : ∀ n a t, -1 ≤ (os.perf_event_open n a t).1)
    (s0 : PerfEvents) (hunset : ∀ t, (s0.slot t)._fd = 0) :
    (∀ (cs : List ThreadCall) (t : Int),
        ((s0.performAll os cs).slot t)._fd = 0 ∨ 0 < ((s0.performAll os cs).slot t)._fd)
    ∧ (∀ (s : PerfEvents) (tid : Int) (event_type : Nat),
        s._max_events ≠ -1 → tid < s._max_events → 0 ≤ tid → tid.toNat < s._events.length →
        (s.slot tid)._fd = 0 → s._event_type = some event_type →
          ((s.openAnswer os tid event_type).1 = -1 →
            (s.registerThread os tid).1 = (s.openAnswer os tid event_type).2
              ∧ ((s.registerThread os tid).2.slot tid)._fd = 0)
          ∧ ((s.openAnswer os tid event_type).1 ≠ -1 →
            (s.registerThread os tid).1 = 0
              ∧ ((s.registerThread os tid).2.slot tid)._fd
                  = (s.openAnswer os tid event_type).1)
          ∧ (0 < (s.openAnswer os tid event_type).1 →
            0 < ((s.registerThread os tid).2.slot tid)._fd)
          ∧ ((s.openAnswer os tid event_type).1 = 0 →
            ((s.registerThread os tid).2.slot tid)._fd = 0)) := by
  refine ⟨fun cs t => ?_, fun s tid event_type h1 h2 h0 hin hfd he => ?_⟩
  · have := PerfEvents.performAll_handles os hos cs s0 (fun t => by rw [hunset t]) t
    omega
  · have h := PerfEvents.registerThread_unset os s tid event_type h1 h2 h0 hin hfd he
    refine ⟨h.1, h.2, fun hpos => ?_, fun hz => ?_⟩
    · rw [(h.2 (by omega)).2]
      exact hpos
    · rw [(h.2 (by omega)).2]
      exact hz

set_option maxRecDepth 100000 in
/-- Witness of C24: four unset slots; after registering thread 1, unregistering it and
registering thread 2 the handle of slot 1 is 0 or above 0, and registering thread 1 in the
unset state returns 0 and leaves the descriptor 1000 in the slot. -/
theorem slot_protocol_witness :
    ((((unsetExample.performAll exampleOsThreads
          [ThreadCall.register 1, ThreadCall.unregister 1, ThreadCall.register 2]).slot 1)._fd = 0
        ∨ 0 < ((unsetExample.performAll exampleOsThreads
          [ThreadCall.register 1, ThreadCall.unregister 1, ThreadCall.register 2]).slot 1)._fd))
      ∧ (unsetExample.registerThread exampleOsThreads 1).1 = 0
      ∧ ((unsetExample.registerThread exampleOsThreads 1).2.slot 1)._fd
          = (unsetExample.openAnswer exampleOsThreads 1 0).1
      ∧ (unsetExample.openAnswer exampleOsThreads 1 0).1 = 1000 :=
  ⟨(slot_protocol exampleOsThreads (fun n _ _ => by
        show (-1 : Int) ≤ 1000 + (n : Int)
        omega) unsetExample unsetExample_slot).1 _ 1,
    (((slot_protocol exampleOsThreads (fun n _ _ => by
        show (-1 : Int) ≤ 1000 + (n : Int)
        omega) unsetExample unsetExample_slot).2 unsetExample 1 0 (by decide) (by decide)
        (by decide) (by decide) (by decide) rfl).2.1 (by decide)).1,
    (((slot_protocol exampleOsThreads (fun n _ _ => by
        show (-1 : Int) ≤ 1000 + (n : Int)
        omega) unsetExample unsetExample_slot).2 unsetExample 1 0 (by decide) (by decide)
        (by decide) (by decide) (by decide) rfl).2.1 (by decide)).2,
    by decide⟩

set_option maxRecDepth 100000 in
/-- Counterexample to C24 as stated: where `perf_event_open` answers the descriptor 0,
`registerThread(1)` on an unset slot opens the counter, configures and enables it, closes
nothing and returns 0, yet the slot ends with the handle 0, which reads as unset; a second
`registerThread(1)` then opens a counter for the thread again. -/
theorem register_descriptor_zero_counterexample :
    (unsetExample.slot 1)._fd = 0
      ∧ (unsetExample.openAnswer exampleOsZero 1 0).1 = 0
      ∧ (unsetExample.registerThread exampleOsZero 1).1 = 0
      ∧ ((unsetExample.registerThread exampleOsZero 1).2.slot 1)._fd = 0
      ∧ OsCall.ioctl_REFRESH 0 ∈ (unsetExample.registerThread exampleOsZero 1).2.calls
      ∧ OsCall.close 0 ∉ (unsetExample.registerThread exampleOsZero 1).2.calls
      ∧ (unsetExample.registerThread exampleOsZero 1).2.calls.length = 6
      ∧ ((unsetExample.registerThread exampleOsZero 1).2.registerThread
            exampleOsZero 1).2.calls.length = 12 := by
  decide

/-! ## Theorems: the kernel ring-buffer walker -/

theorem Walk.frame_offset (m : RingMemory) (max_depth : Int) (w : Walk) (iptr : Nat) :
    (Walk.frame m max_depth w iptr).1._offset = w._offset := by
  unfold Walk.frame
  split_ifs <;> rfl

theorem Arguments.hashFrom_eq (arg : List Char) (h shift : Nat) (hh : h < 2 ^ shift)
    (hs : shift + 5 * arg.length ≤ 64) :
    Arguments.hashFrom h shift arg = h + 2 ^ shift * hashSum arg := by
  induction arg generalizing h shift with
  | nil => simp [Arguments.hashFrom, hashSum]
  | cons c arg ih =>
    simp only [List.length_cons] at hs
    have hlt : shift < 64 := by omega
    have hx : c.toNat % 32 < 32 := Nat.mod_lt _ (by norm_num)
    have hpow : 2 ^ (shift + 5) = 2 ^ shift * 32 := by rw [pow_add]; norm_num
    have hle : 2 ^ (shift + 5) ≤ 2 ^ 64 := Nat.pow_le_pow_right (by norm_num) (by omega)
    have hpos : 0 < 2 ^ shift := by positivity
    have hprod : 2 ^ shift * (c.toNat % 32) + 2 ^ shift ≤ 2 ^ shift * 32 := by
      have : 2 ^ shift * (c.toNat % 32) + 2 ^ shift = 2 ^ shift * (c.toNat % 32 + 1) := by ring
      rw [this]
      exact Nat.mul_le_mul_left _ (by omega)
    have hor : h ||| ((c.toNat % 32) <<< (shift % 64)) % 2 ^ 64
        = 2 ^ shift * (c.toNat % 32) + h := by
      rw [Nat.mod_eq_of_lt hlt, Nat.shiftLeft_eq, Nat.mul_comm (c.toNat % 32),
        Nat.mod_eq_of_lt (by omega), Nat.or_comm, ← Nat.mul_add_lt_is_or hh]
    unfold Arguments.hashFrom
    rw [hor, ih _ (shift + 5) (by omega) (by omega), hpow]
    simp only [hashSum]
    ring

theorem Arguments.hash_eq_hashSum (arg : List Char) (h : arg.length ≤ 12) :
    Arguments.hash arg = hashSum arg := by
  unfold Arguments.hash
  rw [Arguments.hashFrom_eq arg 0 0 (by norm_num) (by omega)]
  simp

/-- Two strings of lower-case letters with the same low five bits at every position, read as
numbers in base 32, are the same string. -/
theorem hashSum_inj (l1 l2 : List Char) (h1 : ∀ c ∈ l1, 97 ≤ c.toNat ∧ c.toNat ≤ 122)
    (h2 : ∀ c ∈ l2, 97 ≤ c.toNat ∧ c.toNat ≤ 122) (h : hashSum l1 = hashSum l2) : l1 = l2 := by
  induction l1 generalizing l2 with
  | nil =>
    cases l2 with
    | nil => rfl
    | cons c t =>
      have := h2 c (List.mem_cons_self _ _)
      simp only [hashSum] at h
      omega
  | cons c1 t1 ih =>
    cases l2 with
    | nil =>
      have := h1 c1 (List.mem_cons_self _ _)
      simp only [hashSum] at h
      omega
    | cons c2 t2 =>
      have b1 := h1 c1 (List.mem_cons_self _ _)
      have b2 := h2 c2 (List.mem_cons_self _ _)
      simp only [hashSum] at h
      have e1 : c1.toNat = c2.toNat := by omega
      have e2 : hashSum t1 = hashSum t2 := by omega
      have ec : c1 = c2 := by
        rw [← Char.ofNat_toNat c1, ← Char.ofNat_toNat c2, e1]
      rw [ec, ih t2 (fun c hc => h1 c (List.mem_cons_of_mem _ hc))
        (fun c hc => h2 c (List.mem_cons_of_mem _ hc)) e2]

set_option maxRecDepth 100000 in
/-- Every name of the chain is made of at most twelve lower-case letters, and its case
constant is its value in base 32. -/
theorem optionNames_facts : ∀ opt ∈ optionNames,
    caseHash opt = hashSum opt.toList ∧ opt.toList.length ≤ 12
      ∧ ∀ c ∈ opt.toList, 97 ≤ c.toNat ∧ c.toNat ≤ 122 := by
  decide

/-- For an argument of at most twelve lower-case letters the hash meets the constant of a
case exactly when the argument is the name of the case. -/
theorem Arguments.hash_case (arg : List Char) (hlow : ∀ c ∈ arg, 97 ≤ c.toNat ∧ c.toNat ≤ 122)
    (hlen : arg.length ≤ 12) (opt : String) (hopt : opt ∈ optionNames) :
    Arguments.hash arg = caseHash opt ↔ arg = opt.toList := by
  obtain ⟨e, hl, hc⟩ := optionNames_facts opt hopt
  rw [Arguments.hash_eq_hashSum arg hlen, e]
  constructor
  · exact hashSum_inj arg opt.toList hlow hc
  · intro h
    rw [h]

set_option maxRecDepth 100000 in
/-- An argument whose hash meets none of the case constants takes the default branch. -/
theorem Arguments.parseArg_default (k : ArgumentsH) (a : ParsedArguments) (arg : List Char)
    (value : Option (List Char)) (h : ∀ opt ∈ optionNames, Arguments.hash arg ≠ caseHash opt) :
    Arguments.parseArg k a arg value
      = { a with
          _unknown_arg := if a._unknown_arg = none then some arg else a._unknown_arg } := by
  unfold Arguments.parseArg
  dsimp only
  rw [if_neg (h "start" (by decide)), if_neg (h "resume" (by decide)),
    if_neg (h "stop" (by decide)), if_neg (h "check" (by decide)),
    if_neg (h "status" (by decide)), if_neg (h "list" (by decide)),
    if_neg (h "version" (by decide)), if_neg (h "jfr" (by decide)),
    if_neg (h "cpu" (by decide)), if_neg (h "wall" (by decide)),
    if_neg (h "walltpt" (by decide)), if_neg (h "event" (by decide)),
    if_neg (h "memory" (by decide)), if_neg (h "generations" (by decide)),
    if_neg (h "interval" (by decide)), if_neg (h "jstackdepth" (by decide)),
    if_neg (h "safemode" (by decide)), if_neg (h "file" (by decide)),
    if_neg (h "log" (by decide)), if_neg (h "loglevel" (by decide)),
    if_neg (h "filter" (by decide)), if_neg (h "allkernel" (by decide)),
    if_neg (h "alluser" (by decide)), if_neg (h "cstack" (by decide)),
    if_neg (h "attributes" (by decide)), if_neg (h "lightweight" (by decide)),
    if_neg (h "wallsampler" (by decide))]
  split_ifs with hu
  · rfl
  · rfl

/-- C27 (amended). For an argument name of at most twelve lower-case letters, the chain of
`Arguments::parse` takes the case written for an option name exactly when the argument is
that name; when the argument is none of the names the chain is written for, it changes no
member except `_unknown_arg`, which records the argument if nothing was recorded before. -/
theorem parse_option_names (k : ArgumentsH) (a : ParsedArguments) (arg : List Char)
    (value : Option (List Char)) (hlow : ∀ c ∈ arg, 97 ≤ c.toNat ∧ c.toNat ≤ 122)
    (hlen : arg.length ≤ 12) :
    (∀ opt ∈ optionNames, Arguments.hash arg = caseHash opt ↔ arg = opt.toList)
    ∧ ((∀ opt ∈ optionNames, arg ≠ opt.toList) →
        Arguments.parseArg k a arg value
          = { a with
              _unknown_arg :=
                if a._unknown_arg = none then some arg else a._unknown_arg }) := by
  refine ⟨fun opt hopt => Arguments.hash_case arg hlow hlen opt hopt, fun hne => ?_⟩
  exact Arguments.parseArg_default k a arg value
    (fun opt hopt h => hne opt hopt ((Arguments.hash_case arg hlow hlen opt hopt).1 h))

set_option maxRecDepth 100000 in
/-- Witness of C27: `verbose` is none of the names; its hash differs from the constant of
`version`, and it is recorded as the unknown argument. -/
theorem parse_option_names_witness :
    (Arguments.hash "verbose".toList = caseHash "version" ↔ "verbose".toList = "version".toList)
      ∧ Arguments.parseArg exampleArgumentsH exampleArguments "verbose".toList none
        = { exampleArguments with
            _unknown_arg :=
              if exampleArguments._unknown_arg = none then some "verbose".toList
              else exampleArguments._unknown_arg } :=
  ⟨(parse_option_names exampleArgumentsH exampleArguments "verbose".toList none (by decide)
      (by decide)).1 "version" (by decide),
    (parse_option_names exampleArgumentsH exampleArguments "verbose".toList none (by decide)
      (by decide)).2 (by decide)⟩

set_option maxRecDepth 100000 in
/-- Counterexample to C27 as stated: `START` and `s4art` are not option names, yet their
hashes are the constant of the case `start`, and `parse` handles each of them as `start`: it
sets the action and records no unknown argument. -/
theorem parse_collision_counterexample :
    "START" ∉ optionNames ∧ "s4art" ∉ optionNames
      ∧ Arguments.hash "START".toList = caseHash "start"
      ∧ Arguments.hash "s4art".toList = caseHash "start"
      ∧ (Arguments.parse exampleArgumentsH exampleArguments (some "START".toList)).2._action
          = exampleArgumentsH.ACTION_START
      ∧ (Arguments.parse exampleArgumentsH exampleArguments
          (some "START".toList)).2._unknown_arg = none
      ∧ (Arguments.parse exampleArgumentsH exampleArguments (some "s4art".toList)).2._action
          = exampleArgumentsH.ACTION_START
      ∧ (Arguments.parse exampleArgumentsH exampleArguments
          (some "s4art".toList)).2._unknown_arg = none
      ∧ exampleArguments._action ≠ exampleArgumentsH.ACTION_START := by
  decide

/-! ## Theorems: the option `generations` -/

theorem Arguments.parse_gc_generations (k : ArgumentsH) (a : ParsedArguments)
    (s : List Char) :
    (Arguments.parse k a (some s)).2._gc_generations
      = (Arguments.parseLoop k { a with msg := none } (strtokAll s))._gc_generations := by
  unfold Arguments.parse
  dsimp only
  split_ifs <;> rfl

set_option maxRecDepth 100000 in
theorem Arguments.parseArg_generations (k : ArgumentsH) (a : ParsedArguments)
    (value : Option (List Char)) :
    Arguments.parseArg k a "generations".toList value = Arguments.caseGenerations a value := by
  unfold Arguments.parseArg
  dsimp only
  rw [if_neg (by decide), if_neg (by decide), if_neg (by decide), if_neg (by decide),
    if_neg (by decide), if_neg (by decide), if_neg (by decide), if_neg (by decide),
    if_neg (by decide), if_neg (by decide), if_neg (by decide), if_neg (by decide),
    if_neg (by decide), if_pos (by decide)]

theorem Arguments.caseGenerations_flag (a : ParsedArguments) (value : Option (List Char)) :
    (Arguments.caseGenerations a value)._gc_generations = decide (value = some "true".toList) := by
  unfold Arguments.caseGenerations
  dsimp only
  split_ifs <;> rfl

set_option maxRecDepth 100000 in
/-- C21, the code at the failing input. Whatever the members were before, after
`parse("generations")`, the form that the option list documents, `_gc_generations` is false;
it is true after `parse("generations=true")`. -/
theorem generations_without_value (k : ArgumentsH) (a : ParsedArguments) :
    (Arguments.parse k a (some "generations".toList)).2._gc_generations = false
      ∧ (Arguments.parse k a (some "generations=true".toList)).2._gc_generations = true := by
  have t1 : strtokAll "generations".toList = ["generations".toList] := by decide
  have t2 : strtokAll "generations=true".toList = ["generations=true".toList] := by decide
  have c1 : cutAt "generations".toList '=' = ("generations".toList, none) := by decide
  have c2 : cutAt "generations=true".toList '='
      = ("generations".toList, some "true".toList) := by decide
  constructor
  · rw [Arguments.parse_gc_generations, t1]
    unfold Arguments.parseLoop
    rw [List.foldl_cons, List.foldl_nil, c1]
    dsimp only
    rw [Arguments.parseArg_generations, Arguments.caseGenerations_flag]
    decide
  · rw [Arguments.parse_gc_generations, t2]
    unfold Arguments.parseLoop
    rw [List.foldl_cons, List.foldl_nil, c2]
    dsimp only
    rw [Arguments.parseArg_generations, Arguments.caseGenerations_flag]
    decide

/-! ## Theorems: `parseUnits` -/

theorem scanDigits_stop (base acc : Nat) (c : Char) (h : isDigitOf base c = false) :
    scanDigits base acc [c] = (acc, [c]) := by
  unfold isDigitOf at h
  unfold scanDigits
  rcases hd : digitVal c with _ | d
  · rfl
  · rw [hd] at h
    simp only [decide_eq_false_iff_not] at h
    simp only [if_neg h]

theorem isDigitOf_mono (b1 b2 : Nat) (c : Char) (hb : b1 ≤ b2) (h : isDigitOf b2 c = false) :
    isDigitOf b1 c = false := by
  unfold isDigitOf at h ⊢
  rcases hd : digitVal c with _ | d
  · rfl
  · rw [hd] at h
    simp only [decide_eq_false_iff_not] at h ⊢
    omega

/-- `strtoCore` with base 0 on a minus sign followed by a decimal digit other than 0. -/
theorem strtoCore_minus_zero (d : Nat) (t : List Char) (hd : d < 10) (hpos : 0 < d) :
    strtoCore ('-' :: digitChar d :: t) 0
      = (true, (scanDigits 10 0 (digitChar d :: t)).1, (scanDigits 10 0 (digitChar d :: t)).2) := by
  have hdig := isDigitOf_digitChar 10 d hd (by norm_num)
  obtain ⟨_, _, _, _, _, _, _, hz⟩ := digitChar_facts d (by omega)
  have hne : digitChar d ≠ '0' := fun h => by have := hz.1 h; omega
  have hdw : ('-' :: digitChar d :: t).dropWhile isspace = '-' :: digitChar d :: t := by
    rw [List.dropWhile_cons_of_neg (by decide)]
  have c0 : charAt ('-' :: digitChar d :: t) 0 = '-' := rfl
  have d1 : ('-' :: digitChar d :: t).drop 1 = digitChar d :: t := rfl
  unfold strtoCore
  dsimp only
  rw [hdw, c0, if_pos (Or.inl rfl), d1]
  simp [hne, hdig, charAt_cons_zero]

/-- `strtoCore` with base 0 on the decimal notation of an integer, followed by nothing or by
one character that is not a decimal digit: sign, magnitude, and the character left unread. -/
theorem strtoCore_unit (n : Int) (hlo : -(10 : Int) ^ 64 < n) (hhi : n < 10 ^ 64)
    (rest : List Char) (hrest : rest = [] ∨ ∃ c, rest = [c] ∧ isDigitOf 10 c = false) :
    strtoCore (intText n ++ rest) 0 = (decide (n < 0), n.natAbs, rest) := by
  have hstop : ∀ acc, scanDigits 10 acc rest = (acc, rest) := by
    intro acc
    rcases hrest with h | ⟨c, h, hc⟩
    · rw [h]; rfl
    · rw [h]; exact scanDigits_stop 10 acc c hc
  unfold intText
  by_cases hneg : n < 0
  · rw [if_pos hneg, decide_eq_true hneg]
    have hm : (-n).toNat < 10 ^ 64 := by omega
    have hmpos : 0 < (-n).toNat := by omega
    obtain ⟨d, t, he, hd, hdpos⟩ :=
      digitsOf_head 10 (by norm_num) 64 (-n).toNat (by norm_num) hm
    have hscan := scanDigits_digitsOf 10 (by norm_num) (by norm_num) 64 (-n).toNat 0 rest hm
    unfold decimal
    rw [List.cons_append, he, List.cons_append, strtoCore_minus_zero d (t ++ rest) hd
      (hdpos hmpos), ← List.cons_append, ← he, hscan, hstop]
    simp only [Nat.zero_mul, Nat.zero_add, Prod.mk.injEq, true_and, and_true]
    omega
  · rw [if_neg hneg, decide_eq_false hneg]
    have hm : n.toNat < 10 ^ 64 := by omega
    have hnat : n.natAbs = n.toNat := by omega
    rw [hnat]
    rcases Nat.eq_zero_or_pos n.toNat with h0 | h0
    · rw [h0]
      rcases hrest with h | ⟨c, h, hc⟩
      · rw [h]; decide
      · rw [h]
        have h8 := isDigitOf_mono 8 10 c (by norm_num) hc
        have e : decimal 0 ++ [c] = ['0', c] := rfl
        have hc2 : charAt ['0', c] 2 = Char.ofNat 0 := rfl
        have h16 : isDigitOf 16 (Char.ofNat 0) = false := by decide
        have hd0 : isDigitOf 8 '0' = true := by decide
        have hs0 : scanDigits 8 0 ['0', c] = scanDigits 8 0 [c] := by
          have := scanDigits_digit 8 0 0 [c] (by norm_num) (by norm_num)
          exact this
        rw [e]
        unfold strtoCore
        have hdw : (['0', c] : List Char).dropWhile isspace = ['0', c] := by
          rw [List.dropWhile_cons_of_neg (by decide)]
        dsimp only
        rw [hdw]
        simp [hc2, h16, charAt_cons_zero, hd0, hs0, scanDigits_stop 8 0 c h8]
    · obtain ⟨d, t, he, hd, hdpos⟩ :=
        digitsOf_head 10 (by norm_num) 64 n.toNat (by norm_num) hm
      have hscan := scanDigits_digitsOf 10 (by norm_num) (by norm_num) 64 n.toNat 0 rest hm
      unfold decimal
      rw [he, List.cons_append, strtoCore_plain 0 10 d (t ++ rest) hd (by norm_num)
        (Or.inr ⟨rfl, rfl, hdpos h0⟩) (by norm_num), ← List.cons_append, ← he, hscan, hstop]
      simp only [Nat.zero_mul, Nat.zero_add]

theorem Arguments.findMultiplier_mem (c : Char) (ms : List Multiplier) (k : Int)
    (h : Arguments.findMultiplier c ms = some k) : ∃ m ∈ ms, m.multiplier = k := by
  induction ms with
  | nil => cases h
  | cons m ms ih =>
    unfold Arguments.findMultiplier at h
    split_ifs at h with h1 h2
    · exact ⟨m, List.mem_cons_self _ _, Option.some.inj h⟩
    · obtain ⟨m1, hm1, e⟩ := ih h
      exact ⟨m1, List.mem_cons_of_mem _ hm1, e⟩

/-- `parseUnits` on the decimal notation of a `long`, followed by nothing or by one character
that is not a decimal digit. -/
theorem Arguments.parseUnits_unit (n : Int) (hlo : -2 ^ 63 ≤ n) (hhi : n < 2 ^ 63)
    (multipliers : List Multiplier) (rest : List Char)
    (hrest : rest = [] ∨ ∃ c, rest = [c] ∧ isDigitOf 10 c = false) :
    Arguments.parseUnits (intText n ++ rest) multipliers
      = if charAt rest 0 = Char.ofNat 0 then n
        else
          (Arguments.findMultiplier (Arguments.lowerCase (charAt rest 0)) multipliers).elim (-1)
            (fun multiplier => toInt64 (n * multiplier)) := by
  have hcore := strtoCore_unit n (by omega) (by omega) rest hrest
  have hres : strtoll (intText n ++ rest) 0 = n := by
    unfold strtoll
    rw [hcore]
    by_cases hneg : n < 0
    · rw [decide_eq_true hneg]
      dsimp only
      omega
    · rw [decide_eq_false hneg]
      dsimp only
      omega
  unfold Arguments.parseUnits
  dsimp only
  rw [hres, hcore]
  dsimp only
  split_ifs
  · rfl
  · rcases Arguments.findMultiplier (Arguments.lowerCase (charAt rest 0)) multipliers
      with _ | k <;> rfl

/-- C29 (amended). For every `long` value `n` written in decimal without leading zeros (with
a minus sign when negative) and every multiplier table:
`parseUnits` returns `n` when nothing follows the number; when one character other than a
decimal digit follows, it returns `n` times the multiplier of the first table entry whose
symbol is that character, upper case taken as lower case, provided the product fits a `long`,
and -1 when no entry has that symbol. Hence for `n ≥ 0` and a table without negative
multipliers, a negative result means exactly that the unit was not found. -/
theorem parseUnits_spec (n : Int) (hlo : -2 ^ 63 ≤ n) (hhi : n < 2 ^ 63)
    (multipliers : List Multiplier) :
    Arguments.parseUnits (intText n) multipliers = n
    ∧ (∀ c : Char, isDigitOf 10 c = false → c ≠ Char.ofNat 0 →
        (∀ k, Arguments.findMultiplier (Arguments.lowerCase c) multipliers = some k →
          -2 ^ 63 ≤ n * k → n * k < 2 ^ 63 →
          Arguments.parseUnits (intText n ++ [c]) multipliers = n * k)
        ∧ (Arguments.findMultiplier (Arguments.lowerCase c) multipliers = none →
          Arguments.parseUnits (intText n ++ [c]) multipliers = -1)
        ∧ (0 ≤ n → (∀ m ∈ multipliers, 0 ≤ m.multiplier) →
          (∀ k, Arguments.findMultiplier (Arguments.lowerCase c) multipliers = some k →
            n * k < 2 ^ 63) →
          (Arguments.parseUnits (intText n ++ [c]) multipliers < 0
            ↔ Arguments.findMultiplier (Arguments.lowerCase c) multipliers = none))) := by
  constructor
  · have h := Arguments.parseUnits_unit n hlo hhi multipliers [] (Or.inl rfl)
    rw [List.append_nil] at h
    rw [h, if_pos (show charAt [] 0 = Char.ofNat 0 from rfl)]
  · intro c hc hnul
    have h := Arguments.parseUnits_unit n hlo hhi multipliers [c] (Or.inr ⟨c, rfl, hc⟩)
    rw [charAt_cons_zero, if_neg hnul] at h
    have hfit : ∀ k : Int, -2 ^ 63 ≤ n * k → n * k < 2 ^ 63 → toInt64 (n * k) = n * k := by
      intro k h1 h2
      unfold toInt64
      omega
    refine ⟨fun k hk h1 h2 => ?_, fun hk => ?_, fun h0 hpos hfits => ⟨fun hlt => ?_, fun hk => ?_⟩⟩
    · rw [h, hk]
      exact hfit k h1 h2
    · rw [h, hk]
      rfl
    · rcases hk : Arguments.findMultiplier (Arguments.lowerCase c) multipliers with _ | k
      · rfl
      · exfalso
        obtain ⟨m, hm, e⟩ := Arguments.findMultiplier_mem _ _ _ hk
        have hk0 : 0 ≤ k := by rw [← e]; exact hpos m hm
        have hnk : 0 ≤ n * k := mul_nonneg h0 hk0
        rw [h, hk] at hlt
        have := hfit k (by omega) (hfits k hk)
        rw [Option.elim] at hlt
        omega
    · rw [h, hk]
      show (-1 : Int) < 0
      decide

set_option maxRecDepth 100000 in
/-- Witness of C29: `10`, `10M` and `10x` with the table `NANOS`. -/
theorem parseUnits_spec_witness :
    Arguments.parseUnits (intText 10) NANOS = 10
      ∧ Arguments.parseUnits (intText 10 ++ ['M']) NANOS = 10 * 1000000
      ∧ Arguments.parseUnits (intText 10 ++ ['x']) NANOS = -1
      ∧ intText 10 ++ ['M'] = "10M".toList :=
  ⟨(parseUnits_spec 10 (by decide) (by decide) NANOS).1,
    ((parseUnits_spec 10 (by decide) (by decide) NANOS).2 'M' (by decide) (by decide)).1
      1000000 (by decide) (by decide) (by decide),
    ((parseUnits_spec 10 (by decide) (by decide) NANOS).2 'x' (by decide) (by decide)).2.1
      (by decide),
    by decide⟩

set_option maxRecDepth 100000 in
/-- Counterexample to C29 as stated: `parseUnits` reads the number with base 0. The integer 8
written `08` gives -1, the integer 10 written `010` gives 8, the integer 16 written `0x10` and
followed by the unit `b`, whose multiplier in `BYTES` is 1, gives 267, and the integer 1
written `0x1` and followed by the unit `d` of `SECONDS` gives 29. -/
theorem parseUnits_prefix_counterexample :
    Arguments.parseUnits "08".toList NANOS = -1
      ∧ Arguments.parseUnits "010".toList NANOS = 8
      ∧ Arguments.findMultiplier 'b' BYTES = some 1
      ∧ Arguments.parseUnits "0x10".toList BYTES = 16
      ∧ Arguments.parseUnits "0x10b".toList BYTES = 267
      ∧ Arguments.findMultiplier 'd' SECONDS = some 86400
      ∧ Arguments.parseUnits "0x1d".toList SECONDS = 29 := by
  decide

end JavaProfiler
